import Mathlib

/-!
# pvz-service: reception lifecycle and product ledger

A shallow embedding of `internal/pvz/repository/pg_repository.go` and of the
use case `GetPVZs` of `internal/pvz/usecase/usecase.go`.

The PostgreSQL database is modelled as a `Store`: three tables, each a list of
rows in table order.  Every SQL statement issued by the repository is a function
on the store, and every repository method is the Go control flow around those
statements: it returns the store after the call together with the Go result
(`Except Error α` for `(*α, error)`).

Conventions.
* `uuid.UUID` is `Nat`, `time.Time` is `Int` (only equality and order are used).
* The `date_time` columns are filled by the database on insert; the value the
  database supplies is the extra argument `now` of the inserting methods.
* A method that runs in a transaction works on a copy of the store; the copy
  replaces the store on `Commit`, and is dropped on every error return.
* Connection loss and similar driver failures are not part of the store model:
  the only driver errors are `pgx.ErrNoRows` and constraint violations.  The
  calls a transactional method makes on the driver, for arbitrary answers of
  the driver, are the subject of the second embedding, `Tx.AddProduct`,
  `Tx.DeleteLastProduct` and `Tx.CloseLastReception`.
* `SELECT ... LIMIT 1` without `ORDER BY` returns the first matching row in
  table order; `ORDER BY date_time DESC LIMIT 1` returns the first row in table
  order among those with the greatest `date_time`.
* A join lists its rows in the table order of its left side, then of its right
  side; `ORDER BY` is a stable sort of that list; `SELECT DISTINCT` keeps one
  row of each value.
* An `*int` is an address among the integers of the caller (`Memory`); two
  pointers may hold the same address, and an assignment through one is then
  read through the other.
* A Go slice is a list: a `nil` slice and an empty slice are both `[]`.  The
  loop of `GetPVZs` is embedded a second time, in `Slices`, with slice values
  that tell `nil` from the empty slice.
-/

namespace PvzService

/-! ## Models (`internal/models`) -/

abbrev UUID := Nat

abbrev Time := Int

/-- The struct `models.PVZ`. -/
structure PVZ where
  ID : UUID
  City : String
  RegistrationDate : Time
deriving DecidableEq, Repr

/-- The struct `models.Reception`. -/
structure Reception where
  ID : UUID
  DateTime : Time
  PvzID : UUID
  Status : String
deriving DecidableEq, Repr

/-- The struct `models.Product`; the Go field `Type` is `Type_` here. -/
structure Product where
  ID : UUID
  Type_ : String
  DateTime : Time
  ReceptionID : UUID
deriving DecidableEq, Repr

/-- Modelled from the spec: the generated package `pvzapi` is not among the
sources.  The constant `pvzapi.InProgress` is the status "open" of the
specification; its value is the one the handler tests write into the `status`
column to reopen a reception (`tests/handlers_test.go`, line 882). -/
def InProgress : String := "in_progress"

/-- Modelled from the spec: the generated package `pvzapi` is not among the
sources.  The constant `pvzapi.Close` is the status "closed" of the
specification; its value is the one the handler tests write into the `status`
column to close a reception (`tests/handlers_test.go`, line 870). -/
def Close : String := "close"

/-! ## Errors (`pkg/db/errors.go`) -/

/-- Errors the driver hands to the repository. -/
inductive PgErr where
  | ErrNoRows
  | UniqueViolation
  | ForeignKeyViolation
deriving DecidableEq, Repr

/-- Errors returned by the repository: the sentinels of `pkg/db/errors.go`, and
`fmt.Errorf("%s: %w", op, err)` as `Wrapped op err`. -/
inductive Error where
  | ErrDuplicatePVZ
  | ErrReceptionConflict
  | ErrNoOpenReception
  | ErrNoProducts
  | Wrapped (op : String) (cause : PgErr)
deriving DecidableEq, Repr

/-! ## The store -/

/-- The tables `pvzs`, `receptions` and `products`. -/
structure Store where
  pvzs : List PVZ
  receptions : List Reception
  products : List Product
deriving DecidableEq, Repr

/-- Modelled from the spec: the migrations that declare the tables are not among
the sources; section 6 of the specification gives `receptions(id PK, ...)`.
No two rows of `receptions` share an id. -/
def Store.ReceptionKeysUnique (s : Store) : Prop :=
  (s.receptions.map (fun r => r.ID)).Nodup

/-- Modelled from the spec: the migrations that declare the tables are not among
the sources; section 6 of the specification gives `items(id PK, ...)`.
No two rows of `products` share an id. -/
def Store.ProductKeysUnique (s : Store) : Prop :=
  (s.products.map (fun p => p.ID)).Nodup

instance (s : Store) : Decidable s.ReceptionKeysUnique :=
  inferInstanceAs (Decidable (List.Nodup _))

instance (s : Store) : Decidable s.ProductKeysUnique :=
  inferInstanceAs (Decidable (List.Nodup _))

/-! ## SQL statements -/

/-- The row filter `pvz_id = $1 AND status = $2`. -/
def receptionMatches (pvzID : UUID) (status : String) (r : Reception) : Bool :=
  decide (r.PvzID = pvzID ∧ r.Status = status)

/-- The subquery `SELECT 1 FROM pvzs WHERE id = $2` has a row. -/
def pvzExists (s : Store) (pvzID : UUID) : Bool :=
  s.pvzs.any (fun p => decide (p.ID = pvzID))

/-- The subquery `SELECT 1 FROM receptions WHERE pvz_id = $2 AND status = $3`
has a row. -/
def receptionExists (s : Store) (pvzID : UUID) (status : String) : Bool :=
  s.receptions.any (receptionMatches pvzID status)

/-- The statement of `CreateReception`:
`INSERT INTO receptions (id, pvz_id, status) SELECT $1, $2, $3 WHERE EXISTS (...)
AND NOT EXISTS (...) RETURNING id, date_time, pvz_id, status`.
When the `WHERE` clause fails nothing is selected, nothing is inserted and
`Scan` reports `pgx.ErrNoRows`; otherwise the row is inserted unless its id is
already a primary key of the table. -/
def insertReceptionIfFree (s : Store) (now : Time) (id pvzID : UUID) (status : String) :
    Store × Except PgErr Reception :=
  if pvzExists s pvzID && !receptionExists s pvzID status then
    if s.receptions.any (fun r => decide (r.ID = id)) then
      (s, .error .UniqueViolation)
    else
      let row : Reception := { ID := id, DateTime := now, PvzID := pvzID, Status := status }
      ({ s with receptions := s.receptions ++ [row] }, .ok row)
  else
    (s, .error .ErrNoRows)

/-- The locking read
`SELECT ... FROM receptions WHERE pvz_id = $1 AND status = $2 LIMIT 1 FOR UPDATE`. -/
def selectReceptionForUpdate (s : Store) (pvzID : UUID) (status : String) :
    Except PgErr Reception :=
  match s.receptions.find? (receptionMatches pvzID status) with
  | some r => .ok r
  | none => .error .ErrNoRows

/-- The statement
`INSERT INTO products (id, type, reception_id) VALUES ($1, $2, $3) RETURNING ...`. -/
def insertProduct (s : Store) (now : Time) (id : UUID) (type : String) (receptionID : UUID) :
    Store × Except PgErr Product :=
  if s.products.any (fun p => decide (p.ID = id)) then
    (s, .error .UniqueViolation)
  else if !s.receptions.any (fun r => decide (r.ID = receptionID)) then
    (s, .error .ForeignKeyViolation)
  else
    let row : Product := { ID := id, Type_ := type, DateTime := now, ReceptionID := receptionID }
    ({ s with products := s.products ++ [row] }, .ok row)

/-- The rows `SELECT ... FROM products WHERE reception_id = $1`. -/
def productsOf (s : Store) (receptionID : UUID) : List Product :=
  s.products.filter (fun p => decide (p.ReceptionID = receptionID))

/-- The row picked by `ORDER BY date_time DESC LIMIT 1`. -/
def latestProduct : List Product → Option Product
  | [] => none
  | p :: ps =>
    match latestProduct ps with
    | some q => if p.DateTime < q.DateTime then some q else some p
    | none => some p

/-- The statement `DELETE FROM products WHERE id = (SELECT id FROM products WHERE
reception_id = $1 ORDER BY date_time DESC LIMIT 1) RETURNING id`.
With no product in the reception the subquery is `NULL`, no row is deleted and
`Scan` reports `pgx.ErrNoRows`. -/
def deleteLatestProduct (s : Store) (receptionID : UUID) : Store × Except PgErr UUID :=
  match latestProduct (productsOf s receptionID) with
  | none => (s, .error .ErrNoRows)
  | some p => ({ s with products := s.products.filter (fun q => decide (q.ID ≠ p.ID)) }, .ok p.ID)

/-- The statement `UPDATE receptions SET status = $1 WHERE id = $2`. -/
def updateReceptionStatus (s : Store) (status : String) (id : UUID) : Store :=
  { s with receptions :=
      s.receptions.map (fun r => if r.ID = id then { r with Status := status } else r) }

/-! ## Repository methods -/

/-- The method `pvzRepo.CreateReception`. -/
def CreateReception (s : Store) (now : Time) (receptionID pvzID : UUID) :
    Store × Except Error Reception :=
  let defaultStatus := InProgress
  match insertReceptionIfFree s now receptionID pvzID defaultStatus with
  | (s1, .ok reception) => (s1, .ok reception)
  | (s1, .error .ErrNoRows) => (s1, .error .ErrReceptionConflict)
  | (s1, .error e) => (s1, .error (.Wrapped "repository.CreateReception" e))

/-- The method `pvzRepo.AddProduct`. -/
def AddProduct (s : Store) (now : Time) (productID pvzID : UUID) (productType : String) :
    Store × Except Error Product :=
  let allowedStatus := InProgress
  match selectReceptionForUpdate s pvzID allowedStatus with
  | .error .ErrNoRows => (s, .error .ErrNoOpenReception)
  | .error e => (s, .error (.Wrapped "repository.AddProduct" e))
  | .ok row =>
    let receptionID := row.ID
    match insertProduct s now productID productType receptionID with
    | (_, .error e) => (s, .error (.Wrapped "repository.AddProduct" e))
    | (tx, .ok product) => (tx, .ok product)

/-- The method `pvzRepo.DeleteLastProduct`; `Except.ok ()` is the `nil` error. -/
def DeleteLastProduct (s : Store) (pvzID : UUID) : Store × Except Error Unit :=
  let allowedStatus := InProgress
  match selectReceptionForUpdate s pvzID allowedStatus with
  | .error .ErrNoRows => (s, .error .ErrNoOpenReception)
  | .error e => (s, .error (.Wrapped "repository.DeleteLastProduct" e))
  | .ok row =>
    let receptionID := row.ID
    match deleteLatestProduct s receptionID with
    | (_, .error .ErrNoRows) => (s, .error .ErrNoProducts)
    | (_, .error e) => (s, .error (.Wrapped "repository.DeleteLastProduct" e))
    | (tx, .ok _) => (tx, .ok ())

/-- The method `pvzRepo.CloseLastReception`.  `Scan` fills `ID`, `DateTime` and
`PvzID` of the result; `Status` is assigned after the update. -/
def CloseLastReception (s : Store) (pvzID : UUID) : Store × Except Error Reception :=
  let allowedStatus := InProgress
  match selectReceptionForUpdate s pvzID allowedStatus with
  | .error .ErrNoRows => (s, .error .ErrNoOpenReception)
  | .error e => (s, .error (.Wrapped "repository.CloseLastReception" e))
  | .ok row =>
    let reception : Reception :=
      { ID := row.ID, DateTime := row.DateTime, PvzID := row.PvzID, Status := "" }
    let newStatus := Close
    let tx := updateReceptionStatus s newStatus reception.ID
    (tx, .ok { reception with Status := newStatus })

/-! ## The one-open-reception invariant and sequences of calls -/

deriving instance DecidableEq for Except

/-- The number of receptions of site `pvzID` whose status is `in_progress`. -/
def openCount (s : Store) (pvzID : UUID) : Nat :=
  s.receptions.countP (receptionMatches pvzID InProgress)

/-- Every site has at most one reception with status `in_progress`. -/
def Store.OneOpenReception (s : Store) : Prop :=
  ∀ pvzID : UUID, openCount s pvzID ≤ 1

/-- One call of a writing repository method, with its arguments. -/
inductive Call where
  | CreateReception (now : Time) (receptionID pvzID : UUID)
  | CloseLastReception (pvzID : UUID)
  | AddProduct (now : Time) (productID pvzID : UUID) (productType : String)
  | DeleteLastProduct (pvzID : UUID)
deriving DecidableEq, Repr

/-- The store after one call. -/
def Call.exec (s : Store) : Call → Store
  | .CreateReception now receptionID pvzID => (PvzService.CreateReception s now receptionID pvzID).1
  | .CloseLastReception pvzID => (PvzService.CloseLastReception s pvzID).1
  | .AddProduct now productID pvzID productType =>
    (PvzService.AddProduct s now productID pvzID productType).1
  | .DeleteLastProduct pvzID => (PvzService.DeleteLastProduct s pvzID).1

/-- The store after a sequence of calls executed one after another. -/
def execAll (s : Store) (calls : List Call) : Store :=
  calls.foldl Call.exec s

/-! ## Example stores -/

/-- One site with one open reception holding two products. -/
def storeOpen : Store :=
  { pvzs := [⟨1, "Москва", 0⟩],
    receptions := [⟨10, 5, 1, InProgress⟩],
    products := [⟨100, "обувь", 7, 10⟩, ⟨101, "одежда", 8, 10⟩] }

/-- One site whose only reception is closed. -/
def storeClosed : Store :=
  { pvzs := [⟨1, "Москва", 0⟩],
    receptions := [⟨10, 5, 1, Close⟩],
    products := [⟨100, "обувь", 7, 10⟩] }

/-- One site with a closed reception (one product) and an open reception (two
products). -/
def storeMixed : Store :=
  { pvzs := [⟨1, "Москва", 0⟩],
    receptions := [⟨10, 5, 1, Close⟩, ⟨11, 6, 1, InProgress⟩],
    products := [⟨100, "обувь", 7, 10⟩, ⟨101, "одежда", 8, 11⟩, ⟨102, "обувь", 9, 11⟩] }

/-- One site with two receptions of status `in_progress`, one product each. -/
def storeTwoOpen : Store :=
  { pvzs := [⟨1, "Москва", 0⟩],
    receptions := [⟨10, 5, 1, InProgress⟩, ⟨11, 6, 1, InProgress⟩],
    products := [⟨100, "обувь", 7, 10⟩, ⟨101, "обувь", 8, 11⟩] }

/-- One site with two receptions of status `in_progress`: the first has one
product, the second has none. -/
def storeTwoOpenOneEmpty : Store :=
  { pvzs := [⟨1, "Москва", 0⟩],
    receptions := [⟨10, 5, 1, InProgress⟩, ⟨11, 6, 1, InProgress⟩],
    products := [⟨100, "обувь", 7, 10⟩] }

/-! ## Transactions as sequences of driver calls

The transactional methods `AddProduct`, `DeleteLastProduct` and
`CloseLastReception` are embedded a second time, at the level of the calls they
make on `DB` and `pgx.Tx`.  The answers of the driver are given, as in the
repository tests, and the result is the list of calls made together with the
value returned. -/

/-- A call on `DB` or on the transaction. -/
inductive TxCall where
  | Begin
  | QueryRow
  | Exec
  | Commit
  | Rollback
deriving DecidableEq, Repr

/-- The answers of the driver in one execution: the error of `Begin` and of
`Commit` if any, the row or error of the locking select, and the row or error
of the statement that writes. -/
structure TxAnswers (α β : Type) where
  begin : Option PgErr
  lockingSelect : Except PgErr α
  write : Except PgErr β
  commit : Option PgErr

/-- The deferred function of the transactional methods:
`if err != nil { tx.Rollback(ctx) }`, run when the method returns, on the value
the method's variable `err` has at that moment. -/
def Tx.deferred (err : Option PgErr) (calls : List TxCall) : List TxCall :=
  match err with
  | some _ => calls ++ [.Rollback]
  | none => calls

/-- The method `pvzRepo.AddProduct` as calls on the transaction.  The variable
`err` holds the error of the last statement; `if err := tx.Commit(ctx)` declares
a new variable, so at a return after `Commit` the captured `err` is still `nil`. -/
def Tx.AddProduct (db : TxAnswers UUID Product) : List TxCall × Except Error Product :=
  match db.begin with
  | some err => ([.Begin], .error (.Wrapped "repository.AddProduct" err))
  | none =>
    match db.lockingSelect with
    | .error .ErrNoRows =>
      (Tx.deferred (some .ErrNoRows) [.Begin, .QueryRow], .error .ErrNoOpenReception)
    | .error err =>
      (Tx.deferred (some err) [.Begin, .QueryRow], .error (.Wrapped "repository.AddProduct" err))
    | .ok _ =>
      match db.write with
      | .error err =>
        (Tx.deferred (some err) [.Begin, .QueryRow, .QueryRow],
          .error (.Wrapped "repository.AddProduct" err))
      | .ok product =>
        match db.commit with
        | some commitErr =>
          (Tx.deferred none [.Begin, .QueryRow, .QueryRow, .Commit],
            .error (.Wrapped "repository.AddProduct" commitErr))
        | none => (Tx.deferred none [.Begin, .QueryRow, .QueryRow, .Commit], .ok product)

/-- The method `pvzRepo.DeleteLastProduct` as calls on the transaction. -/
def Tx.DeleteLastProduct (db : TxAnswers UUID UUID) : List TxCall × Except Error Unit :=
  match db.begin with
  | some err => ([.Begin], .error (.Wrapped "repository.DeleteLastProduct" err))
  | none =>
    match db.lockingSelect with
    | .error .ErrNoRows =>
      (Tx.deferred (some .ErrNoRows) [.Begin, .QueryRow], .error .ErrNoOpenReception)
    | .error err =>
      (Tx.deferred (some err) [.Begin, .QueryRow],
        .error (.Wrapped "repository.DeleteLastProduct" err))
    | .ok _ =>
      match db.write with
      | .error .ErrNoRows =>
        (Tx.deferred (some .ErrNoRows) [.Begin, .QueryRow, .QueryRow], .error .ErrNoProducts)
      | .error err =>
        (Tx.deferred (some err) [.Begin, .QueryRow, .QueryRow],
          .error (.Wrapped "repository.DeleteLastProduct" err))
      | .ok _ =>
        match db.commit with
        | some commitErr =>
          (Tx.deferred none [.Begin, .QueryRow, .QueryRow, .Commit],
            .error (.Wrapped "repository.DeleteLastProduct" commitErr))
        | none => (Tx.deferred none [.Begin, .QueryRow, .QueryRow, .Commit], .ok ())

/-- The method `pvzRepo.CloseLastReception` as calls on the transaction; the
locking select scans `id`, `date_time` and `pvz_id` into a `Reception`, the
update goes through `Exec`. -/
def Tx.CloseLastReception (db : TxAnswers Reception Unit) :
    List TxCall × Except Error Reception :=
  match db.begin with
  | some err => ([.Begin], .error (.Wrapped "repository.CloseLastReception" err))
  | none =>
    match db.lockingSelect with
    | .error .ErrNoRows =>
      (Tx.deferred (some .ErrNoRows) [.Begin, .QueryRow], .error .ErrNoOpenReception)
    | .error err =>
      (Tx.deferred (some err) [.Begin, .QueryRow],
        .error (.Wrapped "repository.CloseLastReception" err))
    | .ok reception =>
      match db.write with
      | .error err =>
        (Tx.deferred (some err) [.Begin, .QueryRow, .Exec],
          .error (.Wrapped "repository.CloseLastReception" err))
      | .ok _ =>
        match db.commit with
        | some commitErr =>
          (Tx.deferred none [.Begin, .QueryRow, .Exec, .Commit],
            .error (.Wrapped "repository.CloseLastReception" commitErr))
        | none =>
          (Tx.deferred none [.Begin, .QueryRow, .Exec, .Commit],
            .ok { reception with Status := Close })

/-! ## The read model: repository `GetPVZs`

Pointers of the Go loop: `result` holds a pointer to `currentPVZ`, whose
`Receptions` hold a pointer to `currentReception`, and both are still written
to after they were appended.  In `FoldState` an entry is written into its list
when the loop moves on from it, that is when its value no longer changes;
`FoldState.result` is the value of the Go variable `result`. -/

/-- The struct `models.ReceptionWithProducts`. -/
structure ReceptionWithProducts where
  Reception : Reception
  Products : List Product
deriving DecidableEq, Repr

/-- The struct `models.PVZWithReceptions`. -/
structure PVZWithReceptions where
  PVZ : PVZ
  Receptions : List ReceptionWithProducts
deriving DecidableEq, Repr

/-- A comparison on the column `r.date_time`: `sq.GtOrEq` or `sq.LtOrEq`. -/
inductive DateCondition where
  | GtOrEq (bound : Time)
  | LtOrEq (bound : Time)
deriving DecidableEq, Repr

/-- The `conditions` that `GetPVZs` builds from `startDate` and `endDate`. -/
def dateConditions (startDate endDate : Option Time) : List DateCondition :=
  let conditions : List DateCondition := []
  let conditions :=
    match startDate with
    | some d => conditions ++ [.GtOrEq d]
    | none => conditions
  match endDate with
  | some d => conditions ++ [.LtOrEq d]
  | none => conditions

/-- SQL truth of one comparison, given the `date_time` of the joined reception;
a comparison with `NULL` (no joined reception) is not true. -/
def DateCondition.holds : DateCondition → Option Time → Bool
  | .GtOrEq bound, some d => decide (d ≥ bound)
  | .LtOrEq bound, some d => decide (d ≤ bound)
  | _, none => false

/-- The `WHERE` fragment both queries get from `conditions`: nothing when
`len(conditions) = 0`, otherwise the conjunction `sq.And`. -/
def whereDate (conditions : List DateCondition) (dateTime : Option Time) : Bool :=
  if conditions.length > 0 then conditions.all (fun c => c.holds dateTime) else true

/-- The rows of `pvzs p LEFT JOIN receptions r ON r.pvz_id = p.id`. -/
def joinReceptions (s : Store) : List (PVZ × Option Reception) :=
  s.pvzs.flatMap (fun p =>
    match s.receptions.filter (fun r => decide (r.PvzID = p.ID)) with
    | [] => [(p, none)]
    | rs => rs.map (fun r => (p, some r)))

/-- The rows of
`pvzs p LEFT JOIN receptions r ON ... LEFT JOIN products pr ON pr.reception_id = r.id`. -/
def joinProducts (s : Store) : List (PVZ × Option Reception × Option Product) :=
  (joinReceptions s).flatMap (fun row =>
    match row.2 with
    | none => [(row.1, none, none)]
    | some r =>
      match s.products.filter (fun pr => decide (pr.ReceptionID = r.ID)) with
      | [] => [(row.1, some r, none)]
      | prs => prs.map (fun pr => (row.1, some r, some pr)))

/-- Phase 1: `SELECT DISTINCT p.id FROM pvzs p LEFT JOIN receptions r ...
[WHERE conditions] LIMIT limit OFFSET offset`. -/
def selectPvzIDs (s : Store) (conditions : List DateCondition) (limit offset : Nat) :
    List UUID :=
  (((((joinReceptions s).filter
    (fun row => whereDate conditions (row.2.map (fun r => r.DateTime)))).map
    (fun row => row.1.ID)).dedup).drop offset).take limit

/-- The columns `r.id`, `r.date_time`, `r.status` of a row of phase 2. -/
structure ReceptionColumns where
  ID : UUID
  DateTime : Time
  Status : String
deriving DecidableEq, Repr

/-- The columns `pr.id`, `pr.type`, `pr.date_time` of a row of phase 2. -/
structure ProductColumns where
  ID : UUID
  Type_ : String
  DateTime : Time
deriving DecidableEq, Repr

/-- A scanned row of phase 2.  The three reception columns come from one side of
an outer join and are `NULL` together, and so are the three product columns:
`reception` is `none` when `receptionID` is `nil`, `product` is `none` when
`productID` is `nil`. -/
structure Row where
  pvzID : UUID
  pvzCity : String
  pvzRegistration : Time
  reception : Option ReceptionColumns
  product : Option ProductColumns
deriving DecidableEq, Repr

/-- The value of `r.date_time` in a row. -/
def Row.receptionDate (row : Row) : Option Time :=
  row.reception.map (fun rc => rc.DateTime)

/-- The order `ORDER BY r.date_time DESC`: `NULL` comes first (the default of
PostgreSQL for `DESC`), then the later `date_time` comes first. -/
def Row.before (a b : Row) : Bool :=
  match a.receptionDate, b.receptionDate with
  | none, _ => true
  | some _, none => false
  | some x, some y => decide (y ≤ x)

/-- The selected columns of a joined row. -/
def toRow (j : PVZ × Option Reception × Option Product) : Row :=
  { pvzID := j.1.ID
    pvzCity := j.1.City
    pvzRegistration := j.1.RegistrationDate
    reception := j.2.1.map (fun r => ⟨r.ID, r.DateTime, r.Status⟩)
    product := j.2.2.map (fun pr => ⟨pr.ID, pr.Type_, pr.DateTime⟩) }

/-- Phase 2: `SELECT p.id, ..., pr.date_time FROM pvzs p LEFT JOIN receptions r ...
LEFT JOIN products pr ... WHERE p.id IN (pvzIDs) [AND conditions]
ORDER BY r.date_time DESC`; rows with equal `r.date_time` keep the order of the
join. -/
def selectRows (s : Store) (pvzIDs : List UUID) (conditions : List DateCondition) :
    List Row :=
  (((joinProducts s).filter
    (fun j => decide (j.1.ID ∈ pvzIDs) &&
      whereDate conditions (j.2.1.map (fun r => r.DateTime)))).map toRow).insertionSort
    (fun a b => Row.before a b = true)

/-- The variables of the loop over the rows of phase 2: `done` holds the entries
of `result` before `currentPVZ`, and `currentPVZ.Receptions` the receptions
before `currentReception`. -/
structure FoldState where
  done : List PVZWithReceptions
  currentPVZ : Option PVZWithReceptions
  currentReception : Option ReceptionWithProducts
deriving DecidableEq, Repr

/-- The entry `currentPVZ` points to, with the reception `currentReception`
points to as its last reception. -/
def withCurrentReception (cur : PVZWithReceptions) (cr : Option ReceptionWithProducts) :
    PVZWithReceptions :=
  { cur with Receptions := cur.Receptions ++ cr.toList }

/-- The value of the Go variable `result`. -/
def FoldState.result (st : FoldState) : List PVZWithReceptions :=
  st.done ++ (st.currentPVZ.map (fun cur => withCurrentReception cur st.currentReception)).toList

/-- The state before the first row: `result`, `currentPVZ`, `currentReception`
are `nil`. -/
def FoldState.init : FoldState :=
  { done := [], currentPVZ := none, currentReception := none }

/-- The entry `&models.PVZWithReceptions{...}` started at a row. -/
def newPVZ (row : Row) : PVZWithReceptions :=
  { PVZ := { ID := row.pvzID, City := row.pvzCity, RegistrationDate := row.pvzRegistration }
    Receptions := [] }

/-- The entry `&models.ReceptionWithProducts{...}` started at a row. -/
def newReception (row : Row) (rc : ReceptionColumns) : ReceptionWithProducts :=
  { Reception := { ID := rc.ID, PvzID := row.pvzID, DateTime := rc.DateTime, Status := rc.Status }
    Products := [] }

/-- The `&models.Product{...}` of a row. -/
def newProduct (rc : ReceptionColumns) (pc : ProductColumns) : Product :=
  { ID := pc.ID, DateTime := pc.DateTime, Type_ := pc.Type_, ReceptionID := rc.ID }

/-- The first block of the loop body:
`if currentPVZ == nil || currentPVZ.PVZ.ID != pvzID { ... }`. -/
def stepPVZ (st : FoldState) (row : Row) : FoldState :=
  match st.currentPVZ with
  | none => { done := st.done, currentPVZ := some (newPVZ row), currentReception := none }
  | some cur =>
    if cur.PVZ.ID ≠ row.pvzID then
      { done := st.done ++ [withCurrentReception cur st.currentReception]
        currentPVZ := some (newPVZ row)
        currentReception := none }
    else st

/-- The block `if currentReception == nil || currentReception.Reception.ID !=
*receptionID { ... }`, run when `receptionID != nil`; `cur` is `currentPVZ`. -/
def stepReception (cur : PVZWithReceptions) (cr : Option ReceptionWithProducts) (row : Row)
    (rc : ReceptionColumns) : PVZWithReceptions × ReceptionWithProducts :=
  match cr with
  | none => (cur, newReception row rc)
  | some r =>
    if r.Reception.ID ≠ rc.ID then (withCurrentReception cur (some r), newReception row rc)
    else (cur, r)

/-- The block `if productID != nil { ... }`. -/
def stepProduct (r : ReceptionWithProducts) (rc : ReceptionColumns)
    (product : Option ProductColumns) : ReceptionWithProducts :=
  match product with
  | some pc => { r with Products := r.Products ++ [newProduct rc pc] }
  | none => r

/-- One iteration of the loop `for rows.Next() { ... }`. -/
def foldRow (st : FoldState) (row : Row) : FoldState :=
  let st1 := stepPVZ st row
  match row.reception, st1.currentPVZ with
  | some rc, some cur =>
    let next := stepReception cur st1.currentReception row rc
    { done := st1.done
      currentPVZ := some next.1
      currentReception := some (stepProduct next.2 rc row.product) }
  | _, _ => st1

/-- The loop over the rows of phase 2, and the final value of `result`. -/
def foldRows (rows : List Row) : List PVZWithReceptions :=
  (rows.foldl foldRow FoldState.init).result

/-- The method `pvzRepo.GetPVZs`. -/
def GetPVZs (s : Store) (startDate endDate : Option Time) (limit offset : Nat) :
    Except Error (List PVZWithReceptions) :=
  let conditions := dateConditions startDate endDate
  let pvzIDs := selectPvzIDs s conditions limit offset
  if pvzIDs.length = 0 then .ok []
  else .ok (foldRows (selectRows s pvzIDs conditions))

/-- Two sites; site 1 has receptions at times 10 and 5, site 2 has one at
time 7. -/
def storeInterleaved : Store :=
  { pvzs := [⟨1, "Москва", 0⟩, ⟨2, "Казань", 0⟩],
    receptions := [⟨10, 10, 1, Close⟩, ⟨11, 7, 2, InProgress⟩, ⟨12, 5, 1, InProgress⟩],
    products := [⟨100, "обувь", 11, 10⟩] }

/-! ## The use case `GetPVZs` (`internal/pvz/usecase/usecase.go`)

Go's `int` is taken as the 64-bit two's complement integer of the 64-bit
targets: a value is an `Int` in `[-2^63, 2^63)`, `wrapInt` is the result of an
arithmetic operation, `toUint64` the conversion `uint64(x)`. -/

/-- The result of an `int` operation whose exact value is `x`. -/
def wrapInt (x : Int) : Int :=
  (x + 2 ^ 63) % 2 ^ 64 - 2 ^ 63

/-- The conversion `uint64(x)` of an `int`. -/
def toUint64 (x : Int) : Nat :=
  (x % 2 ^ 64).toNat

/-- An address of an `int`.  A non-`nil` `*int` points to an address; two
pointers to the same address point to the same integer. -/
abbrev Addr := Nat

/-- The integers of the caller: the value stored at each address. -/
abbrev Memory := Addr → Int

/-- Modelled from the spec: the generated package `pvzapi` is not among the
sources.  The struct `pvzapi.GetPvzParams` has the pointer fields the use case
reads: `Page`, `Limit` (`*int`) and `StartDate`, `EndDate` (`*time.Time`).
`none` is the `nil` pointer; `Page` and `Limit` hold the address they point to,
and they may hold the same one; the times are only read and are given by their
value. -/
structure GetPvzParams where
  Page : Option Addr
  Limit : Option Addr
  StartDate : Option Time
  EndDate : Option Time
deriving DecidableEq, Repr

/-- Errors returned by the use cases: the sentinel `ErrInvalidDateRange`, a
repository error returned as it is (`Repo err`), and
`fmt.Errorf("%s: %w", op, err)` around a repository error (`Wrapped op err`). -/
inductive UseCaseError where
  | ErrInvalidDateRange
  | Repo (err : Error)
  | Wrapped (op : String) (cause : Error)
deriving DecidableEq, Repr

/-- The arguments of one call of `Repository.GetPVZs`; `limit` and `offset` are
`uint64`. -/
structure GetPVZsCall where
  startDate : Option Time
  endDate : Option Time
  limit : Nat
  offset : Nat
deriving DecidableEq, Repr

/-- What a call of the use case `GetPVZs` does: the value it returns, the calls
it makes on the repository, and the integers of the caller after the call. -/
structure GetPVZsOutcome where
  result : Except UseCaseError (List PVZWithReceptions)
  repoCalls : List GetPVZsCall
  memory : Memory

/-- The condition `params.StartDate != nil && params.EndDate != nil &&
params.StartDate.After(*params.EndDate)`. -/
def invalidDateRange (params : GetPvzParams) : Bool :=
  match params.StartDate, params.EndDate with
  | some startDate, some endDate => decide (endDate < startDate)
  | _, _ => false

/-- What an `*int` of the method `GetPVZs` points to: its local variable
`defaultPage`, its local variable `defaultLimit`, or an integer of the caller. -/
inductive IntRef where
  | defaultPage
  | defaultLimit
  | caller (a : Addr)
deriving DecidableEq, Repr

/-- The integers the method `GetPVZs` reaches through its pointers: its two
local variables and the integers of the caller. -/
structure Ints where
  defaultPage : Int
  defaultLimit : Int
  caller : Memory

/-- The read `*p`. -/
def Ints.read (m : Ints) : IntRef → Int
  | .defaultPage => m.defaultPage
  | .defaultLimit => m.defaultLimit
  | .caller a => m.caller a

/-- The assignment `*p = v`. -/
def Ints.write (m : Ints) (p : IntRef) (v : Int) : Ints :=
  match p with
  | .defaultPage => { m with defaultPage := v }
  | .defaultLimit => { m with defaultLimit := v }
  | .caller a => { m with caller := fun b => if b = a then v else m.caller b }

/-- The pointer `params.Page` after the block `if params.Page == nil { ... }`:
a `nil` pointer is replaced by `&defaultPage`. -/
def pageRef (params : GetPvzParams) : IntRef :=
  match params.Page with
  | none => .defaultPage
  | some a => .caller a

/-- The pointer `params.Limit` after the block `if params.Limit == nil { ... }`:
a `nil` pointer is replaced by `&defaultLimit`. -/
def limitRef (params : GetPvzParams) : IntRef :=
  match params.Limit with
  | none => .defaultLimit
  | some a => .caller a

/-- The integers after the blocks `if *params.Page < 1 { *params.Page = 1 }` and
`if *params.Limit < 1 || *params.Limit > 30 { *params.Limit = 10 }`, run in that
order; `defaultPage` is 1 and `defaultLimit` is 10. -/
def normalize (mem : Memory) (params : GetPvzParams) : Ints :=
  let ints : Ints := { defaultPage := 1, defaultLimit := 10, caller := mem }
  let ints := if ints.read (pageRef params) < 1 then ints.write (pageRef params) 1 else ints
  if ints.read (limitRef params) < 1 ∨ ints.read (limitRef params) > 30 then
    ints.write (limitRef params) 10
  else ints

/-- The method `pvzUC.GetPVZs`, over the repository `repo` and the integers
`mem` of the caller.  `params` is passed by value: a `nil` pointer is replaced,
in the copy only, by a pointer to a local variable; an assignment through a
non-`nil` pointer changes the integer of the caller it points to, which the
other pointer reads too when it points to the same integer. -/
def UseCase.GetPVZs (repo : GetPVZsCall → Except Error (List PVZWithReceptions))
    (mem : Memory) (params : GetPvzParams) : GetPVZsOutcome :=
  let ints := normalize mem params
  if invalidDateRange params then
    { result := .error .ErrInvalidDateRange, repoCalls := [], memory := ints.caller }
  else
    let offset := wrapInt (wrapInt (ints.read (pageRef params) - 1) * ints.read (limitRef params))
    let limitU := toUint64 (ints.read (limitRef params))
    let offsetU := toUint64 offset
    let call : GetPVZsCall :=
      { startDate := params.StartDate, endDate := params.EndDate
        limit := limitU, offset := offsetU }
    match repo call with
    | .error err =>
      { result := .error (.Wrapped "PVZ.GetPVZs" err), repoCalls := [call]
        memory := ints.caller }
    | .ok pvzs => { result := .ok pvzs, repoCalls := [call], memory := ints.caller }

/-- The page size the use case is to work with, in the words of the
specification: the requested limit if it lies in `1..30`, otherwise (absent,
below 1, above 30) the default 10. -/
def effectiveLimit (mem : Memory) (params : GetPvzParams) : Int :=
  match params.Limit with
  | some a => if 1 ≤ mem a ∧ mem a ≤ 30 then mem a else 10
  | none => 10

/-- The page the use case is to work with, in the words of the specification:
the requested page if it is at least 1, otherwise (absent or below 1) the
default 1. -/
def effectivePage (mem : Memory) (params : GetPvzParams) : Int :=
  match params.Page with
  | some a => if 1 ≤ mem a then mem a else 1
  | none => 1

/-- The repository `GetPVZs` on a store that does not change, as the
repository of the use case. -/
def storeRepo (s : Store) (call : GetPVZsCall) : Except Error (List PVZWithReceptions) :=
  GetPVZs s call.startDate call.endDate call.limit call.offset

/-- The repository call of the specification for a date range that is not
rejected. -/
def effectiveCall (mem : Memory) (params : GetPvzParams) : GetPVZsCall :=
  { startDate := params.StartDate, endDate := params.EndDate
    limit := toUint64 (effectiveLimit mem params)
    offset := toUint64 (wrapInt ((effectivePage mem params - 1) * effectiveLimit mem params)) }

/-- Integers of the caller for the examples: `page` at address 0, `limit` at
every other address. -/
def memoryOf (page limit : Int) : Memory :=
  fun a => if a = 0 then page else limit

/-- Every site entry of the loop state has a site satisfying `P` and a reception
list satisfying `Q`; the entry in progress is `currentPVZ` with
`currentReception` as its last reception. -/
def FoldState.All (P : PVZ → Prop) (Q : List ReceptionWithProducts → Prop)
    (st : FoldState) : Prop :=
  (∀ e ∈ st.done, P e.PVZ ∧ Q e.Receptions) ∧
    ∀ cur, st.currentPVZ = some cur →
      P cur.PVZ ∧ Q (cur.Receptions ++ st.currentReception.toList)

/-- The `date_time` values of the receptions of an entry, in order. -/
def receptionDates (l : List ReceptionWithProducts) : List Time :=
  l.map (fun rw => rw.Reception.DateTime)

/-! ## Repository `CreatePVZ` -/

/-- The statement `INSERT INTO pvzs (id, city, registration_date) VALUES ($1, $2, $3)
ON CONFLICT (id) DO NOTHING RETURNING id`: with a site of that id stored nothing
is inserted and `Scan` reports `pgx.ErrNoRows`. -/
def insertPvzOnConflictDoNothing (s : Store) (pvz : PVZ) : Store × Except PgErr UUID :=
  if s.pvzs.any (fun p => decide (p.ID = pvz.ID)) then
    (s, .error .ErrNoRows)
  else
    ({ s with pvzs := s.pvzs ++ [pvz] }, .ok pvz.ID)

/-- The method `pvzRepo.CreatePVZ`; `Except.ok ()` is the `nil` error. -/
def CreatePVZ (s : Store) (pvz : PVZ) : Store × Except Error Unit :=
  match insertPvzOnConflictDoNothing s pvz with
  | (s1, .ok _) => (s1, .ok ())
  | (s1, .error .ErrNoRows) => (s1, .error .ErrDuplicatePVZ)
  | (s1, .error e) => (s1, .error (.Wrapped "repository.CreatePVZ" e))

/-! ## The writing use cases (`internal/pvz/usecase/usecase.go`)

A use case returns a value and an error; with a non-`nil` error the value is the
zero value of its type.  The repository is the interface `pvz.Repository`, given
as a function; `uuid.New()` and `time.Now()` are answered by the environment. -/

/-- The value `uuid.Nil`. -/
def uuidNil : UUID := 0

/-- The zero value `time.Time{}`, taken as the origin of `Time`. -/
def zeroTime : Time := 0

/-- The zero value `models.PVZ{}`. -/
def PVZ.zero : PVZ := { ID := uuidNil, City := "", RegistrationDate := zeroTime }

/-- The zero value `models.Reception{}`. -/
def Reception.zero : Reception :=
  { ID := uuidNil, DateTime := zeroTime, PvzID := uuidNil, Status := "" }

/-- The zero value `models.Product{}`. -/
def Product.zero : Product :=
  { ID := uuidNil, Type_ := "", DateTime := zeroTime, ReceptionID := uuidNil }

/-- What `uuid.New()` and `time.Now()` return during one call of a use case. -/
structure Env where
  newUUID : UUID
  now : Time
deriving DecidableEq, Repr

/-- The result of a use case: the value returned, the error returned (`none` is
`nil`), and the arguments of the calls made on the repository. -/
structure UseCaseOutcome (α β : Type) where
  value : α
  err : Option UseCaseError
  repoCalls : List β

/-- The test `errors.Is(err, target)` on a repository error, for a target of
`pkg/db/errors.go`: a repository error wraps driver errors only. -/
def Error.Is (err target : Error) : Bool :=
  decide (err = target)

/-- The test `errors.Is(err, target)` on the error of a use case, for a
repository error `target`. -/
def UseCaseError.Is (err : UseCaseError) (target : Error) : Bool :=
  match err with
  | .ErrInvalidDateRange => false
  | .Repo e => e.Is target
  | .Wrapped _ cause => cause.Is target

/-- The method `pvzUC.CreatePVZ`. -/
def UseCase.CreatePVZ (repo : PVZ → Except Error Unit) (env : Env) (id : Option UUID)
    (city : String) (registrationDate : Option Time) : UseCaseOutcome PVZ PVZ :=
  let pvzID : UUID :=
    match id with
    | none => env.newUUID
    | some i => i
  let regDate : Time :=
    match registrationDate with
    | none => env.now
    | some d => d
  let newPVZ : PVZ := { ID := pvzID, City := city, RegistrationDate := regDate }
  match repo newPVZ with
  | .error err =>
    if err.Is .ErrDuplicatePVZ then
      { value := PVZ.zero, err := some (.Repo err), repoCalls := [newPVZ] }
    else
      { value := PVZ.zero, err := some (.Wrapped "PVZ.CreatePVZ" err), repoCalls := [newPVZ] }
  | .ok _ => { value := newPVZ, err := none, repoCalls := [newPVZ] }

/-- The method `pvzUC.CreateReception`. -/
def UseCase.CreateReception (repo : UUID → UUID → Except Error Reception) (env : Env)
    (pvzID : UUID) : UseCaseOutcome Reception (UUID × UUID) :=
  let uuid := env.newUUID
  match repo uuid pvzID with
  | .error err =>
    if err.Is .ErrReceptionConflict then
      { value := Reception.zero, err := some (.Repo err), repoCalls := [(uuid, pvzID)] }
    else
      { value := Reception.zero, err := some (.Wrapped "PVZ.CreateReception" err)
        repoCalls := [(uuid, pvzID)] }
  | .ok reception => { value := reception, err := none, repoCalls := [(uuid, pvzID)] }

/-- The method `pvzUC.AddProduct`. -/
def UseCase.AddProduct (repo : UUID → UUID → String → Except Error Product) (env : Env)
    (pvzID : UUID) (productType : String) : UseCaseOutcome Product (UUID × UUID × String) :=
  let uuid := env.newUUID
  match repo uuid pvzID productType with
  | .error err =>
    if err.Is .ErrNoOpenReception then
      { value := Product.zero, err := some (.Repo err)
        repoCalls := [(uuid, pvzID, productType)] }
    else
      { value := Product.zero, err := some (.Wrapped "PVZ.AddProduct" err)
        repoCalls := [(uuid, pvzID, productType)] }
  | .ok product => { value := product, err := none, repoCalls := [(uuid, pvzID, productType)] }

/-- The method `pvzUC.DeleteLastProduct`; it returns an error only. -/
def UseCase.DeleteLastProduct (repo : UUID → Except Error Unit) (pvzID : UUID) :
    UseCaseOutcome Unit UUID :=
  match repo pvzID with
  | .error err =>
    if err.Is .ErrNoOpenReception || err.Is .ErrNoProducts then
      { value := (), err := some (.Repo err), repoCalls := [pvzID] }
    else
      { value := (), err := some (.Wrapped "PVZ.DeleteLastProduct" err), repoCalls := [pvzID] }
  | .ok _ => { value := (), err := none, repoCalls := [pvzID] }

/-- The method `pvzUC.CloseLastReception`. -/
def UseCase.CloseLastReception (repo : UUID → Except Error Reception) (pvzID : UUID) :
    UseCaseOutcome Reception UUID :=
  match repo pvzID with
  | .error err =>
    if err.Is .ErrNoOpenReception then
      { value := Reception.zero, err := some (.Repo err), repoCalls := [pvzID] }
    else
      { value := Reception.zero, err := some (.Wrapped "PVZ.CloseLastReception" err)
        repoCalls := [pvzID] }
  | .ok reception => { value := reception, err := none, repoCalls := [pvzID] }

/-! ## HTTP handlers (`internal/pvz/delivery/http/handlers.go`)

A handler gets the role stored in the request context (`none` when the context
holds no value of type `pvzapi.UserRole`), the request body as `c.Bind` decodes
it (`none` when `Bind` fails), and the use cases; it answers with a status code.
Logging and metrics are left out. -/

/-- Modelled from the spec: the generated package `pvzapi` is not among the
sources.  The role `pvzapi.UserRoleEmployee`, as the tests log in with it. -/
def UserRoleEmployee : String := "employee"

/-- Modelled from the spec: the generated package `pvzapi` is not among the
sources.  The role `pvzapi.UserRoleModerator`, as the tests log in with it. -/
def UserRoleModerator : String := "moderator"

/-- Modelled from the spec: the generated package `pvzapi` is not among the
sources.  The cities `pvzapi.Казань`, `pvzapi.Москва`, `pvzapi.СанктПетербург`
of the map `allowedCities`. -/
def allowedCities : List String := ["Казань", "Москва", "Санкт-Петербург"]

/-- Modelled from the spec: the generated package `pvzapi` is not among the
sources.  The product types of the map `allowedTypes`. -/
def allowedTypes : List String := ["обувь", "одежда", "электроника"]

/-- The body `pvzapi.PostPvzJSONRequestBody`. -/
structure PostPvzBody where
  City : String
  Id : Option UUID
  RegistrationDate : Option Time
deriving DecidableEq, Repr

/-- The body `pvzapi.PostReceptionsJSONRequestBody`. -/
structure PostReceptionsBody where
  PvzId : UUID
deriving DecidableEq, Repr

/-- The body `pvzapi.PostProductsJSONRequestBody`. -/
structure PostProductsBody where
  PvzId : UUID
  Type_ : String
deriving DecidableEq, Repr

/-- The interface `pvz.UseCase`, as far as the handlers of this section call
it: each method returns its value and its error (`none` is `nil`). -/
structure UseCases where
  CreatePVZ : Option UUID → String → Option Time → PVZ × Option UseCaseError
  CreateReception : UUID → Reception × Option UseCaseError
  AddProduct : UUID → String → Product × Option UseCaseError
  DeleteLastProduct : UUID → Option UseCaseError
  CloseLastReception : UUID → Reception × Option UseCaseError
  GetPVZs : GetPvzParams → Except UseCaseError (List PVZWithReceptions)

/-- A call of a handler on the use cases, with its arguments. -/
inductive UseCaseCall where
  | CreatePVZ (id : Option UUID) (city : String) (registrationDate : Option Time)
  | CreateReception (pvzID : UUID)
  | AddProduct (pvzID : UUID) (productType : String)
  | DeleteLastProduct (pvzID : UUID)
  | CloseLastReception (pvzID : UUID)
  | GetPVZs (params : GetPvzParams)
deriving DecidableEq, Repr

/-- The answer of a handler: the HTTP status code, and the calls it made on the
use cases. -/
structure Response where
  status : Nat
  useCaseCalls : List UseCaseCall
deriving DecidableEq, Repr

/-- The handler `PostPvz`. -/
def PostPvz (uc : UseCases) (role : Option String) (body : Option PostPvzBody) : Response :=
  match role with
  | none => { status := 500, useCaseCalls := [] }
  | some role =>
    if role ≠ UserRoleModerator then { status := 403, useCaseCalls := [] }
    else
      match body with
      | none => { status := 400, useCaseCalls := [] }
      | some req =>
        if req.City = "" then { status := 400, useCaseCalls := [] }
        else if ¬ (req.City ∈ allowedCities) then { status := 400, useCaseCalls := [] }
        else
          let call := UseCaseCall.CreatePVZ req.Id req.City req.RegistrationDate
          match (uc.CreatePVZ req.Id req.City req.RegistrationDate).2 with
          | some err =>
            if err.Is .ErrDuplicatePVZ then { status := 400, useCaseCalls := [call] }
            else { status := 500, useCaseCalls := [call] }
          | none => { status := 201, useCaseCalls := [call] }

/-- The handler `PostReceptions`. -/
def PostReceptions (uc : UseCases) (role : Option String) (body : Option PostReceptionsBody) :
    Response :=
  match role with
  | none => { status := 500, useCaseCalls := [] }
  | some role =>
    if role ≠ UserRoleEmployee then { status := 403, useCaseCalls := [] }
    else
      match body with
      | none => { status := 400, useCaseCalls := [] }
      | some req =>
        if req.PvzId = uuidNil then { status := 400, useCaseCalls := [] }
        else
          let call := UseCaseCall.CreateReception req.PvzId
          match (uc.CreateReception req.PvzId).2 with
          | some err =>
            if err.Is .ErrReceptionConflict then { status := 400, useCaseCalls := [call] }
            else { status := 500, useCaseCalls := [call] }
          | none => { status := 201, useCaseCalls := [call] }

/-- The handler `PostProducts`. -/
def PostProducts (uc : UseCases) (role : Option String) (body : Option PostProductsBody) :
    Response :=
  match role with
  | none => { status := 500, useCaseCalls := [] }
  | some role =>
    if role ≠ UserRoleEmployee then { status := 403, useCaseCalls := [] }
    else
      match body with
      | none => { status := 400, useCaseCalls := [] }
      | some req =>
        if req.PvzId = uuidNil ∨ req.Type_ = "" then { status := 400, useCaseCalls := [] }
        else if ¬ (req.Type_ ∈ allowedTypes) then { status := 400, useCaseCalls := [] }
        else
          let call := UseCaseCall.AddProduct req.PvzId req.Type_
          match (uc.AddProduct req.PvzId req.Type_).2 with
          | some err =>
            if err.Is .ErrNoOpenReception then { status := 400, useCaseCalls := [call] }
            else { status := 500, useCaseCalls := [call] }
          | none => { status := 201, useCaseCalls := [call] }

/-- The handler `PostPvzPvzIdDeleteLastProduct`; `uuid` is the path parameter. -/
def PostPvzPvzIdDeleteLastProduct (uc : UseCases) (role : Option String) (uuid : UUID) :
    Response :=
  match role with
  | none => { status := 500, useCaseCalls := [] }
  | some role =>
    if role ≠ UserRoleEmployee then { status := 403, useCaseCalls := [] }
    else
      let call := UseCaseCall.DeleteLastProduct uuid
      match uc.DeleteLastProduct uuid with
      | some err =>
        if err.Is .ErrNoOpenReception || err.Is .ErrNoProducts then
          { status := 400, useCaseCalls := [call] }
        else { status := 500, useCaseCalls := [call] }
      | none => { status := 200, useCaseCalls := [call] }

/-- The handler `PostPvzPvzIdCloseLastReception`; `uuid` is the path parameter. -/
def PostPvzPvzIdCloseLastReception (uc : UseCases) (role : Option String) (uuid : UUID) :
    Response :=
  match role with
  | none => { status := 500, useCaseCalls := [] }
  | some role =>
    if role ≠ UserRoleEmployee then { status := 403, useCaseCalls := [] }
    else
      let call := UseCaseCall.CloseLastReception uuid
      match (uc.CloseLastReception uuid).2 with
      | some err =>
        if err.Is .ErrNoOpenReception then { status := 400, useCaseCalls := [call] }
        else { status := 500, useCaseCalls := [call] }
      | none => { status := 200, useCaseCalls := [call] }

/-- The handler `GetPvz`; `params` are the decoded query parameters. -/
def GetPvz (uc : UseCases) (role : Option String) (params : GetPvzParams) : Response :=
  match role with
  | none => { status := 500, useCaseCalls := [] }
  | some role =>
    if role ≠ UserRoleEmployee ∧ role ≠ UserRoleModerator then
      { status := 403, useCaseCalls := [] }
    else
      let call := UseCaseCall.GetPVZs params
      match uc.GetPVZs params with
      | .error err =>
        if err = .ErrInvalidDateRange then { status := 400, useCaseCalls := [call] }
        else { status := 500, useCaseCalls := [call] }
      | .ok _ => { status := 200, useCaseCalls := [call] }

/-- Use cases that always succeed, for the examples. -/
def useCasesOk : UseCases :=
  { CreatePVZ := fun id city date => (⟨id.getD 7, city, date.getD 1⟩, none)
    CreateReception := fun pvzID => (⟨8, 1, pvzID, InProgress⟩, none)
    AddProduct := fun _ t => (⟨9, t, 1, 8⟩, none)
    DeleteLastProduct := fun _ => none
    CloseLastReception := fun pvzID => (⟨8, 1, pvzID, Close⟩, none)
    GetPVZs := fun _ => .ok [] }

/-- Every site entry of the loop state satisfies `E`; the entry in progress is
`currentPVZ` with `currentReception` as its last reception. -/
def FoldState.Each (E : PVZWithReceptions → Prop) (st : FoldState) : Prop :=
  (∀ e ∈ st.done, E e) ∧
    ∀ cur, st.currentPVZ = some cur → E (withCurrentReception cur st.currentReception)

/-- The product the loop builds from a row: the `&models.Product{...}` of a row
whose `receptionID` and `productID` are both not `nil`. -/
def rowProduct (row : Row) : Option Product :=
  match row.reception, row.product with
  | some rc, some pc => some (newProduct rc pc)
  | _, _ => none

/-- The reception entries of all site entries of a result, in order. -/
def allReceptions (result : List PVZWithReceptions) : List ReceptionWithProducts :=
  result.flatMap (fun e => e.Receptions)

/-- The products of all reception entries of a result, in order. -/
def allProducts (result : List PVZWithReceptions) : List Product :=
  (allReceptions result).flatMap (fun rw => rw.Products)

/-- The loop state once the rows `pre` are read: `currentPVZ` is of the site of
the last row, it is `nil` only while `result` is empty, and `currentReception`
is `nil` only while `currentPVZ` has no reception. -/
def FoldState.After (pre : List Row) (st : FoldState) : Prop :=
  st.currentPVZ.map (fun cur => cur.PVZ.ID) = pre.getLast?.map (fun row => row.pvzID) ∧
    (st.currentPVZ = none → st.done = [] ∧ st.currentReception = none) ∧
    (st.currentReception = none → ∀ cur, st.currentPVZ = some cur → cur.Receptions = [])

/-! ## The workflow of `tests/scenarios_test.go` -/

/-- The store with no rows. -/
def emptyStore : Store :=
  { pvzs := [], receptions := [], products := [] }

/-- The product row of one `AddProduct` call of the workflow: `item` holds the
id, the type and the time of the call. -/
def itemProduct (receptionID : UUID) (item : UUID × String × Time) : Product :=
  { ID := item.1, Type_ := item.2.1, DateTime := item.2.2, ReceptionID := receptionID }

/-- The store after `AddProduct` is called once for each item, one after
another. -/
def addProducts (s : Store) (pvzID : UUID) (items : List (UUID × String × Time)) : Store :=
  items.foldl (fun s item => (AddProduct s item.2.2 item.1 pvzID item.2.1).1) s

/-- The store after the calls of `TestFullPvzWorkflow` on the empty store: a
site is created, a reception is opened at it, the items are added one after
another, the reception is closed. -/
def fullWorkflow (pvz : PVZ) (receptionID : UUID) (receptionTime : Time)
    (items : List (UUID × String × Time)) : Store :=
  let s1 := (CreatePVZ emptyStore pvz).1
  let s2 := (CreateReception s1 receptionTime receptionID pvz.ID).1
  let s3 := addProducts s2 pvz.ID items
  (CloseLastReception s3 pvz.ID).1

/-- Fifty items of type "обувь", as `TestFullPvzWorkflow` adds them, with the
ids 100 to 149 and the times 20 to 69. -/
def fiftyItems : List (UUID × String × Time) :=
  (List.range 50).map (fun (i : Nat) => ((100 + i : Nat), "обувь", (20 + (i : Int) : Int)))

/-! ## The loop of `GetPVZs` with slices that may be `nil`

In the embedding above the fields `Receptions` and `Products` are lists.  Here
the loop is embedded once more with the slice values of Go, which tell `nil`
from the empty slice, for what is claimed about `nil`. -/

/-- A Go slice value: `nil`, or a slice that is not `nil`, with its elements;
`lit []` is the literal `[]T{}`. -/
inductive Slice (α : Type) where
  | nil
  | lit (elems : List α)
deriving DecidableEq, Repr

/-- The elements of a slice. -/
def Slice.toList {α : Type} : Slice α → List α
  | .nil => []
  | .lit elems => elems

/-- The test `s == nil`. -/
def Slice.isNil {α : Type} : Slice α → Bool
  | .nil => true
  | .lit _ => false

/-- The built-in `append(s, x)`. -/
def Slice.append {α : Type} (s : Slice α) (x : α) : Slice α :=
  .lit (s.toList ++ [x])

namespace Slices

/-- The struct `models.ReceptionWithProducts`, with the slice `Products`. -/
structure ReceptionWithProducts where
  Reception : PvzService.Reception
  Products : Slice Product
deriving DecidableEq, Repr

/-- The struct `models.PVZWithReceptions`, with the slice `Receptions`. -/
structure PVZWithReceptions where
  PVZ : PvzService.PVZ
  Receptions : Slice ReceptionWithProducts
deriving DecidableEq, Repr

/-- The variables of the loop, as in `PvzService.FoldState`. -/
structure FoldState where
  done : List PVZWithReceptions
  currentPVZ : Option PVZWithReceptions
  currentReception : Option ReceptionWithProducts
deriving DecidableEq, Repr

/-- The entry `currentPVZ` points to, with the reception `currentReception`
points to appended to its `Receptions`. -/
def withCurrentReception (cur : PVZWithReceptions) (cr : Option ReceptionWithProducts) :
    PVZWithReceptions :=
  match cr with
  | none => cur
  | some r => { cur with Receptions := cur.Receptions.append r }

/-- The entries of the Go variable `result`. -/
def FoldState.result (st : FoldState) : List PVZWithReceptions :=
  st.done ++ (st.currentPVZ.map (fun cur => withCurrentReception cur st.currentReception)).toList

/-- The state before the first row. -/
def FoldState.init : FoldState :=
  { done := [], currentPVZ := none, currentReception := none }

/-- The entry `&models.PVZWithReceptions{...}` started at a row, with
`Receptions: []*models.ReceptionWithProducts{}`. -/
def newPVZ (row : Row) : PVZWithReceptions :=
  { PVZ := { ID := row.pvzID, City := row.pvzCity, RegistrationDate := row.pvzRegistration }
    Receptions := .lit [] }

/-- The entry `&models.ReceptionWithProducts{...}` started at a row, with
`Products: []*models.Product{}`. -/
def newReception (row : Row) (rc : ReceptionColumns) : ReceptionWithProducts :=
  { Reception := { ID := rc.ID, PvzID := row.pvzID, DateTime := rc.DateTime, Status := rc.Status }
    Products := .lit [] }

/-- The first block of the loop body. -/
def stepPVZ (st : FoldState) (row : Row) : FoldState :=
  match st.currentPVZ with
  | none => { done := st.done, currentPVZ := some (newPVZ row), currentReception := none }
  | some cur =>
    if cur.PVZ.ID ≠ row.pvzID then
      { done := st.done ++ [withCurrentReception cur st.currentReception]
        currentPVZ := some (newPVZ row)
        currentReception := none }
    else st

/-- The block `if currentReception == nil || currentReception.Reception.ID !=
*receptionID { ... }`. -/
def stepReception (cur : PVZWithReceptions) (cr : Option ReceptionWithProducts) (row : Row)
    (rc : ReceptionColumns) : PVZWithReceptions × ReceptionWithProducts :=
  match cr with
  | none => (cur, newReception row rc)
  | some r =>
    if r.Reception.ID ≠ rc.ID then (withCurrentReception cur (some r), newReception row rc)
    else (cur, r)

/-- The block `if productID != nil { ... }`, with
`append(currentReception.Products, product)`. -/
def stepProduct (r : ReceptionWithProducts) (rc : ReceptionColumns)
    (product : Option ProductColumns) : ReceptionWithProducts :=
  match product with
  | some pc => { r with Products := r.Products.append (newProduct rc pc) }
  | none => r

/-- One iteration of the loop. -/
def foldRow (st : FoldState) (row : Row) : FoldState :=
  let st1 := stepPVZ st row
  match row.reception, st1.currentPVZ with
  | some rc, some cur =>
    let next := stepReception cur st1.currentReception row rc
    { done := st1.done
      currentPVZ := some next.1
      currentReception := some (stepProduct next.2 rc row.product) }
  | _, _ => st1

/-- The loop over the rows of phase 2, and the entries of `result`. -/
def foldRows (rows : List Row) : List PVZWithReceptions :=
  (rows.foldl foldRow FoldState.init).result

/-- A reception entry with its slice read as a list. -/
def ReceptionWithProducts.toModel (r : ReceptionWithProducts) :
    PvzService.ReceptionWithProducts :=
  { Reception := r.Reception, Products := r.Products.toList }

/-- A site entry with its slices read as lists. -/
def PVZWithReceptions.toModel (e : PVZWithReceptions) : PvzService.PVZWithReceptions :=
  { PVZ := e.PVZ, Receptions := e.Receptions.toList.map ReceptionWithProducts.toModel }

/-- A loop state with its slices read as lists. -/
def FoldState.toModel (st : FoldState) : PvzService.FoldState :=
  { done := st.done.map PVZWithReceptions.toModel
    currentPVZ := st.currentPVZ.map PVZWithReceptions.toModel
    currentReception := st.currentReception.map ReceptionWithProducts.toModel }

/-- No slice of a site entry is `nil`: not its `Receptions`, and not the
`Products` of one of its receptions. -/
def PVZWithReceptions.NoNil (e : PVZWithReceptions) : Prop :=
  e.Receptions.isNil = false ∧ ∀ rw ∈ e.Receptions.toList, rw.Products.isNil = false

/-- No slice held by the loop state is `nil`. -/
def FoldState.NoNil (st : FoldState) : Prop :=
  (∀ e ∈ st.done, e.NoNil) ∧ (∀ cur, st.currentPVZ = some cur → cur.NoNil) ∧
    ∀ r, st.currentReception = some r → r.Products.isNil = false

end Slices

/-- An answer the database may give to the query of phase 2: the rows of
`selectRows` in an order that `ORDER BY r.date_time DESC` allows; the clause
leaves the order of rows with equal `r.date_time` open. -/
def selectRowsAnswer (s : Store) (pvzIDs : List UUID) (conditions : List DateCondition)
    (rows : List Row) : Prop :=
  rows.Perm (selectRows s pvzIDs conditions) ∧ rows.Pairwise (fun a b => Row.before a b = true)

/-! ## Lemmas on the SQL statements -/

theorem inProgress_ne_close : InProgress ≠ Close := by decide

theorem receptionMatches_iff (pvzID : UUID) (status : String) (r : Reception) :
    receptionMatches pvzID status r = true ↔ r.PvzID = pvzID ∧ r.Status = status := by
  simp [receptionMatches]

theorem pvzExists_iff (s : Store) (pvzID : UUID) :
    pvzExists s pvzID = true ↔ ∃ p ∈ s.pvzs, p.ID = pvzID := by
  simp [pvzExists]

theorem receptionExists_iff (s : Store) (pvzID : UUID) (status : String) :
    receptionExists s pvzID status = true ↔
      ∃ r ∈ s.receptions, r.PvzID = pvzID ∧ r.Status = status := by
  simp [receptionExists, receptionMatches]

theorem openCount_eq_zero_iff (s : Store) (pvzID : UUID) :
    openCount s pvzID = 0 ↔ receptionExists s pvzID InProgress = false := by
  simp [openCount, receptionExists, List.countP_eq_zero]

/-- When the `WHERE` clause of the insert fails, `CreateReception` reports the
conflict and writes nothing. -/
theorem CreateReception_of_guard_false (s : Store) (now : Time) (receptionID pvzID : UUID)
    (h : (pvzExists s pvzID && !receptionExists s pvzID InProgress) = false) :
    CreateReception s now receptionID pvzID = (s, .error .ErrReceptionConflict) := by
  simp only [CreateReception, insertReceptionIfFree, h]
  rfl

/-- When the `WHERE` clause holds and the id is already a key, the insert fails. -/
theorem CreateReception_of_duplicate (s : Store) (now : Time) (receptionID pvzID : UUID)
    (hg : (pvzExists s pvzID && !receptionExists s pvzID InProgress) = true)
    (hd : s.receptions.any (fun r => decide (r.ID = receptionID)) = true) :
    CreateReception s now receptionID pvzID =
      (s, .error (.Wrapped "repository.CreateReception" .UniqueViolation)) := by
  simp only [CreateReception, insertReceptionIfFree, hg, hd]
  rfl

/-- When the `WHERE` clause holds and the id is fresh, the row is appended. -/
theorem CreateReception_of_fresh (s : Store) (now : Time) (receptionID pvzID : UUID)
    (hg : (pvzExists s pvzID && !receptionExists s pvzID InProgress) = true)
    (hd : s.receptions.any (fun r => decide (r.ID = receptionID)) = false) :
    CreateReception s now receptionID pvzID =
      ({ s with receptions := s.receptions ++ [⟨receptionID, now, pvzID, InProgress⟩] },
        .ok ⟨receptionID, now, pvzID, InProgress⟩) := by
  simp only [CreateReception, insertReceptionIfFree, hg, hd]
  rfl

theorem CloseLastReception_of_none (s : Store) (pvzID : UUID)
    (h : s.receptions.find? (receptionMatches pvzID InProgress) = none) :
    CloseLastReception s pvzID = (s, .error .ErrNoOpenReception) := by
  simp only [CloseLastReception, selectReceptionForUpdate, h]

theorem CloseLastReception_of_some (s : Store) (pvzID : UUID) (r : Reception)
    (h : s.receptions.find? (receptionMatches pvzID InProgress) = some r) :
    CloseLastReception s pvzID =
      (updateReceptionStatus s Close r.ID, .ok ⟨r.ID, r.DateTime, r.PvzID, Close⟩) := by
  simp only [CloseLastReception, selectReceptionForUpdate, h]

theorem AddProduct_of_none (s : Store) (now : Time) (productID pvzID : UUID) (t : String)
    (h : s.receptions.find? (receptionMatches pvzID InProgress) = none) :
    AddProduct s now productID pvzID t = (s, .error .ErrNoOpenReception) := by
  simp only [AddProduct, selectReceptionForUpdate, h]

theorem AddProduct_of_duplicate (s : Store) (now : Time) (productID pvzID : UUID) (t : String)
    (r : Reception) (h : s.receptions.find? (receptionMatches pvzID InProgress) = some r)
    (hd : s.products.any (fun p => decide (p.ID = productID)) = true) :
    AddProduct s now productID pvzID t =
      (s, .error (.Wrapped "repository.AddProduct" .UniqueViolation)) := by
  simp only [AddProduct, selectReceptionForUpdate, h, insertProduct, hd]
  rfl

theorem AddProduct_of_fresh (s : Store) (now : Time) (productID pvzID : UUID) (t : String)
    (r : Reception) (h : s.receptions.find? (receptionMatches pvzID InProgress) = some r)
    (hd : s.products.any (fun p => decide (p.ID = productID)) = false) :
    AddProduct s now productID pvzID t =
      ({ s with products := s.products ++ [⟨productID, t, now, r.ID⟩] },
        .ok ⟨productID, t, now, r.ID⟩) := by
  have hfk : s.receptions.any (fun x => decide (x.ID = r.ID)) = true := by
    rw [List.any_eq_true]
    exact ⟨r, List.mem_of_find?_eq_some h, by simp⟩
  simp only [AddProduct, selectReceptionForUpdate, h, insertProduct, hd, hfk]
  rfl

theorem DeleteLastProduct_of_none (s : Store) (pvzID : UUID)
    (h : s.receptions.find? (receptionMatches pvzID InProgress) = none) :
    DeleteLastProduct s pvzID = (s, .error .ErrNoOpenReception) := by
  simp only [DeleteLastProduct, selectReceptionForUpdate, h]

theorem DeleteLastProduct_of_empty (s : Store) (pvzID : UUID) (r : Reception)
    (h : s.receptions.find? (receptionMatches pvzID InProgress) = some r)
    (hp : latestProduct (productsOf s r.ID) = none) :
    DeleteLastProduct s pvzID = (s, .error .ErrNoProducts) := by
  simp only [DeleteLastProduct, selectReceptionForUpdate, h, deleteLatestProduct, hp]

theorem DeleteLastProduct_of_latest (s : Store) (pvzID : UUID) (r : Reception) (p : Product)
    (h : s.receptions.find? (receptionMatches pvzID InProgress) = some r)
    (hp : latestProduct (productsOf s r.ID) = some p) :
    DeleteLastProduct s pvzID =
      ({ s with products := s.products.filter (fun q => decide (q.ID ≠ p.ID)) }, .ok ()) := by
  simp only [DeleteLastProduct, selectReceptionForUpdate, h, deleteLatestProduct, hp]

/-- The ledger methods never write to `receptions` or `pvzs`. -/
theorem AddProduct_receptions (s : Store) (now : Time) (productID pvzID : UUID) (t : String) :
    (AddProduct s now productID pvzID t).1.receptions = s.receptions ∧
      (AddProduct s now productID pvzID t).1.pvzs = s.pvzs := by
  cases h : s.receptions.find? (receptionMatches pvzID InProgress) with
  | none => rw [AddProduct_of_none s now productID pvzID t h]; exact ⟨rfl, rfl⟩
  | some r =>
    cases hd : s.products.any (fun p => decide (p.ID = productID)) with
    | true => rw [AddProduct_of_duplicate s now productID pvzID t r h hd]; exact ⟨rfl, rfl⟩
    | false => rw [AddProduct_of_fresh s now productID pvzID t r h hd]; exact ⟨rfl, rfl⟩

theorem DeleteLastProduct_receptions (s : Store) (pvzID : UUID) :
    (DeleteLastProduct s pvzID).1.receptions = s.receptions ∧
      (DeleteLastProduct s pvzID).1.pvzs = s.pvzs := by
  cases h : s.receptions.find? (receptionMatches pvzID InProgress) with
  | none => rw [DeleteLastProduct_of_none s pvzID h]; exact ⟨rfl, rfl⟩
  | some r =>
    cases hp : latestProduct (productsOf s r.ID) with
    | none => rw [DeleteLastProduct_of_empty s pvzID r h hp]; exact ⟨rfl, rfl⟩
    | some p => rw [DeleteLastProduct_of_latest s pvzID r p h hp]; exact ⟨rfl, rfl⟩

/-- Closing never raises the number of open receptions of any site. -/
theorem openCount_updateReceptionStatus_le (s : Store) (id pvzID : UUID) :
    openCount (updateReceptionStatus s Close id) pvzID ≤ openCount s pvzID := by
  unfold openCount updateReceptionStatus
  simp only [List.countP_map]
  apply List.countP_mono_left
  intro r _ hr
  simp only [Function.comp] at hr
  by_cases hid : r.ID = id
  · simp [hid, receptionMatches, inProgress_ne_close.symm] at hr
  · simpa [hid] using hr

theorem openCount_CloseLastReception_le (s : Store) (pvzID q : UUID) :
    openCount (CloseLastReception s pvzID).1 q ≤ openCount s q := by
  cases h : s.receptions.find? (receptionMatches pvzID InProgress) with
  | none => rw [CloseLastReception_of_none s pvzID h]
  | some r =>
    rw [CloseLastReception_of_some s pvzID r h]
    exact openCount_updateReceptionStatus_le s r.ID q

theorem OneOpenReception_CreateReception (s : Store) (now : Time) (receptionID pvzID : UUID)
    (hs : s.OneOpenReception) : (CreateReception s now receptionID pvzID).1.OneOpenReception := by
  cases hg : (pvzExists s pvzID && !receptionExists s pvzID InProgress) with
  | false => rw [CreateReception_of_guard_false s now receptionID pvzID hg]; exact hs
  | true =>
    cases hd : s.receptions.any (fun r => decide (r.ID = receptionID)) with
    | true => rw [CreateReception_of_duplicate s now receptionID pvzID hg hd]; exact hs
    | false =>
      rw [CreateReception_of_fresh s now receptionID pvzID hg hd]
      intro q
      have hfree : receptionExists s pvzID InProgress = false := by
        simp only [Bool.and_eq_true, Bool.not_eq_true'] at hg
        exact hg.2
      have hzero : openCount s pvzID = 0 := (openCount_eq_zero_iff s pvzID).2 hfree
      have hq := hs q
      unfold openCount at *
      simp only [List.countP_append, List.countP_cons, List.countP_nil]
      by_cases hqp : q = pvzID
      · subst hqp
        rw [hzero]
        split <;> omega
      · have : receptionMatches q InProgress ⟨receptionID, now, pvzID, InProgress⟩ = false := by
          simp [receptionMatches]
          intro hc
          exact absurd hc.symm hqp
        simp only [this]
        simpa using hq

theorem OneOpenReception_exec (s : Store) (c : Call) (hs : s.OneOpenReception) :
    (c.exec s).OneOpenReception := by
  cases c with
  | CreateReception now receptionID pvzID =>
    exact OneOpenReception_CreateReception s now receptionID pvzID hs
  | CloseLastReception pvzID =>
    intro q
    exact le_trans (openCount_CloseLastReception_le s pvzID q) (hs q)
  | AddProduct now productID pvzID t =>
    intro q
    have h := (AddProduct_receptions s now productID pvzID t).1
    simp only [Call.exec, openCount, h]
    exact hs q
  | DeleteLastProduct pvzID =>
    intro q
    have h := (DeleteLastProduct_receptions s pvzID).1
    simp only [Call.exec, openCount, h]
    exact hs q

/-- Appending a row with a fresh key keeps the keys unique. -/
theorem nodup_map_append_fresh {α : Type} (f : α → Nat) (l : List α) (a : α)
    (hk : (l.map f).Nodup) (hfresh : ∀ x ∈ l, f x ≠ f a) : ((l ++ [a]).map f).Nodup := by
  rw [List.map_append, List.nodup_append]
  refine ⟨hk, by simp, ?_⟩
  intro k hk1 hk2
  simp only [List.map_cons, List.map_nil, List.mem_singleton] at hk2
  obtain ⟨x, hx, hxk⟩ := List.mem_map.1 hk1
  exact hfresh x hx (hxk.trans hk2)

/-- Every call keeps the primary keys of `receptions` and `products` unique. -/
theorem keys_unique_exec (s : Store) (c : Call)
    (hkr : s.ReceptionKeysUnique) (hkp : s.ProductKeysUnique) :
    (c.exec s).ReceptionKeysUnique ∧ (c.exec s).ProductKeysUnique := by
  cases c with
  | CreateReception now receptionID pvzID =>
    simp only [Call.exec]
    cases hg : (pvzExists s pvzID && !receptionExists s pvzID InProgress) with
    | false =>
      rw [CreateReception_of_guard_false s now receptionID pvzID hg]
      exact ⟨hkr, hkp⟩
    | true =>
      cases hd : s.receptions.any (fun r => decide (r.ID = receptionID)) with
      | true =>
        rw [CreateReception_of_duplicate s now receptionID pvzID hg hd]
        exact ⟨hkr, hkp⟩
      | false =>
        rw [CreateReception_of_fresh s now receptionID pvzID hg hd]
        refine ⟨?_, hkp⟩
        apply nodup_map_append_fresh _ _ _ hkr
        intro x hx hid
        have hnot : ¬ (s.receptions.any (fun r => decide (r.ID = receptionID)) = true) := by
          rw [hd]
          exact Bool.false_ne_true
        rw [List.any_eq_true] at hnot
        exact hnot ⟨x, hx, by simpa using hid⟩
  | CloseLastReception pvzID =>
    simp only [Call.exec]
    cases h : s.receptions.find? (receptionMatches pvzID InProgress) with
    | none =>
      rw [CloseLastReception_of_none s pvzID h]
      exact ⟨hkr, hkp⟩
    | some R =>
      rw [CloseLastReception_of_some s pvzID R h]
      refine ⟨?_, hkp⟩
      have hmap : (updateReceptionStatus s Close R.ID).receptions.map (fun r => r.ID) =
          s.receptions.map (fun r => r.ID) := by
        simp only [updateReceptionStatus, List.map_map]
        apply List.map_congr_left
        intro x _
        simp only [Function.comp]
        split <;> rfl
      unfold Store.ReceptionKeysUnique
      rw [hmap]
      exact hkr
  | AddProduct now productID pvzID t =>
    simp only [Call.exec]
    cases h : s.receptions.find? (receptionMatches pvzID InProgress) with
    | none =>
      rw [AddProduct_of_none s now productID pvzID t h]
      exact ⟨hkr, hkp⟩
    | some R =>
      cases hd : s.products.any (fun p => decide (p.ID = productID)) with
      | true =>
        rw [AddProduct_of_duplicate s now productID pvzID t R h hd]
        exact ⟨hkr, hkp⟩
      | false =>
        rw [AddProduct_of_fresh s now productID pvzID t R h hd]
        refine ⟨hkr, ?_⟩
        apply nodup_map_append_fresh _ _ _ hkp
        intro x hx hid
        have hnot : ¬ (s.products.any (fun p => decide (p.ID = productID)) = true) := by
          rw [hd]
          exact Bool.false_ne_true
        rw [List.any_eq_true] at hnot
        exact hnot ⟨x, hx, by simpa using hid⟩
  | DeleteLastProduct pvzID =>
    simp only [Call.exec]
    cases h : s.receptions.find? (receptionMatches pvzID InProgress) with
    | none =>
      rw [DeleteLastProduct_of_none s pvzID h]
      exact ⟨hkr, hkp⟩
    | some R =>
      cases hp : latestProduct (productsOf s R.ID) with
      | none =>
        rw [DeleteLastProduct_of_empty s pvzID R h hp]
        exact ⟨hkr, hkp⟩
      | some p =>
        rw [DeleteLastProduct_of_latest s pvzID R p h hp]
        exact ⟨hkr, List.Nodup.sublist (List.Sublist.map _ (List.filter_sublist _)) hkp⟩

/-- The invariant only has to be checked at the sites that own a reception. -/
theorem oneOpenReception_iff (s : Store) :
    s.OneOpenReception ↔ ∀ r ∈ s.receptions, openCount s r.PvzID ≤ 1 := by
  constructor
  · intro h r _
    exact h r.PvzID
  · intro h q
    by_cases hz : openCount s q = 0
    · omega
    · have hpos : 0 < openCount s q := Nat.pos_of_ne_zero hz
      unfold openCount at hpos
      rw [List.countP_pos_iff] at hpos
      obtain ⟨r, hr, hm⟩ := hpos
      have hq : r.PvzID = q := ((receptionMatches_iff q InProgress r).1 hm).1
      rw [← hq]
      exact h r hr

/-- A predicate met by at most one row of a table selects that row. -/
theorem find?_eq_some_of_countP_le_one {α : Type} (p : α → Bool) (l : List α) (a : α)
    (hc : l.countP p ≤ 1) (ha : a ∈ l) (hp : p a = true) : l.find? p = some a := by
  induction l with
  | nil => cases ha
  | cons b t ih =>
    by_cases hb : p b = true
    · have ht : t.countP p = 0 := by
        rw [List.countP_cons_of_pos _ _ hb] at hc
        omega
      have hab : a = b := by
        rcases List.mem_cons.1 ha with h | h
        · exact h
        · exact absurd hp (List.countP_eq_zero.1 ht a h)
      rw [List.find?_cons_of_pos _ hb, hab]
    · have hne : a ≠ b := fun h => hb (h ▸ hp)
      have hat : a ∈ t := by
        rcases List.mem_cons.1 ha with h | h
        · exact absurd h hne
        · exact h
      rw [List.countP_cons_of_neg _ _ hb] at hc
      rw [List.find?_cons_of_neg _ hb]
      exact ih hc hat

/-- The locking read finds the only open reception of a site. -/
theorem find?_open_of_unique (s : Store) (pvzID : UUID) (R : Reception)
    (hone : openCount s pvzID ≤ 1) (hR : R ∈ s.receptions)
    (hsite : R.PvzID = pvzID) (hopen : R.Status = InProgress) :
    s.receptions.find? (receptionMatches pvzID InProgress) = some R :=
  find?_eq_some_of_countP_le_one _ _ R hone hR
    ((receptionMatches_iff pvzID InProgress R).2 ⟨hsite, hopen⟩)

/-- The locking read finds nothing exactly when the site has no open reception. -/
theorem find?_open_eq_none_iff (s : Store) (pvzID : UUID) :
    s.receptions.find? (receptionMatches pvzID InProgress) = none ↔
      ¬ ∃ r ∈ s.receptions, r.PvzID = pvzID ∧ r.Status = InProgress := by
  rw [List.find?_eq_none]
  simp [receptionMatches]

/-- Rows of one table with the same key are the same row. -/
theorem reception_eq_of_id_eq (s : Store) (hk : s.ReceptionKeysUnique) (a b : Reception)
    (ha : a ∈ s.receptions) (hb : b ∈ s.receptions) (h : a.ID = b.ID) : a = b :=
  List.inj_on_of_nodup_map hk ha hb h

theorem product_eq_of_id_eq (s : Store) (hk : s.ProductKeysUnique) (a b : Product)
    (ha : a ∈ s.products) (hb : b ∈ s.products) (h : a.ID = b.ID) : a = b :=
  List.inj_on_of_nodup_map hk ha hb h

/-! ## Reception lifecycle -/

/-- C1: starting from a store in which every site has at most one reception with
status `in_progress`, after any finite sequence of calls of `CreateReception`,
`CloseLastReception`, `AddProduct` and `DeleteLastProduct`, with any arguments,
every site still has at most one reception with status `in_progress`. -/
theorem one_open_reception_preserved (s : Store) (calls : List Call)
    (h : s.OneOpenReception) : (execAll s calls).OneOpenReception := by
  induction calls generalizing s with
  | nil => exact h
  | cons c cs ih => exact ih (c.exec s) (OneOpenReception_exec s c h)

theorem one_open_reception_preserved_witness :
    storeOpen.OneOpenReception ∧
      (execAll storeOpen
        [.CreateReception 9 11 1, .AddProduct 10 102 1 "обувь", .CloseLastReception 1,
          .CreateReception 11 12 1, .DeleteLastProduct 1, .CreateReception 12 13 1]).OneOpenReception :=
  ⟨(oneOpenReception_iff _).2 (by decide),
    one_open_reception_preserved storeOpen _ ((oneOpenReception_iff _).2 (by decide))⟩

/-- C2: if the site id is not an existing site, or the site already has a
reception with status `in_progress`, `CreateReception` returns
`ErrReceptionConflict` and the store (sites, receptions, products) is unchanged. -/
theorem CreateReception_conflict (s : Store) (now : Time) (receptionID pvzID : UUID)
    (h : (¬ ∃ p ∈ s.pvzs, p.ID = pvzID) ∨
      (∃ r ∈ s.receptions, r.PvzID = pvzID ∧ r.Status = InProgress)) :
    CreateReception s now receptionID pvzID = (s, .error .ErrReceptionConflict) := by
  apply CreateReception_of_guard_false
  rcases h with h | h
  · have : pvzExists s pvzID = false := by
      rw [← Bool.not_eq_true, pvzExists_iff]
      exact h
    simp [this]
  · have : receptionExists s pvzID InProgress = true := (receptionExists_iff s pvzID InProgress).2 h
    simp [this]

theorem CreateReception_conflict_witness :
    ((¬ ∃ p ∈ storeOpen.pvzs, p.ID = 2) ∧
        CreateReception storeOpen 9 11 2 = (storeOpen, .error .ErrReceptionConflict)) ∧
      ((∃ r ∈ storeOpen.receptions, r.PvzID = 1 ∧ r.Status = InProgress) ∧
        CreateReception storeOpen 9 11 1 = (storeOpen, .error .ErrReceptionConflict)) :=
  ⟨⟨by decide, CreateReception_conflict storeOpen 9 11 2 (Or.inl (by decide))⟩,
    ⟨by decide, CreateReception_conflict storeOpen 9 11 1 (Or.inr (by decide))⟩⟩

/-- C3, as stated, fails: site 1 exists and has no reception with status
`in_progress`, yet `CreateReception 10 1` does not succeed, because id 10 is
already the key of a stored reception; the store is left as it was. -/
theorem CreateReception_duplicate_id_fails :
    (∃ p ∈ storeClosed.pvzs, p.ID = 1) ∧
      (¬ ∃ r ∈ storeClosed.receptions, r.PvzID = 1 ∧ r.Status = InProgress) ∧
      CreateReception storeClosed 9 10 1 =
        (storeClosed, .error (.Wrapped "repository.CreateReception" .UniqueViolation)) := by
  decide

/-- C3, amended: when site `pvzID` exists, has no reception with status
`in_progress`, and `receptionID` is not the id of a stored reception,
`CreateReception` succeeds, appends exactly one reception row, and returns that
row: its `ID` is `receptionID`, its `PvzID` is `pvzID`, its `Status` is
`in_progress`; sites, products and the earlier receptions are unchanged. -/
theorem CreateReception_success (s : Store) (now : Time) (receptionID pvzID : UUID)
    (hsite : ∃ p ∈ s.pvzs, p.ID = pvzID)
    (hfree : ¬ ∃ r ∈ s.receptions, r.PvzID = pvzID ∧ r.Status = InProgress)
    (hfresh : ∀ r ∈ s.receptions, r.ID ≠ receptionID) :
    ∃ created : Reception,
      (CreateReception s now receptionID pvzID).2 = .ok created ∧
      created.ID = receptionID ∧ created.PvzID = pvzID ∧ created.Status = InProgress ∧
      (CreateReception s now receptionID pvzID).1.receptions = s.receptions ++ [created] ∧
      (CreateReception s now receptionID pvzID).1.pvzs = s.pvzs ∧
      (CreateReception s now receptionID pvzID).1.products = s.products := by
  have h1 : pvzExists s pvzID = true := (pvzExists_iff s pvzID).2 hsite
  have h2 : receptionExists s pvzID InProgress = false := by
    rw [← Bool.not_eq_true, receptionExists_iff]
    exact hfree
  have hg : (pvzExists s pvzID && !receptionExists s pvzID InProgress) = true := by
    simp [h1, h2]
  have hd : s.receptions.any (fun r => decide (r.ID = receptionID)) = false := by
    rw [← Bool.not_eq_true, List.any_eq_true]
    rintro ⟨r, hr, hid⟩
    exact hfresh r hr (by simpa using hid)
  rw [CreateReception_of_fresh s now receptionID pvzID hg hd]
  exact ⟨⟨receptionID, now, pvzID, InProgress⟩, rfl, rfl, rfl, rfl, rfl, rfl, rfl⟩

theorem CreateReception_success_witness :
    (∃ p ∈ storeClosed.pvzs, p.ID = 1) ∧
      (¬ ∃ r ∈ storeClosed.receptions, r.PvzID = 1 ∧ r.Status = InProgress) ∧
      (∀ r ∈ storeClosed.receptions, r.ID ≠ 11) ∧
      ∃ created : Reception,
        (CreateReception storeClosed 9 11 1).2 = .ok created ∧
        created.ID = 11 ∧ created.PvzID = 1 ∧ created.Status = InProgress ∧
        (CreateReception storeClosed 9 11 1).1.receptions = storeClosed.receptions ++ [created] ∧
        (CreateReception storeClosed 9 11 1).1.pvzs = storeClosed.pvzs ∧
        (CreateReception storeClosed 9 11 1).1.products = storeClosed.products :=
  ⟨by decide, by decide, by decide,
    CreateReception_success storeClosed 9 11 1 (by decide) (by decide) (by decide)⟩

/-- C4, as stated, fails: in `storeTwoOpen` site 1 has the receptions 10 and 11,
both with status `in_progress`; `CloseLastReception 1` returns reception 10 and
leaves reception 11 open, and no result at all could carry the id of each of
them. -/
theorem CloseLastReception_two_open_fails :
    CloseLastReception storeTwoOpen 1 =
        ({ storeTwoOpen with receptions := [⟨10, 5, 1, Close⟩, ⟨11, 6, 1, InProgress⟩] },
          .ok ⟨10, 5, 1, Close⟩) ∧
      ¬ ∀ R ∈ storeTwoOpen.receptions, R.PvzID = 1 → R.Status = InProgress →
          ∃ r, (CloseLastReception storeTwoOpen 1).2 = .ok r ∧ r.ID = R.ID := by
  refine ⟨by decide, ?_⟩
  intro h
  obtain ⟨r1, h1, hid1⟩ := h ⟨10, 5, 1, InProgress⟩ (by decide) rfl rfl
  obtain ⟨r2, h2, hid2⟩ := h ⟨11, 6, 1, InProgress⟩ (by decide) rfl rfl
  rw [h1] at h2
  injection h2 with h2
  rw [h2, hid2] at hid1
  exact absurd hid1 (by decide)

/-- C4, amended: when `R` is the only reception of site `pvzID` with status
`in_progress`, `CloseLastReception` succeeds and returns a reception with the
`ID` and `DateTime` of `R`, `PvzID` equal to `pvzID` and `Status` equal to
`"close"`; afterwards `R` is stored with status `close`. -/
theorem CloseLastReception_success (s : Store) (pvzID : UUID) (R : Reception)
    (hR : R ∈ s.receptions) (hsite : R.PvzID = pvzID) (hopen : R.Status = InProgress)
    (hone : openCount s pvzID ≤ 1) :
    (CloseLastReception s pvzID).2 = .ok ⟨R.ID, R.DateTime, pvzID, "close"⟩ ∧
      { R with Status := Close } ∈ (CloseLastReception s pvzID).1.receptions ∧
      ∀ r ∈ (CloseLastReception s pvzID).1.receptions, r.ID = R.ID → r.Status = Close := by
  rw [CloseLastReception_of_some s pvzID R (find?_open_of_unique s pvzID R hone hR hsite hopen)]
  refine ⟨by rw [hsite]; rfl, ?_, ?_⟩
  · simp only [updateReceptionStatus, List.mem_map]
    exact ⟨R, hR, by simp⟩
  · intro r hr hid
    simp only [updateReceptionStatus, List.mem_map] at hr
    obtain ⟨x, _, hx⟩ := hr
    by_cases hxid : x.ID = R.ID
    · rw [if_pos hxid] at hx
      rw [← hx]
    · rw [if_neg hxid] at hx
      rw [hx] at hxid
      exact absurd hid hxid

theorem CloseLastReception_success_witness :
    (⟨10, 5, 1, InProgress⟩ : Reception) ∈ storeOpen.receptions ∧
      openCount storeOpen 1 ≤ 1 ∧
      (CloseLastReception storeOpen 1).2 = .ok ⟨10, 5, 1, "close"⟩ ∧
      (⟨10, 5, 1, Close⟩ : Reception) ∈ (CloseLastReception storeOpen 1).1.receptions ∧
      ∀ r ∈ (CloseLastReception storeOpen 1).1.receptions, r.ID = 10 → r.Status = Close :=
  ⟨by decide, by decide,
    CloseLastReception_success storeOpen 1 ⟨10, 5, 1, InProgress⟩ (by decide) rfl rfl (by decide)⟩

/-- C5: `CloseLastReception pvzID` leaves every product, every site and every
reception other than an `in_progress` reception of `pvzID` unchanged (row by
row, the table keeps its length); and when `pvzID` has no reception with status
`in_progress` it returns `ErrNoOpenReception` and the whole store is unchanged. -/
theorem CloseLastReception_frame (s : Store) (pvzID : UUID) (hk : s.ReceptionKeysUnique) :
    (CloseLastReception s pvzID).1.products = s.products ∧
      (CloseLastReception s pvzID).1.pvzs = s.pvzs ∧
      (CloseLastReception s pvzID).1.receptions.length = s.receptions.length ∧
      (∀ (i : Nat) (r : Reception), s.receptions[i]? = some r →
        ¬ (r.PvzID = pvzID ∧ r.Status = InProgress) →
        (CloseLastReception s pvzID).1.receptions[i]? = some r) ∧
      ((¬ ∃ r ∈ s.receptions, r.PvzID = pvzID ∧ r.Status = InProgress) →
        CloseLastReception s pvzID = (s, .error .ErrNoOpenReception)) := by
  cases h : s.receptions.find? (receptionMatches pvzID InProgress) with
  | none =>
    rw [CloseLastReception_of_none s pvzID h]
    exact ⟨rfl, rfl, rfl, fun _ _ hi _ => hi, fun _ => rfl⟩
  | some R =>
    rw [CloseLastReception_of_some s pvzID R h]
    have hRmem : R ∈ s.receptions := List.mem_of_find?_eq_some h
    have hRm := (receptionMatches_iff pvzID InProgress R).1 (List.find?_some h)
    refine ⟨rfl, rfl, by simp [updateReceptionStatus], ?_, ?_⟩
    · intro i r hi hr
      have hrmem : r ∈ s.receptions := List.getElem?_mem hi
      have hne : r.ID ≠ R.ID := by
        intro hid
        have := reception_eq_of_id_eq s hk r R hrmem hRmem hid
        exact hr (this ▸ hRm)
      simp [updateReceptionStatus, List.getElem?_map, hi, hne]
    · intro hno
      exact absurd ⟨R, hRmem, hRm⟩ hno

theorem CloseLastReception_frame_witness :
    storeMixed.ReceptionKeysUnique ∧
      (CloseLastReception storeMixed 1).1.products = storeMixed.products ∧
      (CloseLastReception storeMixed 1).1.pvzs = storeMixed.pvzs ∧
      (CloseLastReception storeMixed 1).1.receptions.length = storeMixed.receptions.length ∧
      (∀ (i : Nat) (r : Reception), storeMixed.receptions[i]? = some r →
        ¬ (r.PvzID = 1 ∧ r.Status = InProgress) →
        (CloseLastReception storeMixed 1).1.receptions[i]? = some r) ∧
      ((¬ ∃ r ∈ storeMixed.receptions, r.PvzID = 1 ∧ r.Status = InProgress) →
        CloseLastReception storeMixed 1 = (storeMixed, .error .ErrNoOpenReception)) :=
  ⟨by decide, CloseLastReception_frame storeMixed 1 (by decide)⟩

/-- C6: in a store satisfying the one-open-reception invariant, after a
successful `CloseLastReception pvzID` an immediately following
`CloseLastReception pvzID` fails with `ErrNoOpenReception`; and
`CloseLastReception` on a site without any reception fails with
`ErrNoOpenReception`. -/
theorem CloseLastReception_only_once (s : Store) (pvzID : UUID) (hinv : s.OneOpenReception) :
    (∀ r, (CloseLastReception s pvzID).2 = .ok r →
        CloseLastReception (CloseLastReception s pvzID).1 pvzID =
          ((CloseLastReception s pvzID).1, .error .ErrNoOpenReception)) ∧
      ((∀ r ∈ s.receptions, r.PvzID ≠ pvzID) →
        CloseLastReception s pvzID = (s, .error .ErrNoOpenReception)) := by
  constructor
  · intro r hok
    cases h : s.receptions.find? (receptionMatches pvzID InProgress) with
    | none =>
      rw [CloseLastReception_of_none s pvzID h] at hok
      cases hok
    | some R =>
      rw [CloseLastReception_of_some s pvzID R h]
      apply CloseLastReception_of_none
      rw [List.find?_eq_none]
      intro y hy hmatch
      simp only [updateReceptionStatus, List.mem_map] at hy
      obtain ⟨x, hx, hxy⟩ := hy
      by_cases hid : x.ID = R.ID
      · rw [if_pos hid] at hxy
        rw [← hxy] at hmatch
        have := ((receptionMatches_iff pvzID InProgress _).1 hmatch).2
        exact inProgress_ne_close this.symm
      · rw [if_neg hid] at hxy
        rw [← hxy] at hmatch
        have hfind := find?_eq_some_of_countP_le_one _ _ x (hinv pvzID) hx hmatch
        rw [h] at hfind
        injection hfind with hfind
        exact hid (hfind ▸ rfl)
  · intro hnone
    apply CloseLastReception_of_none
    rw [find?_open_eq_none_iff]
    rintro ⟨r, hr, hsite, _⟩
    exact hnone r hr hsite

theorem CloseLastReception_only_once_witness :
    storeOpen.OneOpenReception ∧
      (CloseLastReception storeOpen 1).2 = .ok ⟨10, 5, 1, Close⟩ ∧
      CloseLastReception (CloseLastReception storeOpen 1).1 1 =
        ((CloseLastReception storeOpen 1).1, .error .ErrNoOpenReception) ∧
      (∀ r ∈ storeOpen.receptions, r.PvzID ≠ 2) ∧
      CloseLastReception storeOpen 2 = (storeOpen, .error .ErrNoOpenReception) :=
  ⟨(oneOpenReception_iff _).2 (by decide), rfl,
    (CloseLastReception_only_once storeOpen 1 ((oneOpenReception_iff _).2 (by decide))).1
      ⟨10, 5, 1, Close⟩ rfl,
    by decide,
    (CloseLastReception_only_once storeOpen 2 ((oneOpenReception_iff _).2 (by decide))).2
      (by decide)⟩

/-- Filtering by reception after deleting one product by key. -/
theorem productsOf_filter_ne (s : Store) (hk : s.ProductKeysUnique) (p : Product)
    (hp : p ∈ s.products) (rid : UUID) (hrid : p.ReceptionID ≠ rid) :
    (s.products.filter (fun q => decide (q.ID ≠ p.ID))).filter
        (fun q => decide (q.ReceptionID = rid)) =
      s.products.filter (fun q => decide (q.ReceptionID = rid)) := by
  rw [List.filter_filter]
  apply List.filter_congr
  intro q hq
  by_cases hqr : q.ReceptionID = rid
  · have hne : q.ID ≠ p.ID := by
      intro hid
      have := product_eq_of_id_eq s hk q p hq hp hid
      exact hrid (this ▸ hqr)
    simp [hqr, hne]
  · simp [hqr]

/-- The row picked by `ORDER BY date_time DESC LIMIT 1` is one of the rows. -/
theorem latestProduct_mem (l : List Product) (p : Product) (h : latestProduct l = some p) :
    p ∈ l := by
  induction l generalizing p with
  | nil => cases h
  | cons a t ih =>
    cases ht : latestProduct t with
    | none =>
      simp only [latestProduct, ht] at h
      injection h with h
      rw [← h]
      exact List.mem_cons_self _ _
    | some q =>
      simp only [latestProduct, ht] at h
      by_cases hlt : a.DateTime < q.DateTime
      · rw [if_pos hlt] at h
        injection h with h
        rw [← h]
        exact List.mem_cons_of_mem _ (ih q ht)
      · rw [if_neg hlt] at h
        injection h with h
        rw [← h]
        exact List.mem_cons_self _ _

/-- C7: a reception with status `close` is terminal.  For every call of
`CreateReception`, `AddProduct`, `DeleteLastProduct` or `CloseLastReception`,
a reception stored with status `close` before the call is stored unchanged
after it, every row carrying its id has status `close`, and the products
attached to it are the same before and after. -/
theorem closed_reception_terminal (s : Store) (c : Call) (r : Reception)
    (hkr : s.ReceptionKeysUnique) (hkp : s.ProductKeysUnique)
    (hr : r ∈ s.receptions) (hclosed : r.Status = Close) :
    r ∈ (c.exec s).receptions ∧
      (∀ x ∈ (c.exec s).receptions, x.ID = r.ID → x.Status = Close) ∧
      productsOf (c.exec s) r.ID = productsOf s r.ID := by
  have hsame : ∀ x ∈ s.receptions, x.ID = r.ID → x.Status = Close := by
    intro x hx hid
    rw [reception_eq_of_id_eq s hkr x r hx hr hid]
    exact hclosed
  have hopen_ne : ∀ R ∈ s.receptions, R.Status = InProgress → R.ID ≠ r.ID := by
    intro R hR hRo hid
    have := hsame R hR hid
    rw [hRo] at this
    exact inProgress_ne_close this
  cases c with
  | CreateReception now receptionID pvzID =>
    simp only [Call.exec]
    cases hg : (pvzExists s pvzID && !receptionExists s pvzID InProgress) with
    | false =>
      rw [CreateReception_of_guard_false s now receptionID pvzID hg]
      exact ⟨hr, hsame, rfl⟩
    | true =>
      cases hd : s.receptions.any (fun r => decide (r.ID = receptionID)) with
      | true =>
        rw [CreateReception_of_duplicate s now receptionID pvzID hg hd]
        exact ⟨hr, hsame, rfl⟩
      | false =>
        rw [CreateReception_of_fresh s now receptionID pvzID hg hd]
        refine ⟨List.mem_append_left _ hr, ?_, rfl⟩
        intro x hx hid
        rcases List.mem_append.1 hx with hx | hx
        · exact hsame x hx hid
        · rw [List.mem_singleton] at hx
          rw [hx] at hid
          have hnot : ¬ (s.receptions.any (fun r => decide (r.ID = receptionID)) = true) := by
            rw [hd]
            exact Bool.false_ne_true
          rw [List.any_eq_true] at hnot
          exact absurd ⟨r, hr, by simpa using hid.symm⟩ hnot
  | CloseLastReception pvzID =>
    simp only [Call.exec]
    cases h : s.receptions.find? (receptionMatches pvzID InProgress) with
    | none =>
      rw [CloseLastReception_of_none s pvzID h]
      exact ⟨hr, hsame, rfl⟩
    | some R =>
      rw [CloseLastReception_of_some s pvzID R h]
      refine ⟨?_, ?_, rfl⟩
      · simp only [updateReceptionStatus, List.mem_map]
        refine ⟨r, hr, ?_⟩
        by_cases hid : r.ID = R.ID
        · rw [if_pos hid, ← hclosed]
        · rw [if_neg hid]
      · intro x hx hid
        simp only [updateReceptionStatus, List.mem_map] at hx
        obtain ⟨y, hy, hyx⟩ := hx
        by_cases hyid : y.ID = R.ID
        · rw [if_pos hyid] at hyx
          rw [← hyx]
        · rw [if_neg hyid] at hyx
          rw [← hyx] at hid ⊢
          exact hsame y hy hid
  | AddProduct now productID pvzID t =>
    simp only [Call.exec]
    cases h : s.receptions.find? (receptionMatches pvzID InProgress) with
    | none =>
      rw [AddProduct_of_none s now productID pvzID t h]
      exact ⟨hr, hsame, rfl⟩
    | some R =>
      cases hd : s.products.any (fun p => decide (p.ID = productID)) with
      | true =>
        rw [AddProduct_of_duplicate s now productID pvzID t R h hd]
        exact ⟨hr, hsame, rfl⟩
      | false =>
        rw [AddProduct_of_fresh s now productID pvzID t R h hd]
        refine ⟨hr, hsame, ?_⟩
        have hne := hopen_ne R (List.mem_of_find?_eq_some h)
          ((receptionMatches_iff pvzID InProgress R).1 (List.find?_some h)).2
        simp [productsOf, List.filter_append, hne]
  | DeleteLastProduct pvzID =>
    simp only [Call.exec]
    cases h : s.receptions.find? (receptionMatches pvzID InProgress) with
    | none =>
      rw [DeleteLastProduct_of_none s pvzID h]
      exact ⟨hr, hsame, rfl⟩
    | some R =>
      cases hp : latestProduct (productsOf s R.ID) with
      | none =>
        rw [DeleteLastProduct_of_empty s pvzID R h hp]
        exact ⟨hr, hsame, rfl⟩
      | some p =>
        rw [DeleteLastProduct_of_latest s pvzID R p h hp]
        refine ⟨hr, hsame, ?_⟩
        have hne := hopen_ne R (List.mem_of_find?_eq_some h)
          ((receptionMatches_iff pvzID InProgress R).1 (List.find?_some h)).2
        have hpm := latestProduct_mem _ p hp
        simp only [productsOf, List.mem_filter, decide_eq_true_eq] at hpm
        have hprid : p.ReceptionID ≠ r.ID := by
          rw [hpm.2]
          exact hne
        exact productsOf_filter_ne s hkp p hpm.1 r.ID hprid

theorem closed_reception_terminal_witness :
    storeMixed.ReceptionKeysUnique ∧ storeMixed.ProductKeysUnique ∧
      (⟨10, 5, 1, Close⟩ : Reception) ∈ storeMixed.receptions ∧
      (⟨10, 5, 1, Close⟩ : Reception) ∈ ((Call.DeleteLastProduct 1).exec storeMixed).receptions ∧
      (∀ x ∈ ((Call.DeleteLastProduct 1).exec storeMixed).receptions,
        x.ID = 10 → x.Status = Close) ∧
      productsOf ((Call.DeleteLastProduct 1).exec storeMixed) 10 = productsOf storeMixed 10 :=
  ⟨by decide, by decide, by decide,
    closed_reception_terminal storeMixed (.DeleteLastProduct 1) ⟨10, 5, 1, Close⟩
      (by decide) (by decide) (by decide) rfl⟩

/-! ## Product ledger -/

/-- The row picked by `ORDER BY date_time DESC LIMIT 1` has the greatest
`date_time` among the rows. -/
theorem latestProduct_ge (l : List Product) (p : Product) (h : latestProduct l = some p) :
    ∀ q ∈ l, q.DateTime ≤ p.DateTime := by
  induction l generalizing p with
  | nil => cases h
  | cons a t ih =>
    cases ht : latestProduct t with
    | none =>
      simp only [latestProduct, ht] at h
      injection h with h
      have htnil : t = [] := by
        cases t with
        | nil => rfl
        | cons b u =>
          simp only [latestProduct] at ht
          split at ht
          · split at ht <;> cases ht
          · cases ht
      intro q hq
      rw [htnil, List.mem_singleton] at hq
      rw [hq, h]
    | some m =>
      simp only [latestProduct, ht] at h
      have hm := ih m ht
      by_cases hlt : a.DateTime < m.DateTime
      · rw [if_pos hlt] at h
        injection h with h
        intro q hq
        rw [← h]
        rcases List.mem_cons.1 hq with hqa | hqt
        · rw [hqa]
          exact le_of_lt hlt
        · exact hm q hqt
      · rw [if_neg hlt] at h
        injection h with h
        intro q hq
        rw [← h]
        rcases List.mem_cons.1 hq with hqa | hqt
        · rw [hqa]
        · exact le_trans (hm q hqt) (not_lt.1 hlt)

/-- A non-empty result set has a latest row. -/
theorem latestProduct_ne_none (l : List Product) (h : l ≠ []) : latestProduct l ≠ none := by
  cases l with
  | nil => exact absurd rfl h
  | cons a t =>
    simp only [latestProduct]
    split
    · split <;> exact Option.some_ne_none _
    · exact Option.some_ne_none _

theorem latestProduct_eq_none_iff (l : List Product) : latestProduct l = none ↔ l = [] := by
  constructor
  · intro h
    by_contra hne
    exact latestProduct_ne_none l hne h
  · intro h
    rw [h]
    rfl

/-- In a table with unique keys, deleting by key erases one row. -/
theorem filter_id_ne_eq_erase (l : List Product) (p : Product)
    (hk : (l.map (fun q => q.ID)).Nodup) (hp : p ∈ l) :
    l.filter (fun q => decide (q.ID ≠ p.ID)) = l.erase p := by
  induction l with
  | nil => cases hp
  | cons a t ih =>
    rw [List.map_cons, List.nodup_cons] at hk
    by_cases hap : a = p
    · subst hap
      rw [List.erase_cons_head]
      have hall : ∀ q ∈ t, decide (q.ID ≠ a.ID) = true := by
        intro q hq
        have : q.ID ≠ a.ID := by
          intro hid
          exact hk.1 (List.mem_map.2 ⟨q, hq, hid⟩)
        simpa using this
      rw [List.filter_cons_of_neg (by simp)]
      exact List.filter_eq_self.2 hall
    · have hpt : p ∈ t := by
        rcases List.mem_cons.1 hp with h | h
        · exact absurd h.symm hap
        · exact h
      have hid : a.ID ≠ p.ID := by
        intro hid
        exact hk.1 (List.mem_map.2 ⟨p, hpt, hid.symm⟩)
      rw [List.filter_cons_of_pos (by simpa using hid), List.erase_cons_tail (by simpa using hap),
        ih hk.2 hpt]

/-- What one successful `DeleteLastProduct` does, given the row the locking read
returns. -/
theorem DeleteLastProduct_step (s : Store) (pvzID : UUID) (R : Reception)
    (hk : s.ProductKeysUnique)
    (hfind : s.receptions.find? (receptionMatches pvzID InProgress) = some R)
    (hne : productsOf s R.ID ≠ []) :
    ∃ p, p ∈ s.products ∧ p.ReceptionID = R.ID ∧
      (∀ q ∈ s.products, q.ReceptionID = R.ID → q.DateTime ≤ p.DateTime) ∧
      DeleteLastProduct s pvzID = ({ s with products := s.products.erase p }, .ok ()) := by
  cases hp : latestProduct (productsOf s R.ID) with
  | none => exact absurd hp (latestProduct_ne_none _ hne)
  | some p =>
    have hmem := latestProduct_mem _ p hp
    have hge := latestProduct_ge _ p hp
    simp only [productsOf, List.mem_filter, decide_eq_true_eq] at hmem hge
    refine ⟨p, hmem.1, hmem.2, fun q hq hqr => hge q ⟨hq, hqr⟩, ?_⟩
    rw [DeleteLastProduct_of_latest s pvzID R p hfind hp, filter_id_ne_eq_erase _ p hk hmem.1]

/-- Erasing one product of a reception shortens its product list by one and keeps
the keys unique. -/
theorem productsOf_erase (s : Store) (p : Product) (hk : s.ProductKeysUnique)
    (hp : p ∈ s.products) :
    (productsOf { s with products := s.products.erase p } p.ReceptionID).length + 1 =
        (productsOf s p.ReceptionID).length ∧
      Store.ProductKeysUnique { s with products := s.products.erase p } := by
  have hsub : (s.products.erase p).Sublist s.products := List.erase_sublist p s.products
  refine ⟨?_, List.Nodup.sublist (List.Sublist.map _ hsub) hk⟩
  have hkf : ((productsOf s p.ReceptionID).map (fun q => q.ID)).Nodup :=
    List.Nodup.sublist (List.Sublist.map _ (List.filter_sublist _)) hk
  have hpf : p ∈ productsOf s p.ReceptionID := by
    simp [productsOf, hp]
  have h1 : productsOf { s with products := s.products.erase p } p.ReceptionID =
      (productsOf s p.ReceptionID).erase p := by
    rw [← filter_id_ne_eq_erase _ p hkf hpf, ← filter_id_ne_eq_erase _ p hk hp]
    simp only [productsOf]
    exact List.filter_comm _ _ _
  rw [h1, List.length_erase_of_mem hpf]
  have : 0 < (productsOf s p.ReceptionID).length := List.length_pos.2 (List.ne_nil_of_mem hpf)
  omega

/-- C8, as stated, fails twice.  In `storeOpen` site 1 has an `in_progress`
reception, but `AddProduct` with the id 100 of a stored product inserts nothing
and returns no product.  In `storeTwoOpen` site 1 has the `in_progress`
receptions 10 and 11; the product is attached to reception 10, and no returned
product could be attached to each of them. -/
theorem AddProduct_as_stated_fails :
    ((∃ R ∈ storeOpen.receptions, R.PvzID = 1 ∧ R.Status = InProgress) ∧
        AddProduct storeOpen 9 100 1 "обувь" =
          (storeOpen, .error (.Wrapped "repository.AddProduct" .UniqueViolation))) ∧
      (AddProduct storeTwoOpen 9 200 1 "обувь").2 = .ok ⟨200, "обувь", 9, 10⟩ ∧
      ¬ ∀ R ∈ storeTwoOpen.receptions, R.PvzID = 1 → R.Status = InProgress →
          ∃ p, (AddProduct storeTwoOpen 9 200 1 "обувь").2 = .ok p ∧ p.ReceptionID = R.ID := by
  refine ⟨⟨by decide, by decide⟩, by decide, ?_⟩
  intro h
  obtain ⟨p1, h1, hid1⟩ := h ⟨10, 5, 1, InProgress⟩ (by decide) rfl rfl
  obtain ⟨p2, h2, hid2⟩ := h ⟨11, 6, 1, InProgress⟩ (by decide) rfl rfl
  rw [h1] at h2
  injection h2 with h2
  rw [h2, hid2] at hid1
  exact absurd hid1 (by decide)

/-- C8, amended: if `R` is the only reception of site `pvzID` with status
`in_progress` and `productID` is not the id of a stored product, `AddProduct`
appends exactly one product row, with `ReceptionID` equal to the id of `R`, and
returns it: its `ID` is `productID`, its `Type` is `productType`, its
`ReceptionID` is the id of `R`.  If `pvzID` has no reception with status
`in_progress`, it returns `ErrNoOpenReception` and the store is unchanged. -/
theorem AddProduct_attaches_to_open_reception (s : Store) (now : Time)
    (productID pvzID : UUID) (productType : String) :
    (∀ R ∈ s.receptions, R.PvzID = pvzID → R.Status = InProgress →
        openCount s pvzID ≤ 1 → (∀ p ∈ s.products, p.ID ≠ productID) →
        AddProduct s now productID pvzID productType =
          ({ s with products := s.products ++ [⟨productID, productType, now, R.ID⟩] },
            .ok ⟨productID, productType, now, R.ID⟩)) ∧
      ((¬ ∃ r ∈ s.receptions, r.PvzID = pvzID ∧ r.Status = InProgress) →
        AddProduct s now productID pvzID productType = (s, .error .ErrNoOpenReception)) := by
  constructor
  · intro R hR hsite hopen hone hfresh
    have hfind := find?_open_of_unique s pvzID R hone hR hsite hopen
    have hd : s.products.any (fun p => decide (p.ID = productID)) = false := by
      rw [← Bool.not_eq_true, List.any_eq_true]
      rintro ⟨p, hp, hid⟩
      exact hfresh p hp (by simpa using hid)
    exact AddProduct_of_fresh s now productID pvzID productType R hfind hd
  · intro hno
    exact AddProduct_of_none s now productID pvzID productType
      ((find?_open_eq_none_iff s pvzID).2 hno)

theorem AddProduct_attaches_to_open_reception_witness :
    ((⟨10, 5, 1, InProgress⟩ : Reception) ∈ storeOpen.receptions ∧
        openCount storeOpen 1 ≤ 1 ∧ (∀ p ∈ storeOpen.products, p.ID ≠ 102) ∧
        AddProduct storeOpen 9 102 1 "обувь" =
          ({ storeOpen with products := storeOpen.products ++ [⟨102, "обувь", 9, 10⟩] },
            .ok ⟨102, "обувь", 9, 10⟩)) ∧
      ((¬ ∃ r ∈ storeClosed.receptions, r.PvzID = 1 ∧ r.Status = InProgress) ∧
        AddProduct storeClosed 9 102 1 "обувь" = (storeClosed, .error .ErrNoOpenReception)) :=
  ⟨⟨by decide, by decide, by decide,
      (AddProduct_attaches_to_open_reception storeOpen 9 102 1 "обувь").1 ⟨10, 5, 1, InProgress⟩
        (by decide) rfl rfl (by decide) (by decide)⟩,
    ⟨by decide,
      (AddProduct_attaches_to_open_reception storeClosed 9 102 1 "обувь").2 (by decide)⟩⟩

/-- C9, as stated, fails: in `storeTwoOpen` site 1 has the `in_progress`
receptions 10 and 11, each with one product; `DeleteLastProduct 1` removes the
product of reception 10, and no single call could remove exactly one product
that belongs to each of them. -/
theorem DeleteLastProduct_two_open_fails :
    DeleteLastProduct storeTwoOpen 1 =
        ({ storeTwoOpen with products := [⟨101, "обувь", 8, 11⟩] }, .ok ()) ∧
      ¬ ∀ R ∈ storeTwoOpen.receptions, R.PvzID = 1 → R.Status = InProgress →
          productsOf storeTwoOpen R.ID ≠ [] →
          ∃ p ∈ storeTwoOpen.products, p.ReceptionID = R.ID ∧
            (DeleteLastProduct storeTwoOpen 1).1.products = storeTwoOpen.products.erase p := by
  refine ⟨by decide, ?_⟩
  intro h
  obtain ⟨p1, hp1, hr1, he1⟩ := h ⟨10, 5, 1, InProgress⟩ (by decide) rfl rfl (by decide)
  obtain ⟨p2, hp2, hr2, he2⟩ := h ⟨11, 6, 1, InProgress⟩ (by decide) rfl rfl (by decide)
  have h1 : p1 = ⟨100, "обувь", 7, 10⟩ := by
    simp only [storeTwoOpen, List.mem_cons, List.mem_singleton, List.not_mem_nil, or_false] at hp1
    rcases hp1 with h | h
    · exact h
    · rw [h] at hr1
      exact absurd hr1 (by decide)
  have h2 : p2 = ⟨101, "обувь", 8, 11⟩ := by
    simp only [storeTwoOpen, List.mem_cons, List.mem_singleton, List.not_mem_nil, or_false] at hp2
    rcases hp2 with h | h
    · rw [h] at hr2
      exact absurd hr2 (by decide)
    · exact h
  rw [he1, h1] at he2
  rw [h2] at he2
  exact absurd he2 (by decide)

/-- C9, amended: if `R` is the only reception of site `pvzID` with status
`in_progress` and `R` has at least one product, `DeleteLastProduct` succeeds and
removes exactly one product row `p`: a product of `R` whose `date_time` is
greater than or equal to that of every product of `R`.  Every other product,
every reception and every site is unchanged. -/
theorem DeleteLastProduct_removes_latest (s : Store) (pvzID : UUID) (R : Reception)
    (hk : s.ProductKeysUnique) (hR : R ∈ s.receptions) (hsite : R.PvzID = pvzID)
    (hopen : R.Status = InProgress) (hone : openCount s pvzID ≤ 1)
    (hne : productsOf s R.ID ≠ []) :
    ∃ p, p ∈ s.products ∧ p.ReceptionID = R.ID ∧
      (∀ q ∈ s.products, q.ReceptionID = R.ID → q.DateTime ≤ p.DateTime) ∧
      DeleteLastProduct s pvzID = ({ s with products := s.products.erase p }, .ok ()) ∧
      (s.products.erase p).length + 1 = s.products.length := by
  obtain ⟨p, hp, hpr, hmax, hdel⟩ :=
    DeleteLastProduct_step s pvzID R hk (find?_open_of_unique s pvzID R hone hR hsite hopen) hne
  refine ⟨p, hp, hpr, hmax, hdel, ?_⟩
  rw [List.length_erase_of_mem hp]
  have : 0 < s.products.length := List.length_pos.2 (List.ne_nil_of_mem hp)
  omega

theorem DeleteLastProduct_removes_latest_witness :
    storeOpen.ProductKeysUnique ∧ (⟨10, 5, 1, InProgress⟩ : Reception) ∈ storeOpen.receptions ∧
      openCount storeOpen 1 ≤ 1 ∧ productsOf storeOpen 10 ≠ [] ∧
      ∃ p, p ∈ storeOpen.products ∧ p.ReceptionID = 10 ∧
        (∀ q ∈ storeOpen.products, q.ReceptionID = 10 → q.DateTime ≤ p.DateTime) ∧
        DeleteLastProduct storeOpen 1 =
          ({ storeOpen with products := storeOpen.products.erase p }, .ok ()) ∧
        (storeOpen.products.erase p).length + 1 = storeOpen.products.length :=
  ⟨by decide, by decide, by decide, by decide,
    DeleteLastProduct_removes_latest storeOpen 1 ⟨10, 5, 1, InProgress⟩
      (by decide) (by decide) rfl rfl (by decide) (by decide)⟩

theorem execAll_replicate_succ (s : Store) (c : Call) (k : Nat) :
    execAll s (List.replicate (k + 1) c) = execAll (c.exec s) (List.replicate k c) := by
  rw [List.replicate_succ]
  rfl

/-- Repeated deletion, stated for the row the locking read returns. -/
theorem repeat_DeleteLastProduct_aux (N : Nat) :
    ∀ (s : Store) (pvzID : UUID) (R : Reception), s.ProductKeysUnique →
      s.receptions.find? (receptionMatches pvzID InProgress) = some R →
      (productsOf s R.ID).length = N →
      (∀ k < N,
          (DeleteLastProduct (execAll s (List.replicate k (.DeleteLastProduct pvzID))) pvzID).2 =
            .ok ()) ∧
        productsOf (execAll s (List.replicate N (.DeleteLastProduct pvzID))) R.ID = [] ∧
        DeleteLastProduct (execAll s (List.replicate N (.DeleteLastProduct pvzID))) pvzID =
          (execAll s (List.replicate N (.DeleteLastProduct pvzID)), .error .ErrNoProducts) := by
  induction N with
  | zero =>
    intro s pvzID R _ hfind hlen
    have hnil : productsOf s R.ID = [] := List.length_eq_zero.1 hlen
    refine ⟨fun k hk => absurd hk (Nat.not_lt_zero k), hnil, ?_⟩
    exact DeleteLastProduct_of_empty s pvzID R hfind ((latestProduct_eq_none_iff _).2 hnil)
  | succ n ih =>
    intro s pvzID R hk hfind hlen
    have hne : productsOf s R.ID ≠ [] := by
      intro h
      rw [h] at hlen
      cases hlen
    obtain ⟨p, hp, hpr, _, hdel⟩ := DeleteLastProduct_step s pvzID R hk hfind hne
    have hexec : (Call.DeleteLastProduct pvzID).exec s =
        { s with products := s.products.erase p } := by
      simp only [Call.exec, hdel]
    obtain ⟨hlen1, hk1⟩ := productsOf_erase s p hk hp
    rw [hpr, hlen] at hlen1
    have hlen2 : (productsOf { s with products := s.products.erase p } R.ID).length = n := by
      omega
    obtain ⟨ih1, ih2, ih3⟩ := ih { s with products := s.products.erase p } pvzID R hk1 hfind hlen2
    refine ⟨?_, ?_, ?_⟩
    · intro k hklt
      cases k with
      | zero =>
        show (DeleteLastProduct s pvzID).2 = .ok ()
        rw [hdel]
      | succ j =>
        rw [execAll_replicate_succ, hexec]
        exact ih1 j (by omega)
    · rw [execAll_replicate_succ, hexec]
      exact ih2
    · rw [execAll_replicate_succ, hexec]
      exact ih3

/-- C10: when the `in_progress` reception `R` of site `pvzID` has exactly `N`
products, each of `N` consecutive calls of `DeleteLastProduct pvzID` succeeds,
after them `R` has no product, and the next call fails with `ErrNoProducts`
and changes nothing. -/
theorem DeleteLastProduct_repeat (N : Nat) (s : Store) (pvzID : UUID) (R : Reception)
    (hk : s.ProductKeysUnique) (hR : R ∈ s.receptions) (hsite : R.PvzID = pvzID)
    (hopen : R.Status = InProgress) (hone : openCount s pvzID ≤ 1)
    (hN : (productsOf s R.ID).length = N) :
    (∀ k < N,
        (DeleteLastProduct (execAll s (List.replicate k (.DeleteLastProduct pvzID))) pvzID).2 =
          .ok ()) ∧
      productsOf (execAll s (List.replicate N (.DeleteLastProduct pvzID))) R.ID = [] ∧
      DeleteLastProduct (execAll s (List.replicate N (.DeleteLastProduct pvzID))) pvzID =
        (execAll s (List.replicate N (.DeleteLastProduct pvzID)), .error .ErrNoProducts) :=
  repeat_DeleteLastProduct_aux N s pvzID R hk
    (find?_open_of_unique s pvzID R hone hR hsite hopen) hN

theorem DeleteLastProduct_repeat_witness :
    storeOpen.ProductKeysUnique ∧ (⟨10, 5, 1, InProgress⟩ : Reception) ∈ storeOpen.receptions ∧
      openCount storeOpen 1 ≤ 1 ∧ (productsOf storeOpen 10).length = 2 ∧
      (∀ k < 2,
        (DeleteLastProduct (execAll storeOpen (List.replicate k (.DeleteLastProduct 1))) 1).2 =
          .ok ()) ∧
      productsOf (execAll storeOpen (List.replicate 2 (.DeleteLastProduct 1))) 10 = [] ∧
      DeleteLastProduct (execAll storeOpen (List.replicate 2 (.DeleteLastProduct 1))) 1 =
        (execAll storeOpen (List.replicate 2 (.DeleteLastProduct 1)), .error .ErrNoProducts) :=
  ⟨by decide, by decide, by decide, by decide,
    DeleteLastProduct_repeat 2 storeOpen 1 ⟨10, 5, 1, InProgress⟩
      (by decide) (by decide) rfl rfl (by decide) (by decide)⟩

/-! ## Failures of `DeleteLastProduct` -/

/-- C11, as stated, fails: in `storeTwoOpenOneEmpty` site 1 has an `in_progress`
reception with zero products (reception 11), yet `DeleteLastProduct 1` does not
return `ErrNoProducts`: the locking read returns reception 10 and its product
is deleted. -/
theorem DeleteLastProduct_empty_open_reception_ignored :
    (∃ R ∈ storeTwoOpenOneEmpty.receptions,
        R.PvzID = 1 ∧ R.Status = InProgress ∧ productsOf storeTwoOpenOneEmpty R.ID = []) ∧
      DeleteLastProduct storeTwoOpenOneEmpty 1 =
        ({ storeTwoOpenOneEmpty with products := [] }, .ok ()) := by
  decide

/-- C11, amended: `DeleteLastProduct pvzID` returns `ErrNoOpenReception` exactly
when `pvzID` has no reception with status `in_progress`; when `pvzID` has at
most one such reception it returns `ErrNoProducts` exactly when it has an
`in_progress` reception without products; and whenever one of the two errors is
returned the store is unchanged. -/
theorem DeleteLastProduct_failures (s : Store) (pvzID : UUID) :
    ((DeleteLastProduct s pvzID).2 = .error .ErrNoOpenReception ↔
        ¬ ∃ r ∈ s.receptions, r.PvzID = pvzID ∧ r.Status = InProgress) ∧
      (openCount s pvzID ≤ 1 →
        ((DeleteLastProduct s pvzID).2 = .error .ErrNoProducts ↔
          ∃ R ∈ s.receptions, R.PvzID = pvzID ∧ R.Status = InProgress ∧
            productsOf s R.ID = [])) ∧
      ((DeleteLastProduct s pvzID).2 = .error .ErrNoOpenReception ∨
          (DeleteLastProduct s pvzID).2 = .error .ErrNoProducts →
        (DeleteLastProduct s pvzID).1 = s) := by
  cases h : s.receptions.find? (receptionMatches pvzID InProgress) with
  | none =>
    have hno := (find?_open_eq_none_iff s pvzID).1 h
    rw [DeleteLastProduct_of_none s pvzID h]
    refine ⟨⟨fun _ => hno, fun _ => rfl⟩, ?_, fun _ => rfl⟩
    intro _
    constructor
    · intro hc
      cases hc
    · rintro ⟨R, hR, hsite, hopen, _⟩
      exact absurd ⟨R, hR, hsite, hopen⟩ hno
  | some R =>
    have hRmem : R ∈ s.receptions := List.mem_of_find?_eq_some h
    have hRm := (receptionMatches_iff pvzID InProgress R).1 (List.find?_some h)
    cases hp : latestProduct (productsOf s R.ID) with
    | none =>
      have hnil := (latestProduct_eq_none_iff _).1 hp
      rw [DeleteLastProduct_of_empty s pvzID R h hp]
      refine ⟨⟨?_, ?_⟩, ?_, fun _ => rfl⟩
      · intro hc
        cases hc
      · intro hno
        exact absurd ⟨R, hRmem, hRm⟩ hno
      · intro _
        exact ⟨fun _ => ⟨R, hRmem, hRm.1, hRm.2, hnil⟩, fun _ => rfl⟩
    | some p =>
      rw [DeleteLastProduct_of_latest s pvzID R p h hp]
      refine ⟨⟨?_, ?_⟩, ?_, ?_⟩
      · intro hc
        cases hc
      · intro hno
        exact absurd ⟨R, hRmem, hRm⟩ hno
      · intro hone
        constructor
        · intro hc
          cases hc
        · rintro ⟨Q, hQ, hsite, hopen, hnil⟩
          have hfind := find?_open_of_unique s pvzID Q hone hQ hsite hopen
          rw [h] at hfind
          injection hfind with hfind
          rw [← hfind] at hnil
          rw [(latestProduct_eq_none_iff _).2 hnil] at hp
          cases hp
      · rintro (hc | hc) <;> cases hc

theorem DeleteLastProduct_failures_witness :
    ((DeleteLastProduct storeClosed 1).2 = .error .ErrNoOpenReception ∧
        (¬ ∃ r ∈ storeClosed.receptions, r.PvzID = 1 ∧ r.Status = InProgress) ∧
        (DeleteLastProduct storeClosed 1).1 = storeClosed) ∧
      (openCount storeOpen 1 ≤ 1 ∧
        ((DeleteLastProduct storeOpen 1).2 = .error .ErrNoProducts ↔
          ∃ R ∈ storeOpen.receptions, R.PvzID = 1 ∧ R.Status = InProgress ∧
            productsOf storeOpen R.ID = [])) :=
  ⟨⟨by decide, (DeleteLastProduct_failures storeClosed 1).1.1 (by decide),
      (DeleteLastProduct_failures storeClosed 1).2.2 (Or.inl (by decide))⟩,
    ⟨by decide, (DeleteLastProduct_failures storeOpen 1).2.1 (by decide)⟩⟩

/-! ## Commit and rollback -/

/-- While `Commit` has not been reached, every error return of the three
transactional methods is preceded by `Rollback`, and a `nil` error is returned
only after `Commit`, without `Rollback`. -/
theorem Tx_rollback_before_commit (e : PgErr) (rid : UUID) (product : Product)
    (reception : Reception) (c : Option PgErr) :
    (Tx.AddProduct ⟨none, .error e, .ok product, c⟩).1 = [.Begin, .QueryRow, .Rollback] ∧
      (Tx.AddProduct ⟨none, .ok rid, .error e, c⟩).1 =
        [.Begin, .QueryRow, .QueryRow, .Rollback] ∧
      Tx.AddProduct ⟨none, .ok rid, .ok product, none⟩ =
        ([.Begin, .QueryRow, .QueryRow, .Commit], .ok product) ∧
      (Tx.DeleteLastProduct ⟨none, .error e, .ok rid, c⟩).1 = [.Begin, .QueryRow, .Rollback] ∧
      (Tx.DeleteLastProduct ⟨none, .ok rid, .error e, c⟩).1 =
        [.Begin, .QueryRow, .QueryRow, .Rollback] ∧
      Tx.DeleteLastProduct ⟨none, .ok rid, .ok rid, none⟩ =
        ([.Begin, .QueryRow, .QueryRow, .Commit], .ok ()) ∧
      (Tx.CloseLastReception ⟨none, .error e, .ok (), c⟩).1 = [.Begin, .QueryRow, .Rollback] ∧
      (Tx.CloseLastReception ⟨none, .ok reception, .error e, c⟩).1 =
        [.Begin, .QueryRow, .Exec, .Rollback] ∧
      Tx.CloseLastReception ⟨none, .ok reception, .ok (), none⟩ =
        ([.Begin, .QueryRow, .Exec, .Commit], .ok { reception with Status := Close }) := by
  refine ⟨?_, ?_, rfl, ?_, ?_, rfl, ?_, rfl, rfl⟩ <;> cases e <;> rfl

/-- C12, at the failing input: when `Begin`, the locking select and the write
succeed and `Commit` fails with `e`, each of `AddProduct`, `DeleteLastProduct`
and `CloseLastReception` returns the wrapped error after the calls `Begin`,
statement, statement, `Commit`: `Rollback` is not called. -/
theorem Tx_commit_failure_without_rollback (e : PgErr) (rid : UUID) (product : Product)
    (reception : Reception) :
    (Tx.AddProduct ⟨none, .ok rid, .ok product, some e⟩ =
        ([.Begin, .QueryRow, .QueryRow, .Commit],
          .error (.Wrapped "repository.AddProduct" e)) ∧
      TxCall.Rollback ∉ (Tx.AddProduct ⟨none, .ok rid, .ok product, some e⟩).1) ∧
      (Tx.DeleteLastProduct ⟨none, .ok rid, .ok rid, some e⟩ =
        ([.Begin, .QueryRow, .QueryRow, .Commit],
          .error (.Wrapped "repository.DeleteLastProduct" e)) ∧
      TxCall.Rollback ∉ (Tx.DeleteLastProduct ⟨none, .ok rid, .ok rid, some e⟩).1) ∧
      (Tx.CloseLastReception ⟨none, .ok reception, .ok (), some e⟩ =
        ([.Begin, .QueryRow, .Exec, .Commit],
          .error (.Wrapped "repository.CloseLastReception" e)) ∧
      TxCall.Rollback ∉ (Tx.CloseLastReception ⟨none, .ok reception, .ok (), some e⟩).1) := by
  refine ⟨⟨rfl, ?_⟩, ⟨rfl, ?_⟩, ⟨rfl, ?_⟩⟩
  · show TxCall.Rollback ∉ [TxCall.Begin, .QueryRow, .QueryRow, .Commit]
    decide
  · show TxCall.Rollback ∉ [TxCall.Begin, .QueryRow, .QueryRow, .Commit]
    decide
  · show TxCall.Rollback ∉ [TxCall.Begin, .QueryRow, .Exec, .Commit]
    decide

/-! ## The use case `GetPVZs` -/

theorem wrapInt_of_fits (x : Int) (h0 : 0 ≤ x) (h1 : x < 2 ^ 63) : wrapInt x = x := by
  unfold wrapInt
  omega

theorem toUint64_of_nonneg (x : Int) (h0 : 0 ≤ x) (h1 : x < 2 ^ 63) :
    toUint64 x = x.toNat := by
  unfold toUint64
  congr 1
  omega

/-- Wrapping an intermediate result does not change the wrapped product. -/
theorem wrapInt_mul_wrapInt (a b : Int) : wrapInt (wrapInt a * b) = wrapInt (a * b) := by
  have ha : wrapInt a = a - 2 ^ 64 * ((a + 2 ^ 63) / 2 ^ 64) := by
    unfold wrapInt
    omega
  have hmul : wrapInt a * b = a * b - 2 ^ 64 * (((a + 2 ^ 63) / 2 ^ 64) * b) := by
    rw [ha]
    ring
  rw [hmul]
  generalize a * b = z
  generalize ((a + 2 ^ 63) / 2 ^ 64) * b = w
  unfold wrapInt
  omega

theorem effectiveLimit_bounds (mem : Memory) (params : GetPvzParams) :
    1 ≤ effectiveLimit mem params ∧ effectiveLimit mem params ≤ 30 := by
  unfold effectiveLimit
  cases params.Limit with
  | none => simp
  | some l =>
    simp only
    split <;> omega

theorem effectivePage_pos (mem : Memory) (params : GetPvzParams) :
    1 ≤ effectivePage mem params := by
  unfold effectivePage
  cases params.Page with
  | none => simp
  | some p =>
    simp only
    split <;> omega

theorem invalidDateRange_iff (params : GetPvzParams) :
    invalidDateRange params = true ↔
      ∃ a b, params.StartDate = some a ∧ params.EndDate = some b ∧ b < a := by
  unfold invalidDateRange
  cases params.StartDate with
  | none => simp
  | some a =>
    cases params.EndDate with
    | none => simp
    | some b => simp

theorem invalidDateRange_eq_false_of_ordered (params : GetPvzParams)
    (hvalid : ∀ a b, params.StartDate = some a → params.EndDate = some b → a ≤ b) :
    invalidDateRange params = false := by
  rw [← Bool.not_eq_true, invalidDateRange_iff]
  rintro ⟨a, b, ha, hb, hlt⟩
  exact absurd (hvalid a b ha hb) (not_le.2 hlt)

theorem UseCase_GetPVZs_of_invalid
    (repo : GetPVZsCall → Except Error (List PVZWithReceptions)) (mem : Memory)
    (params : GetPvzParams) (h : invalidDateRange params = true) :
    (UseCase.GetPVZs repo mem params).result = .error .ErrInvalidDateRange ∧
      (UseCase.GetPVZs repo mem params).repoCalls = [] := by
  simp only [UseCase.GetPVZs, h, if_true, and_self]

/-- With a date range that is not rejected the use case makes one repository
call, with the bounds as given, and returns what the repository returns. -/
theorem UseCase_GetPVZs_of_valid_call
    (repo : GetPVZsCall → Except Error (List PVZWithReceptions)) (mem : Memory)
    (params : GetPvzParams) (h : invalidDateRange params = false) :
    (UseCase.GetPVZs repo mem params).repoCalls =
        [{ startDate := params.StartDate, endDate := params.EndDate
           limit := toUint64 ((normalize mem params).read (limitRef params))
           offset := toUint64 (wrapInt (((normalize mem params).read (pageRef params) - 1) *
             (normalize mem params).read (limitRef params))) }] ∧
      (UseCase.GetPVZs repo mem params).result =
        (match repo { startDate := params.StartDate, endDate := params.EndDate
                      limit := toUint64 ((normalize mem params).read (limitRef params))
                      offset := toUint64 (wrapInt
                        (((normalize mem params).read (pageRef params) - 1) *
                          (normalize mem params).read (limitRef params))) } with
          | .ok pvzs => .ok pvzs
          | .error err => .error (.Wrapped "PVZ.GetPVZs" err)) := by
  simp only [UseCase.GetPVZs, h, Bool.false_eq_true, if_false, wrapInt_mul_wrapInt]
  constructor
  · split <;> rfl
  · split <;> simp [*]

theorem Ints.read_write (m : Ints) (p q : IntRef) (v : Int) :
    (m.write p v).read q = if q = p then v else m.read q := by
  cases p <;> cases q <;> simp [Ints.read, Ints.write]

theorem Ints.caller_write (m : Ints) (p : IntRef) (v : Int) (c : Addr) :
    (m.write p v).caller c = if p = .caller c then v else m.caller c := by
  cases p with
  | defaultPage => simp [Ints.write]
  | defaultLimit => simp [Ints.write]
  | caller a =>
    simp only [Ints.write, IntRef.caller.injEq]
    by_cases h : c = a
    · simp [h]
    · have h2 : ¬ a = c := fun e => h e.symm
      simp [h, h2]

theorem pageRef_eq_caller_iff (params : GetPvzParams) (c : Addr) :
    pageRef params = .caller c ↔ params.Page = some c := by
  unfold pageRef
  cases params.Page <;> simp

theorem limitRef_eq_caller_iff (params : GetPvzParams) (c : Addr) :
    limitRef params = .caller c ↔ params.Limit = some c := by
  unfold limitRef
  cases params.Limit <;> simp

/-- The integer `*params.Page` when the method starts. -/
theorem read_pageRef (mem : Memory) (params : GetPvzParams) :
    Ints.read { defaultPage := 1, defaultLimit := 10, caller := mem } (pageRef params) =
      match params.Page with
      | none => 1
      | some a => mem a := by
  unfold pageRef
  cases params.Page <;> rfl

/-- The integer `*params.Limit` when the method starts. -/
theorem read_limitRef (mem : Memory) (params : GetPvzParams) :
    Ints.read { defaultPage := 1, defaultLimit := 10, caller := mem } (limitRef params) =
      match params.Limit with
      | none => 10
      | some a => mem a := by
  unfold limitRef
  cases params.Limit <;> rfl

/-- The integers of the caller after the call: 1 behind a `Page` that pointed
below 1, 10 behind a `Limit` that then points below 1 or above 30, every other
integer as it was. -/
theorem normalize_caller (mem : Memory) (params : GetPvzParams) (c : Addr) :
    (normalize mem params).caller c =
      if params.Page = some c ∧ mem c < 1 then 1
      else if params.Limit = some c ∧ (mem c < 1 ∨ mem c > 30) then 10
      else mem c := by
  unfold normalize
  simp only [read_pageRef, read_limitRef]
  cases hp : params.Page with
  | none =>
    have hpr : pageRef params = .defaultPage := by simp [pageRef, hp]
    cases hl : params.Limit with
    | none =>
      have hlr : limitRef params = .defaultLimit := by simp [limitRef, hl]
      simp [hpr, hlr, Ints.read, Ints.write]
    | some b =>
      have hlr : limitRef params = .caller b := by simp [limitRef, hl]
      simp only [hpr, hlr, Ints.read, Ints.write]
      by_cases hcb : c = b
      · subst hcb
        by_cases hout : mem c < 1 ∨ mem c > 30
        · simp [hout]
        · simp [hout]
      · have hbc : ¬ b = c := fun e => hcb e.symm
        by_cases hout : mem b < 1 ∨ mem b > 30
        · simp [hout, hcb, hbc]
        · simp [hout, hcb, hbc]
  | some a =>
    have hpr : pageRef params = .caller a := by simp [pageRef, hp]
    cases hl : params.Limit with
    | none =>
      have hlr : limitRef params = .defaultLimit := by simp [limitRef, hl]
      simp only [hpr, hlr, Ints.read, Ints.write]
      by_cases hca : c = a
      · subst hca
        by_cases h1 : mem c < 1
        · simp [h1]
        · simp [h1]
      · have hac : ¬ a = c := fun e => hca e.symm
        by_cases h1 : mem a < 1
        · simp [h1, hca, hac]
        · simp [h1, hca, hac]
    | some b =>
      have hlr : limitRef params = .caller b := by simp [limitRef, hl]
      simp only [hpr, hlr, Ints.read, Ints.write]
      by_cases h1 : mem a < 1
      · simp only [h1, if_true]
        by_cases hba : b = a
        · subst hba
          by_cases hcb : c = b
          · subst hcb
            simp [h1]
          · have hbc : ¬ b = c := fun e => hcb e.symm
            simp [hcb, hbc]
        · by_cases hout : mem b < 1 ∨ mem b > 30
          · simp only [hba, if_false, hout, if_true]
            by_cases hca : c = a
            · subst hca
              have hbc : ¬ c = b := fun e => hba e.symm
              simp [h1, hbc]
            · have hac : ¬ a = c := fun e => hca e.symm
              by_cases hcb : c = b
              · subst hcb
                simp [hout, hac]
              · have hbc : ¬ b = c := fun e => hcb e.symm
                simp [hca, hcb, hac, hbc]
          · simp only [hba, if_false, hout]
            by_cases hca : c = a
            · subst hca
              simp [h1]
            · have hac : ¬ a = c := fun e => hca e.symm
              by_cases hcb : c = b
              · subst hcb
                simp [hout, hac, hca]
              · have hbc : ¬ b = c := fun e => hcb e.symm
                simp [hca, hcb, hac, hbc]
      · simp only [h1, if_false]
        by_cases hout : mem b < 1 ∨ mem b > 30
        · simp only [hout, if_true]
          by_cases hcb : c = b
          · subst hcb
            by_cases hac : a = c
            · subst hac
              simp [h1]
              split_ifs <;> omega
            · simp [hac, hout]
          · have hbc : ¬ b = c := fun e => hcb e.symm
            by_cases hac : a = c
            · subst hac
              simp [h1, hcb, hbc]
            · simp [hac, hcb, hbc]
        · simp only [hout, if_false]
          by_cases hcb : c = b
          · subst hcb
            by_cases hac : a = c
            · subst hac
              simp [h1]
              split_ifs <;> omega
            · simp [hac, hout]
          · have hbc : ¬ b = c := fun e => hcb e.symm
            by_cases hac : a = c
            · subst hac
              simp [h1, hbc]
            · simp [hac, hbc]

theorem normalize_read_page (mem : Memory) (params : GetPvzParams)
    (hsep : ∀ a, params.Page = some a → params.Limit = some a → 1 ≤ mem a ∧ mem a ≤ 30) :
    (normalize mem params).read (pageRef params) = effectivePage mem params := by
  unfold effectivePage
  cases hp : params.Page with
  | none =>
    have hpr : pageRef params = .defaultPage := by simp [pageRef, hp]
    unfold normalize
    simp only [read_pageRef, read_limitRef, hp]
    rw [hpr]
    cases hl : params.Limit with
    | none =>
      have hlr : limitRef params = .defaultLimit := by simp [limitRef, hl]
      simp [hlr, Ints.read, Ints.write]
    | some b =>
      have hlr : limitRef params = .caller b := by simp [limitRef, hl]
      simp only [hlr, Ints.read, Ints.write]
      split_ifs <;> simp
  | some a =>
    have hpr : pageRef params = .caller a := by simp [pageRef, hp]
    rw [hpr]
    show (normalize mem params).caller a = _
    rw [normalize_caller, hp]
    by_cases h1 : mem a < 1
    · have h2 : ¬ 1 ≤ mem a := by omega
      simp [h1, h2]
    · have h2 : 1 ≤ mem a := by omega
      simp only [h1, h2, and_false, if_false, if_true]
      by_cases hl : params.Limit = some a
      · have := hsep a hp hl
        have h3 : ¬ (mem a < 1 ∨ mem a > 30) := by omega
        simp [h3]
        intro _ h30
        omega
      · simp [hl]

theorem normalize_read_limit (mem : Memory) (params : GetPvzParams)
    (hsep : ∀ a, params.Page = some a → params.Limit = some a → 1 ≤ mem a ∧ mem a ≤ 30) :
    (normalize mem params).read (limitRef params) = effectiveLimit mem params := by
  unfold effectiveLimit
  cases hl : params.Limit with
  | none =>
    have hlr : limitRef params = .defaultLimit := by simp [limitRef, hl]
    unfold normalize
    simp only [read_pageRef, read_limitRef, hl]
    rw [hlr]
    cases hp : params.Page with
    | none =>
      have hpr : pageRef params = .defaultPage := by simp [pageRef, hp]
      simp [hpr, Ints.read, Ints.write]
    | some a =>
      have hpr : pageRef params = .caller a := by simp [pageRef, hp]
      simp only [hpr, Ints.read, Ints.write]
      split_ifs <;> simp
  | some b =>
    have hlr : limitRef params = .caller b := by simp [limitRef, hl]
    rw [hlr]
    show (normalize mem params).caller b = _
    rw [normalize_caller, hl]
    by_cases hp : params.Page = some b
    · have := hsep b hp hl
      have h1 : ¬ mem b < 1 := by omega
      have h3 : ¬ (mem b < 1 ∨ mem b > 30) := by omega
      simp [h1, h3, this]
    · by_cases hin : 1 ≤ mem b ∧ mem b ≤ 30
      · have h3 : ¬ (mem b < 1 ∨ mem b > 30) := by omega
        simp [hp, h3, hin]
      · have h3 : mem b < 1 ∨ mem b > 30 := by omega
        simp [hp, h3, hin]

/-- When `Page` and `Limit` do not point to one integer whose value is outside
`1..30`, the use case passes on the page and the page size of the specification. -/
theorem UseCase_GetPVZs_of_valid
    (repo : GetPVZsCall → Except Error (List PVZWithReceptions)) (mem : Memory)
    (params : GetPvzParams)
    (hsep : ∀ a, params.Page = some a → params.Limit = some a → 1 ≤ mem a ∧ mem a ≤ 30)
    (h : invalidDateRange params = false) :
    (UseCase.GetPVZs repo mem params).repoCalls = [effectiveCall mem params] ∧
      (UseCase.GetPVZs repo mem params).result =
        (match repo (effectiveCall mem params) with
          | .ok pvzs => .ok pvzs
          | .error err => .error (.Wrapped "PVZ.GetPVZs" err)) := by
  have hc := UseCase_GetPVZs_of_valid_call repo mem params h
  rw [normalize_read_page mem params hsep, normalize_read_limit mem params hsep] at hc
  exact hc

/-- C13, as stated, fails when `Page` and `Limit` point to the same integer.
With the value 50 behind both, the assignment `*params.Limit = 10` is read back
through `params.Page`: the repository is called with offset `(10 - 1) * 10 = 90`,
not with the offset 490 of page 50 and page size 10.  With the value 0 behind
both, `*params.Page = 1` is read back through `params.Limit`: the repository is
called with limit 1, not with the default 10. -/
theorem UseCase_GetPVZs_shared_pointer_not_normalized :
    (UseCase.GetPVZs (storeRepo storeMixed) (memoryOf 50 50)
        ⟨some 0, some 0, none, none⟩).repoCalls =
        [{ startDate := none, endDate := none, limit := 10, offset := 90 }] ∧
      effectivePage (memoryOf 50 50) ⟨some 0, some 0, none, none⟩ = 50 ∧
      effectiveLimit (memoryOf 50 50) ⟨some 0, some 0, none, none⟩ = 10 ∧
      (UseCase.GetPVZs (storeRepo storeMixed) (memoryOf 0 0)
        ⟨some 0, some 0, none, none⟩).repoCalls =
        [{ startDate := none, endDate := none, limit := 1, offset := 0 }] ∧
      effectivePage (memoryOf 0 0) ⟨some 0, some 0, none, none⟩ = 1 ∧
      effectiveLimit (memoryOf 0 0) ⟨some 0, some 0, none, none⟩ = 10 := by
  decide

/-- C13, amended: when `Page` and `Limit` do not point to one integer whose
value is outside `1..30`, the use case `GetPVZs` never fails because of the page
or the limit.  With a valid date range it makes exactly one repository call,
with page size `L` (the requested limit if it lies in `1..30`, else 10) and the
offset `(P - 1) * L` of page `P` (the requested page if it is at least 1, else
1) as Go computes it, and it returns what the repository returns. -/
theorem UseCase_GetPVZs_normalizes_pagination
    (repo : GetPVZsCall → Except Error (List PVZWithReceptions)) (mem : Memory)
    (params : GetPvzParams)
    (hsep : ∀ a, params.Page = some a → params.Limit = some a → 1 ≤ mem a ∧ mem a ≤ 30)
    (hvalid : ∀ a b, params.StartDate = some a → params.EndDate = some b → a ≤ b) :
    (UseCase.GetPVZs repo mem params).repoCalls =
        [{ startDate := params.StartDate, endDate := params.EndDate
           limit := (effectiveLimit mem params).toNat
           offset := toUint64
             (wrapInt ((effectivePage mem params - 1) * effectiveLimit mem params)) }] ∧
      (UseCase.GetPVZs repo mem params).result =
        (match repo (effectiveCall mem params) with
          | .ok pvzs => .ok pvzs
          | .error err => .error (.Wrapped "PVZ.GetPVZs" err)) ∧
      (UseCase.GetPVZs repo mem params).result ≠ .error .ErrInvalidDateRange := by
  have h := UseCase_GetPVZs_of_valid repo mem params hsep
    (invalidDateRange_eq_false_of_ordered params hvalid)
  have hb := effectiveLimit_bounds mem params
  have hlim : toUint64 (effectiveLimit mem params) = (effectiveLimit mem params).toNat :=
    toUint64_of_nonneg _ (by omega) (by omega)
  refine ⟨?_, h.2, ?_⟩
  · rw [h.1, effectiveCall, hlim]
  · rw [h.2]
    cases repo (effectiveCall mem params) <;> simp

theorem UseCase_GetPVZs_normalizes_pagination_witness :
    (UseCase.GetPVZs (storeRepo storeMixed) (memoryOf (-1) 31)
        ⟨some 0, some 1, some 5, some 5⟩).repoCalls =
        [{ startDate := some 5, endDate := some 5, limit := 10, offset := 0 }] ∧
      (UseCase.GetPVZs (storeRepo storeMixed) (memoryOf 3 30)
        ⟨some 0, some 1, none, none⟩).repoCalls =
        [{ startDate := none, endDate := none, limit := 30, offset := 60 }] ∧
      (UseCase.GetPVZs (storeRepo storeMixed) (memoryOf 3 30)
        ⟨some 0, some 1, none, none⟩).result ≠ .error .ErrInvalidDateRange ∧
      (UseCase.GetPVZs (storeRepo storeMixed) (memoryOf 7 7)
        ⟨some 0, some 0, none, none⟩).repoCalls =
        [{ startDate := none, endDate := none, limit := 7, offset := 42 }] :=
  ⟨(UseCase_GetPVZs_normalizes_pagination (storeRepo storeMixed) (memoryOf (-1) 31)
      ⟨some 0, some 1, some 5, some 5⟩ (by
        intro a ha hb
        cases ha
        cases hb) (by
        intro a b ha hb
        cases ha
        cases hb
        exact le_refl _)).1,
    (UseCase_GetPVZs_normalizes_pagination (storeRepo storeMixed) (memoryOf 3 30)
      ⟨some 0, some 1, none, none⟩ (by
        intro a ha hb
        cases ha
        cases hb) (by
        intro a b ha
        cases ha)).1,
    (UseCase_GetPVZs_normalizes_pagination (storeRepo storeMixed) (memoryOf 3 30)
      ⟨some 0, some 1, none, none⟩ (by
        intro a ha hb
        cases ha
        cases hb) (by
        intro a b ha
        cases ha)).2.2,
    (UseCase_GetPVZs_normalizes_pagination (storeRepo storeMixed) (memoryOf 7 7)
      ⟨some 0, some 0, none, none⟩ (by
        intro a ha _
        cases ha
        decide) (by
        intro a b ha
        cases ha)).1⟩

/-- C14, as stated, fails: page `2^62 + 1` is a value of Go's `int` and 4 is a
page size in `1..30`, but `(P - 1) * L = 2^64` wraps around in the `int`
multiplication and the repository is called with offset 0. -/
theorem UseCase_GetPVZs_offset_wraps :
    (1 : Int) ≤ 2 ^ 62 + 1 ∧ (2 ^ 62 + 1 : Int) < 2 ^ 63 ∧
      (UseCase.GetPVZs (storeRepo storeMixed) (memoryOf (2 ^ 62 + 1) 4)
        ⟨some 0, some 1, none, none⟩).repoCalls =
        [{ startDate := none, endDate := none, limit := 4, offset := 0 }] ∧
      ((2 ^ 62 + 1 - 1) * 4 : Int) = 2 ^ 64 := by
  decide

/-- C14, amended: for every page `P ≥ 1` and page size `L` in `1..30` whose
product `(P - 1) * L` is below `2^63`, the use case `GetPVZs` calls the
repository with limit `L` and offset `(P - 1) * L`, computed exactly; `P` and
`L` are the integers behind `Page` and `Limit`, which may be one integer. -/
theorem UseCase_GetPVZs_offset_exact
    (repo : GetPVZsCall → Except Error (List PVZWithReceptions)) (mem : Memory)
    (params : GetPvzParams) (a b : Addr) (P L : Int)
    (hpage : params.Page = some a) (hlimit : params.Limit = some b)
    (hPv : mem a = P) (hLv : mem b = L)
    (hP : 1 ≤ P) (hL1 : 1 ≤ L) (hL2 : L ≤ 30)
    (hfit : (P - 1) * L < 2 ^ 63)
    (hvalid : ∀ x y, params.StartDate = some x → params.EndDate = some y → x ≤ y) :
    (UseCase.GetPVZs repo mem params).repoCalls =
      [{ startDate := params.StartDate, endDate := params.EndDate
         limit := L.toNat, offset := ((P - 1) * L).toNat }] := by
  have hsep : ∀ c, params.Page = some c → params.Limit = some c → 1 ≤ mem c ∧ mem c ≤ 30 := by
    intro c hc1 hc2
    rw [hlimit] at hc2
    cases hc2
    rw [hLv]
    exact ⟨hL1, hL2⟩
  have h := (UseCase_GetPVZs_of_valid repo mem params hsep
    (invalidDateRange_eq_false_of_ordered _ hvalid)).1
  have hl : effectiveLimit mem params = L := by
    simp [effectiveLimit, hlimit, hLv, hL1, hL2]
  have hp : effectivePage mem params = P := by
    simp [effectivePage, hpage, hPv, hP]
  have hnn : 0 ≤ (P - 1) * L := mul_nonneg (by omega) (by omega)
  rw [h, effectiveCall, hl, hp, wrapInt_of_fits _ hnn hfit, toUint64_of_nonneg _ hnn hfit,
    toUint64_of_nonneg L (by omega) (by omega)]

theorem UseCase_GetPVZs_offset_exact_witness :
    (UseCase.GetPVZs (storeRepo storeMixed) (memoryOf 2 2)
        ⟨some 0, some 1, none, none⟩).repoCalls =
      [{ startDate := none, endDate := none, limit := 2, offset := 2 }] :=
  UseCase_GetPVZs_offset_exact (storeRepo storeMixed) (memoryOf 2 2)
    ⟨some 0, some 1, none, none⟩ 0 1 2 2 rfl rfl rfl rfl (by decide) (by decide)
    (by decide) (by decide) (by
      intro x y hx
      cases hx)

/-- C15: the use case `GetPVZs` returns `ErrInvalidDateRange` exactly when a start
date and an end date are both supplied and the start is strictly after the end,
and then it makes no repository call; in every other case (one bound only, equal
bounds, start before end) it makes one repository call, with the bounds
unchanged. -/
theorem UseCase_GetPVZs_date_range
    (repo : GetPVZsCall → Except Error (List PVZWithReceptions)) (mem : Memory)
    (params : GetPvzParams) :
    ((UseCase.GetPVZs repo mem params).result = .error .ErrInvalidDateRange ↔
        ∃ a b, params.StartDate = some a ∧ params.EndDate = some b ∧ b < a) ∧
      ((∃ a b, params.StartDate = some a ∧ params.EndDate = some b ∧ b < a) →
        (UseCase.GetPVZs repo mem params).repoCalls = []) ∧
      ((¬ ∃ a b, params.StartDate = some a ∧ params.EndDate = some b ∧ b < a) →
        ∃ call, (UseCase.GetPVZs repo mem params).repoCalls = [call] ∧
          call.startDate = params.StartDate ∧ call.endDate = params.EndDate) := by
  cases h : invalidDateRange params with
  | true =>
    have hi := (invalidDateRange_iff params).1 h
    have ho := UseCase_GetPVZs_of_invalid repo mem params h
    exact ⟨⟨fun _ => hi, fun _ => ho.1⟩, fun _ => ho.2, fun hn => absurd hi hn⟩
  | false =>
    have hn : ¬ ∃ a b, params.StartDate = some a ∧ params.EndDate = some b ∧ b < a := by
      rw [← invalidDateRange_iff, h]
      exact Bool.false_ne_true
    have ho := UseCase_GetPVZs_of_valid_call repo mem params h
    refine ⟨⟨?_, fun hi => absurd hi hn⟩, fun hi => absurd hi hn, fun _ => ?_⟩
    · intro hr
      rw [ho.2] at hr
      split at hr <;> cases hr
    · exact ⟨_, ho.1, rfl, rfl⟩

theorem UseCase_GetPVZs_date_range_witness :
    (UseCase.GetPVZs (storeRepo storeMixed) (memoryOf 1 10)
        ⟨none, none, some 6, some 5⟩).result = .error .ErrInvalidDateRange ∧
      (UseCase.GetPVZs (storeRepo storeMixed) (memoryOf 1 10)
        ⟨none, none, some 6, some 5⟩).repoCalls = [] ∧
      ∃ call, (UseCase.GetPVZs (storeRepo storeMixed) (memoryOf 1 10)
          ⟨none, none, some 5, some 5⟩).repoCalls = [call] ∧
        call.startDate = some 5 ∧ call.endDate = some 5 :=
  ⟨(UseCase_GetPVZs_date_range (storeRepo storeMixed) (memoryOf 1 10)
      ⟨none, none, some 6, some 5⟩).1.2 ⟨6, 5, rfl, rfl, by decide⟩,
    (UseCase_GetPVZs_date_range (storeRepo storeMixed) (memoryOf 1 10)
      ⟨none, none, some 6, some 5⟩).2.1 ⟨6, 5, rfl, rfl, by decide⟩,
    (UseCase_GetPVZs_date_range (storeRepo storeMixed) (memoryOf 1 10)
      ⟨none, none, some 5, some 5⟩).2.2 (by
      rintro ⟨a, b, ha, hb, hlt⟩
      cases ha
      cases hb
      exact absurd hlt (by decide))⟩

/-! ## The loop of `GetPVZs` -/

theorem FoldState.All.result {P : PVZ → Prop} {Q : List ReceptionWithProducts → Prop}
    {st : FoldState} (h : st.All P Q) : ∀ e ∈ st.result, P e.PVZ ∧ Q e.Receptions := by
  intro e he
  unfold FoldState.result at he
  rcases List.mem_append.1 he with he | he
  · exact h.1 e he
  · cases hc : st.currentPVZ with
    | none =>
      rw [hc] at he
      cases he
    | some cur =>
      rw [hc] at he
      simp only [Option.map_some', Option.toList_some, List.mem_singleton] at he
      rw [he]
      exact h.2 cur hc

theorem stepProduct_reception (r : ReceptionWithProducts) (rc : ReceptionColumns)
    (product : Option ProductColumns) : (stepProduct r rc product).Reception = r.Reception := by
  cases product <;> rfl

/-- After the first block of the loop body there is an entry in progress. -/
theorem stepPVZ_all {P : PVZ → Prop} {Q : List ReceptionWithProducts → Prop}
    (st : FoldState) (row : Row) (hP : P (newPVZ row).PVZ) (hnil : Q [])
    (h : st.All P Q) :
    (stepPVZ st row).All P Q ∧ ∃ cur, (stepPVZ st row).currentPVZ = some cur := by
  unfold stepPVZ
  cases hc : st.currentPVZ with
  | none =>
    refine ⟨⟨h.1, ?_⟩, _, rfl⟩
    intro cur hcur
    simp only [Option.some.injEq] at hcur
    rw [← hcur]
    exact ⟨hP, by simpa [newPVZ] using hnil⟩
  | some cur =>
    simp only
    by_cases hid : cur.PVZ.ID ≠ row.pvzID
    · rw [if_pos hid]
      refine ⟨⟨?_, ?_⟩, _, rfl⟩
      · intro e he
        rcases List.mem_append.1 he with he | he
        · exact h.1 e he
        · rw [List.mem_singleton] at he
          rw [he]
          exact h.2 cur hc
      · intro c hcur
        simp only [Option.some.injEq] at hcur
        rw [← hcur]
        exact ⟨hP, by simpa [newPVZ] using hnil⟩
    · rw [if_neg hid]
      exact ⟨h, cur, hc⟩

/-- One iteration of the loop carries a property of the entries from `Q` to
`Q'`, when `Q'` holds of what the row can add. -/
theorem foldRow_all {P : PVZ → Prop} {Q Q' : List ReceptionWithProducts → Prop}
    (st : FoldState) (row : Row) (hP : P (newPVZ row).PVZ) (hnil : Q [])
    (hmono : ∀ l, Q l → Q' l)
    (hnew : ∀ l rc, row.reception = some rc → Q l →
      Q' (l ++ [stepProduct (newReception row rc) rc row.product]))
    (hsame : ∀ l r rc, row.reception = some rc → r.Reception.ID = rc.ID → Q (l ++ [r]) →
      Q' (l ++ [stepProduct r rc row.product]))
    (h : st.All P Q) : (foldRow st row).All P Q' := by
  obtain ⟨h1, cur, hcur⟩ := stepPVZ_all st row hP hnil h
  have hmonoAll : (stepPVZ st row).All P Q' :=
    ⟨fun e he => ⟨(h1.1 e he).1, hmono _ (h1.1 e he).2⟩,
      fun c hc => ⟨(h1.2 c hc).1, hmono _ (h1.2 c hc).2⟩⟩
  unfold foldRow
  simp only
  cases hr : row.reception with
  | none => exact hmonoAll
  | some rc =>
    rw [hcur]
    simp only
    have hQ := h1.2 cur hcur
    refine ⟨hmonoAll.1, ?_⟩
    intro c hc
    simp only [Option.some.injEq] at hc
    rw [← hc]
    simp only [Option.toList_some]
    unfold stepReception
    cases hcr : (stepPVZ st row).currentReception with
    | none =>
      rw [hcr] at hQ
      simp only [Option.toList_none, List.append_nil] at hQ
      exact ⟨hQ.1, hnew _ rc hr hQ.2⟩
    | some r =>
      rw [hcr] at hQ
      simp only [Option.toList_some] at hQ
      simp only
      by_cases hid : r.Reception.ID ≠ rc.ID
      · rw [if_pos hid]
        exact ⟨hQ.1, hnew _ rc hr hQ.2⟩
      · rw [if_neg hid]
        exact ⟨hQ.1, hsame _ r rc hr (not_not.1 hid) hQ.2⟩

/-- A property of sites and of reception lists that every row keeps holds of
every entry of the folded result. -/
theorem foldl_foldRow_all {P : PVZ → Prop} {Q : List ReceptionWithProducts → Prop}
    (rows : List Row) (hnil : Q [])
    (hP : ∀ row ∈ rows, P (newPVZ row).PVZ)
    (hnew : ∀ row ∈ rows, ∀ l rc, row.reception = some rc → Q l →
      Q (l ++ [stepProduct (newReception row rc) rc row.product]))
    (hsame : ∀ row ∈ rows, ∀ l r rc, row.reception = some rc → r.Reception.ID = rc.ID →
      Q (l ++ [r]) → Q (l ++ [stepProduct r rc row.product])) :
    ∀ st : FoldState, st.All P Q → (rows.foldl foldRow st).All P Q := by
  induction rows with
  | nil => exact fun _ h => h
  | cons row rest ih =>
    intro st h
    rw [List.foldl_cons]
    apply ih (fun r hr => hP r (List.mem_cons_of_mem _ hr))
      (fun r hr => hnew r (List.mem_cons_of_mem _ hr))
      (fun r hr => hsame r (List.mem_cons_of_mem _ hr))
    exact foldRow_all st row (hP row (List.mem_cons_self _ _)) hnil (fun _ hl => hl)
      (hnew row (List.mem_cons_self _ _)) (hsame row (List.mem_cons_self _ _)) h

theorem FoldState.init_all (P : PVZ → Prop) (Q : List ReceptionWithProducts → Prop) :
    FoldState.init.All P Q :=
  ⟨fun _ he => absurd he (List.not_mem_nil _), fun _ hc => by cases hc⟩

theorem receptionDates_append_step (l : List ReceptionWithProducts) (r : ReceptionWithProducts)
    (rc : ReceptionColumns) (product : Option ProductColumns) :
    receptionDates (l ++ [stepProduct r rc product]) =
      receptionDates l ++ [r.Reception.DateTime] := by
  simp [receptionDates, stepProduct_reception]

/-- The reception dates of every entry are, in order, among the reception dates
of the rows read so far. -/
theorem foldl_foldRow_dates (rows : List Row) :
    ∀ (pre : List Row) (st : FoldState),
      st.All (fun _ => True)
        (fun l => (receptionDates l).Sublist (pre.filterMap Row.receptionDate)) →
      (rows.foldl foldRow st).All (fun _ => True)
        (fun l => (receptionDates l).Sublist ((pre ++ rows).filterMap Row.receptionDate)) := by
  induction rows with
  | nil =>
    intro pre st h
    simpa using h
  | cons row rest ih =>
    intro pre st h
    rw [List.foldl_cons]
    have hstep : (foldRow st row).All (fun _ => True)
        (fun l => (receptionDates l).Sublist ((pre ++ [row]).filterMap Row.receptionDate)) := by
      refine @foldRow_all (fun _ => True)
        (fun l => (receptionDates l).Sublist (pre.filterMap Row.receptionDate))
        (fun l => (receptionDates l).Sublist ((pre ++ [row]).filterMap Row.receptionDate))
        st row trivial (List.nil_sublist _) ?_ ?_ ?_ h
      · intro l hl
        rw [List.filterMap_append]
        exact hl.trans (List.sublist_append_left _ _)
      · intro l rc hr hl
        have hd : [row].filterMap Row.receptionDate = [rc.DateTime] := by
          simp [Row.receptionDate, hr]
        rw [receptionDates_append_step, List.filterMap_append, hd]
        exact List.Sublist.append hl (List.Sublist.refl _)
      · intro l r rc hr _ hl
        rw [receptionDates_append_step]
        have hl2 : (receptionDates l ++ [r.Reception.DateTime]).Sublist
            (pre.filterMap Row.receptionDate) := by
          simpa [receptionDates] using hl
        rw [List.filterMap_append]
        exact hl2.trans (List.sublist_append_left _ _)
    have := ih (pre ++ [row]) (foldRow st row) hstep
    simpa [List.append_assoc] using this

theorem foldRows_dates_sublist (rows : List Row) :
    ∀ e ∈ foldRows rows,
      (receptionDates e.Receptions).Sublist (rows.filterMap Row.receptionDate) := by
  intro e he
  have h := foldl_foldRow_dates rows [] FoldState.init
    (FoldState.init_all _ _)
  exact (h.result e he).2

/-- The rows of phase 2 are in the order of `ORDER BY r.date_time DESC`. -/
theorem selectRows_sorted (s : Store) (pvzIDs : List UUID) (conditions : List DateCondition) :
    (selectRows s pvzIDs conditions).Pairwise (fun a b => Row.before a b = true) := by
  haveI : IsTotal Row (fun a b => Row.before a b = true) := by
    constructor
    intro a b
    unfold Row.before
    cases a.receptionDate <;> cases b.receptionDate <;> simp
    exact le_total _ _
  haveI : IsTrans Row (fun a b => Row.before a b = true) := by
    constructor
    intro a b c
    unfold Row.before
    cases a.receptionDate <;> cases b.receptionDate <;> cases c.receptionDate <;> simp
    exact fun h1 h2 => le_trans h2 h1
  exact List.sorted_insertionSort _ _

/-- Every row of phase 2 belongs to a site selected in phase 1 and satisfies the
date conditions. -/
theorem mem_selectRows (s : Store) (pvzIDs : List UUID) (conditions : List DateCondition)
    (row : Row) (h : row ∈ selectRows s pvzIDs conditions) :
    row.pvzID ∈ pvzIDs ∧ whereDate conditions row.receptionDate = true := by
  unfold selectRows at h
  rw [(List.perm_insertionSort _ _).mem_iff, List.mem_map] at h
  obtain ⟨j, hj, hrow⟩ := h
  rw [List.mem_filter] at hj
  have hj2 := hj.2
  simp only [Bool.and_eq_true, decide_eq_true_eq] at hj2
  rw [← hrow]
  refine ⟨hj2.1, ?_⟩
  have : (toRow j).receptionDate = j.2.1.map (fun r => r.DateTime) := by
    unfold Row.receptionDate toRow
    cases j.2.1 <;> rfl
  rw [this]
  exact hj2.2

/-- The date conditions hold of a `date_time` exactly when it lies within the
given bounds, bounds included. -/
theorem whereDate_dateConditions_iff (startDate endDate : Option Time) (d : Time) :
    whereDate (dateConditions startDate endDate) (some d) = true ↔
      (∀ a, startDate = some a → a ≤ d) ∧ (∀ b, endDate = some b → d ≤ b) := by
  cases startDate <;> cases endDate <;>
    simp [whereDate, dateConditions, DateCondition.holds]

/-! ## Repository `GetPVZs` -/

/-- C17: `GetPVZs` builds the date conditions once and applies them to the
phase-1 query and to the phase-2 query; every site of the returned hierarchy
was selected by phase 1, and every reception of it satisfies the date filter. -/
theorem GetPVZs_same_filter_in_both_phases (s : Store) (startDate endDate : Option Time)
    (limit offset : Nat) :
    ∃ entries, GetPVZs s startDate endDate limit offset = .ok entries ∧
      (entries = [] ∨ entries = foldRows (selectRows s
        (selectPvzIDs s (dateConditions startDate endDate) limit offset)
        (dateConditions startDate endDate))) ∧
      ∀ e ∈ entries,
        e.PVZ.ID ∈ selectPvzIDs s (dateConditions startDate endDate) limit offset ∧
        ∀ rw ∈ e.Receptions,
          (∀ x, startDate = some x → x ≤ rw.Reception.DateTime) ∧
          (∀ y, endDate = some y → rw.Reception.DateTime ≤ y) := by
  unfold GetPVZs
  simp only
  split
  · exact ⟨[], rfl, Or.inl rfl, fun e he => absurd he (List.not_mem_nil _)⟩
  · refine ⟨_, rfl, Or.inr rfl, ?_⟩
    intro e he
    have hall := foldl_foldRow_all
      (P := fun p => p.ID ∈ selectPvzIDs s (dateConditions startDate endDate) limit offset)
      (Q := fun l => ∀ rw ∈ l,
        whereDate (dateConditions startDate endDate) (some rw.Reception.DateTime) = true)
      (selectRows s (selectPvzIDs s (dateConditions startDate endDate) limit offset)
        (dateConditions startDate endDate))
      (fun _ h => absurd h (List.not_mem_nil _))
      (fun row hrow => (mem_selectRows s _ _ row hrow).1)
      (by
        intro row hrow l rc hr hl rw hrw
        rcases List.mem_append.1 hrw with hrw | hrw
        · exact hl rw hrw
        · rw [List.mem_singleton] at hrw
          have hw := (mem_selectRows s _ _ row hrow).2
          rw [hrw, stepProduct_reception]
          simpa [Row.receptionDate, hr, newReception] using hw)
      (by
        intro row _ l r rc _ _ hl rw hrw
        rcases List.mem_append.1 hrw with hrw | hrw
        · exact hl rw (List.mem_append_left _ hrw)
        · rw [List.mem_singleton] at hrw
          rw [hrw, stepProduct_reception]
          exact hl r (List.mem_append_right _ (List.mem_singleton_self _)))
      FoldState.init (FoldState.init_all _ _)
    have hr := hall.result e he
    exact ⟨hr.1, fun rw hrw => (whereDate_dateConditions_iff _ _ _).1 (hr.2 rw hrw)⟩

/-- C18, at the failing input: in `storeInterleaved` site 1 has receptions at
times 10 and 5 and site 2 has one at time 7.  With limit 2 and offset 0 phase 1
selects the sites 1 and 2, phase 2 orders the rows by reception time only, and
the result has three entries: for site 1, for site 2, and for site 1 again. -/
theorem GetPVZs_repeats_site :
    selectPvzIDs storeInterleaved (dateConditions none none) 2 0 = [1, 2] ∧
      GetPVZs storeInterleaved none none 2 0 =
        .ok [⟨⟨1, "Москва", 0⟩, [⟨⟨10, 10, 1, Close⟩, [⟨100, "обувь", 11, 10⟩]⟩]⟩,
          ⟨⟨2, "Казань", 0⟩, [⟨⟨11, 7, 2, InProgress⟩, []⟩]⟩,
          ⟨⟨1, "Москва", 0⟩, [⟨⟨12, 5, 1, InProgress⟩, []⟩]⟩] := by
  decide

/-- C19, at the failing input: on `storeInterleaved`, with no date filter and
page size 2, page 1 of the use case `GetPVZs` lists site 1 twice (entries for
the sites 1, 2, 1), and page 2 is empty. -/
theorem UseCase_GetPVZs_page_repeats_site :
    (UseCase.GetPVZs (storeRepo storeInterleaved) (memoryOf 1 2)
        ⟨some 0, some 1, none, none⟩).result =
        .ok [⟨⟨1, "Москва", 0⟩, [⟨⟨10, 10, 1, Close⟩, [⟨100, "обувь", 11, 10⟩]⟩]⟩,
          ⟨⟨2, "Казань", 0⟩, [⟨⟨11, 7, 2, InProgress⟩, []⟩]⟩,
          ⟨⟨1, "Москва", 0⟩, [⟨⟨12, 5, 1, InProgress⟩, []⟩]⟩] ∧
      (UseCase.GetPVZs (storeRepo storeInterleaved) (memoryOf 2 2)
        ⟨some 0, some 1, none, none⟩).result = .ok [] := by
  decide

/-- C20: in every site entry returned by `GetPVZs` the receptions are ordered
most recent first: of two consecutive receptions the second has a `DateTime` not
later than the first. -/
theorem GetPVZs_receptions_most_recent_first (s : Store) (startDate endDate : Option Time)
    (limit offset : Nat) :
    ∃ entries, GetPVZs s startDate endDate limit offset = .ok entries ∧
      ∀ e ∈ entries, ∀ (i : Nat) (x y : ReceptionWithProducts),
        e.Receptions[i]? = some x → e.Receptions[i + 1]? = some y →
        y.Reception.DateTime ≤ x.Reception.DateTime := by
  unfold GetPVZs
  simp only
  split
  · exact ⟨[], rfl, fun e he => absurd he (List.not_mem_nil _)⟩
  · refine ⟨_, rfl, ?_⟩
    intro e he i x y hx hy
    have hsub := foldRows_dates_sublist _ e he
    have hsorted := selectRows_sorted s
      (selectPvzIDs s (dateConditions startDate endDate) limit offset)
      (dateConditions startDate endDate)
    have hdates : ((selectRows s
        (selectPvzIDs s (dateConditions startDate endDate) limit offset)
        (dateConditions startDate endDate)).filterMap Row.receptionDate).Pairwise
        (fun a b => b ≤ a) := by
      rw [List.pairwise_filterMap]
      apply hsorted.imp
      intro r1 r2 hbefore d1 hd1 d2 hd2
      simp only [Option.mem_def] at hd1 hd2
      simpa [Row.before, hd1, hd2] using hbefore
    have hpw : e.Receptions.Pairwise
        (fun u v => v.Reception.DateTime ≤ u.Reception.DateTime) := by
      have := hdates.sublist hsub
      unfold receptionDates at this
      exact List.pairwise_map.1 this
    obtain ⟨hi, hxi⟩ := List.getElem?_eq_some.1 hx
    obtain ⟨hj, hyj⟩ := List.getElem?_eq_some.1 hy
    have := List.pairwise_iff_getElem.1 hpw i (i + 1) hi hj (by omega)
    rw [hxi, hyj] at this
    exact this

/-! ## Agreement of the two embeddings of the transactional methods

When the driver answers as the store does and neither `Begin` nor `Commit`
fails, the call-level embedding returns what the store-level embedding
returns. -/

theorem Tx_AddProduct_agrees (s : Store) (now : Time) (productID pvzID : UUID) (t : String) :
    (Tx.AddProduct
      { begin := none
        lockingSelect := (selectReceptionForUpdate s pvzID InProgress).map (fun r => r.ID)
        write :=
          match selectReceptionForUpdate s pvzID InProgress with
          | .ok r => (insertProduct s now productID t r.ID).2
          | .error e => .error e
        commit := none }).2 = (AddProduct s now productID pvzID t).2 := by
  cases hsel : selectReceptionForUpdate s pvzID InProgress with
  | error e => cases e <;> simp only [Tx.AddProduct, AddProduct, hsel, Except.map]
  | ok r =>
    cases hins : insertProduct s now productID t r.ID with
    | mk s1 res =>
      cases res <;> simp only [Tx.AddProduct, AddProduct, hsel, hins, Except.map]

theorem Tx_DeleteLastProduct_agrees (s : Store) (pvzID : UUID) :
    (Tx.DeleteLastProduct
      { begin := none
        lockingSelect := (selectReceptionForUpdate s pvzID InProgress).map (fun r => r.ID)
        write :=
          match selectReceptionForUpdate s pvzID InProgress with
          | .ok r => (deleteLatestProduct s r.ID).2
          | .error e => .error e
        commit := none }).2 = (DeleteLastProduct s pvzID).2 := by
  cases hsel : selectReceptionForUpdate s pvzID InProgress with
  | error e => cases e <;> simp only [Tx.DeleteLastProduct, DeleteLastProduct, hsel, Except.map]
  | ok r =>
    cases hdel : deleteLatestProduct s r.ID with
    | mk s1 res =>
      cases res with
      | error e =>
        cases e <;> simp only [Tx.DeleteLastProduct, DeleteLastProduct, hsel, hdel, Except.map]
      | ok _ => simp only [Tx.DeleteLastProduct, DeleteLastProduct, hsel, hdel, Except.map]

theorem Tx_CloseLastReception_agrees (s : Store) (pvzID : UUID) :
    (Tx.CloseLastReception
      { begin := none
        lockingSelect :=
          (selectReceptionForUpdate s pvzID InProgress).map
            (fun r => { ID := r.ID, DateTime := r.DateTime, PvzID := r.PvzID, Status := "" })
        write := .ok ()
        commit := none }).2 = (CloseLastReception s pvzID).2 := by
  cases hsel : selectReceptionForUpdate s pvzID InProgress with
  | error e => cases e <;> simp only [Tx.CloseLastReception, CloseLastReception, hsel, Except.map]
  | ok r => simp only [Tx.CloseLastReception, CloseLastReception, hsel, Except.map]

/-! ## Repository `CreatePVZ` -/

/-- C24: for a PVZ whose id is already the id of a stored site, `CreatePVZ`
returns `ErrDuplicatePVZ` and leaves the store unchanged, so the stored site
keeps its city and registration date; for a PVZ whose id is not stored it
succeeds and appends exactly that site, receptions and products unchanged. -/
theorem CreatePVZ_duplicate_or_added (s : Store) (pvz : PVZ) :
    ((∃ p ∈ s.pvzs, p.ID = pvz.ID) →
        CreatePVZ s pvz = (s, .error .ErrDuplicatePVZ)) ∧
      ((¬ ∃ p ∈ s.pvzs, p.ID = pvz.ID) →
        CreatePVZ s pvz = ({ s with pvzs := s.pvzs ++ [pvz] }, .ok ())) := by
  constructor
  · intro h
    have hany : s.pvzs.any (fun p => decide (p.ID = pvz.ID)) = true := by
      rw [List.any_eq_true]
      obtain ⟨p, hp, hid⟩ := h
      exact ⟨p, hp, by simpa using hid⟩
    simp only [CreatePVZ, insertPvzOnConflictDoNothing, hany, if_true]
  · intro h
    have hany : s.pvzs.any (fun p => decide (p.ID = pvz.ID)) = false := by
      rw [← Bool.not_eq_true, List.any_eq_true]
      rintro ⟨p, hp, hid⟩
      exact h ⟨p, hp, by simpa using hid⟩
    simp only [CreatePVZ, insertPvzOnConflictDoNothing, hany]
    rfl

theorem CreatePVZ_duplicate_or_added_witness :
    ((∃ p ∈ storeOpen.pvzs, p.ID = 1) ∧
        CreatePVZ storeOpen ⟨1, "Казань", 3⟩ = (storeOpen, .error .ErrDuplicatePVZ)) ∧
      ((¬ ∃ p ∈ storeOpen.pvzs, p.ID = 2) ∧
        CreatePVZ storeOpen ⟨2, "Казань", 3⟩ =
          ({ storeOpen with pvzs := storeOpen.pvzs ++ [⟨2, "Казань", 3⟩] }, .ok ())) :=
  ⟨⟨by decide, (CreatePVZ_duplicate_or_added storeOpen ⟨1, "Казань", 3⟩).1 (by decide)⟩,
    ⟨by decide, (CreatePVZ_duplicate_or_added storeOpen ⟨2, "Казань", 3⟩).2 (by decide)⟩⟩

/-! ## The caller's pointers in the use case `GetPVZs` -/

/-- C30, as stated, fails when `Page` and `Limit` point to the same integer.
With the value 0 behind both, `Limit` points to a value below 1, yet the
integer is 1 after the call, not 10: `*params.Page = 1` is run first and the
limit check reads 1.  With the value 50 behind both, `Page` points to a value
in range, yet the integer is 10 after the call: `*params.Limit = 10` changes
it. -/
theorem UseCase_GetPVZs_shared_pointer_written :
    memoryOf 0 0 0 < 1 ∧
      (UseCase.GetPVZs (storeRepo storeMixed) (memoryOf 0 0)
        ⟨some 0, some 0, none, none⟩).memory 0 = 1 ∧
      1 ≤ memoryOf 50 50 0 ∧
      (UseCase.GetPVZs (storeRepo storeMixed) (memoryOf 50 50)
        ⟨some 0, some 0, none, none⟩).memory 0 = 10 := by
  decide

theorem UseCase_GetPVZs_memory
    (repo : GetPVZsCall → Except Error (List PVZWithReceptions)) (mem : Memory)
    (params : GetPvzParams) :
    (UseCase.GetPVZs repo mem params).memory = (normalize mem params).caller := by
  unfold UseCase.GetPVZs
  simp only
  split
  · rfl
  · split <;> rfl

/-- C30, amended: when `Page` and `Limit` do not point to one integer whose
value is outside `1..30`, the use case `GetPVZs` writes through the caller's
pointers as follows, also when the call fails with `ErrInvalidDateRange`.  The
integer behind a non-`nil` `Page` is 1 after the call if it was below 1, and
unchanged otherwise; the integer behind a non-`nil` `Limit` is 10 after the
call if it was below 1 or above 30, and unchanged otherwise; every integer of
the caller that neither pointer points to is unchanged, so with `nil` pointers
nothing of the caller is modified. -/
theorem UseCase_GetPVZs_caller_pointers
    (repo : GetPVZsCall → Except Error (List PVZWithReceptions)) (mem : Memory)
    (params : GetPvzParams)
    (hsep : ∀ a, params.Page = some a → params.Limit = some a → 1 ≤ mem a ∧ mem a ≤ 30) :
    (∀ a, params.Page = some a → mem a < 1 →
      (UseCase.GetPVZs repo mem params).memory a = 1) ∧
    (∀ b, params.Limit = some b → (mem b < 1 ∨ mem b > 30) →
      (UseCase.GetPVZs repo mem params).memory b = 10) ∧
    (∀ a, params.Page = some a → 1 ≤ mem a →
      (UseCase.GetPVZs repo mem params).memory a = mem a) ∧
    (∀ b, params.Limit = some b → 1 ≤ mem b → mem b ≤ 30 →
      (UseCase.GetPVZs repo mem params).memory b = mem b) ∧
    (∀ c, params.Page ≠ some c → params.Limit ≠ some c →
      (UseCase.GetPVZs repo mem params).memory c = mem c) := by
  rw [UseCase_GetPVZs_memory]
  refine ⟨?_, ?_, ?_, ?_, ?_⟩
  · intro a hp hlt
    rw [normalize_caller, if_pos ⟨hp, hlt⟩]
  · intro b hl hout
    have hnp : ¬ (params.Page = some b ∧ mem b < 1) := by
      rintro ⟨hp, _⟩
      have := hsep b hp hl
      omega
    rw [normalize_caller, if_neg hnp, if_pos ⟨hl, hout⟩]
  · intro a hp hge
    have h1 : ¬ (params.Page = some a ∧ mem a < 1) := by
      rintro ⟨_, hlt⟩
      omega
    have h2 : ¬ (params.Limit = some a ∧ (mem a < 1 ∨ mem a > 30)) := by
      rintro ⟨hl, hout⟩
      have := hsep a hp hl
      omega
    rw [normalize_caller, if_neg h1, if_neg h2]
  · intro b hl h1 h2
    have h3 : ¬ (params.Page = some b ∧ mem b < 1) := by
      rintro ⟨_, hlt⟩
      omega
    have h4 : ¬ (params.Limit = some b ∧ (mem b < 1 ∨ mem b > 30)) := by
      rintro ⟨_, hout⟩
      omega
    rw [normalize_caller, if_neg h3, if_neg h4]
  · intro c hp hl
    rw [normalize_caller, if_neg (fun h => hp h.1), if_neg (fun h => hl h.1)]

theorem UseCase_GetPVZs_caller_pointers_witness :
    (UseCase.GetPVZs (storeRepo storeMixed) (memoryOf 0 31)
        ⟨some 0, some 1, some 6, some 5⟩).result = .error .ErrInvalidDateRange ∧
      (UseCase.GetPVZs (storeRepo storeMixed) (memoryOf 0 31)
        ⟨some 0, some 1, some 6, some 5⟩).memory 0 = 1 ∧
      (UseCase.GetPVZs (storeRepo storeMixed) (memoryOf 0 31)
        ⟨some 0, some 1, some 6, some 5⟩).memory 1 = 10 ∧
      (UseCase.GetPVZs (storeRepo storeMixed) (memoryOf 2 31)
        ⟨some 0, none, none, none⟩).memory 0 = 2 ∧
      (UseCase.GetPVZs (storeRepo storeMixed) (memoryOf 2 31)
        ⟨some 0, none, none, none⟩).memory 1 = 31 :=
  ⟨by decide,
    (UseCase_GetPVZs_caller_pointers (storeRepo storeMixed) (memoryOf 0 31)
      ⟨some 0, some 1, some 6, some 5⟩ (by
        intro a ha hb
        cases ha
        cases hb)).1 0 rfl (by decide),
    (UseCase_GetPVZs_caller_pointers (storeRepo storeMixed) (memoryOf 0 31)
      ⟨some 0, some 1, some 6, some 5⟩ (by
        intro a ha hb
        cases ha
        cases hb)).2.1 1 rfl (Or.inr (by decide)),
    (UseCase_GetPVZs_caller_pointers (storeRepo storeMixed) (memoryOf 2 31)
      ⟨some 0, none, none, none⟩ (by
        intro a _ hb
        cases hb)).2.2.1 0 rfl (by decide),
    (UseCase_GetPVZs_caller_pointers (storeRepo storeMixed) (memoryOf 2 31)
      ⟨some 0, none, none, none⟩ (by
        intro a _ hb
        cases hb)).2.2.2.2 1 (by decide) (by decide)⟩

/-! ## Error propagation in the use cases -/

theorem Error.Is_iff (err target : Error) : err.Is target = true ↔ err = target := by
  simp [Error.Is]

/-- A wrapped repository error matches exactly the error it wraps. -/
theorem UseCaseError.Wrapped_Is_iff (op : String) (e d : Error) :
    (UseCaseError.Wrapped op e).Is d = true ↔ e = d := by
  simp [UseCaseError.Is, Error.Is]

/-- C22: in the use cases `CreatePVZ`, `CreateReception`, `AddProduct`,
`DeleteLastProduct` and `CloseLastReception`, when the repository returns the
domain error of the operation the use case returns that error as it is, and when
it returns another error `e` the use case returns `fmt.Errorf("%s: %w", op, e)`,
which matches `e` under `errors.Is` and matches a repository error `d` only if
`e` is `d`, so none of the domain errors of the operation; in both cases the
value returned is the zero value. -/
theorem UseCase_error_propagation (e : Error) (env : Env) (pvzID : UUID) (city t : String)
    (id : Option UUID) (date : Option Time)
    (repoPVZ : PVZ → Except Error Unit)
    (repoReception : UUID → UUID → Except Error Reception)
    (repoProduct : UUID → UUID → String → Except Error Product)
    (repoDelete : UUID → Except Error Unit)
    (repoClose : UUID → Except Error Reception)
    (hPVZ : ∀ p, repoPVZ p = .error e)
    (hReception : repoReception env.newUUID pvzID = .error e)
    (hProduct : repoProduct env.newUUID pvzID t = .error e)
    (hDelete : repoDelete pvzID = .error e)
    (hClose : repoClose pvzID = .error e) :
    ((UseCase.CreatePVZ repoPVZ env id city date).value = PVZ.zero ∧
      (e = .ErrDuplicatePVZ →
        (UseCase.CreatePVZ repoPVZ env id city date).err = some (.Repo e)) ∧
      (e ≠ .ErrDuplicatePVZ →
        (UseCase.CreatePVZ repoPVZ env id city date).err =
          some (.Wrapped "PVZ.CreatePVZ" e))) ∧
    ((UseCase.CreateReception repoReception env pvzID).value = Reception.zero ∧
      (e = .ErrReceptionConflict →
        (UseCase.CreateReception repoReception env pvzID).err = some (.Repo e)) ∧
      (e ≠ .ErrReceptionConflict →
        (UseCase.CreateReception repoReception env pvzID).err =
          some (.Wrapped "PVZ.CreateReception" e))) ∧
    ((UseCase.AddProduct repoProduct env pvzID t).value = Product.zero ∧
      (e = .ErrNoOpenReception →
        (UseCase.AddProduct repoProduct env pvzID t).err = some (.Repo e)) ∧
      (e ≠ .ErrNoOpenReception →
        (UseCase.AddProduct repoProduct env pvzID t).err =
          some (.Wrapped "PVZ.AddProduct" e))) ∧
    ((e = .ErrNoOpenReception ∨ e = .ErrNoProducts →
        (UseCase.DeleteLastProduct repoDelete pvzID).err = some (.Repo e)) ∧
      (e ≠ .ErrNoOpenReception → e ≠ .ErrNoProducts →
        (UseCase.DeleteLastProduct repoDelete pvzID).err =
          some (.Wrapped "PVZ.DeleteLastProduct" e))) ∧
    ((UseCase.CloseLastReception repoClose pvzID).value = Reception.zero ∧
      (e = .ErrNoOpenReception →
        (UseCase.CloseLastReception repoClose pvzID).err = some (.Repo e)) ∧
      (e ≠ .ErrNoOpenReception →
        (UseCase.CloseLastReception repoClose pvzID).err =
          some (.Wrapped "PVZ.CloseLastReception" e))) ∧
    (∀ (op : String) (d : Error), (UseCaseError.Wrapped op e).Is d = true ↔ e = d) ∧
    (∀ d : Error, (UseCaseError.Repo e).Is d = true ↔ e = d) := by
  refine ⟨?_, ?_, ?_, ?_, ?_, fun op d => UseCaseError.Wrapped_Is_iff op e d, ?_⟩
  · simp only [UseCase.CreatePVZ, hPVZ]
    by_cases h : e = .ErrDuplicatePVZ
    · subst h
      simp [Error.Is]
    · simp [Error.Is, h]
  · simp only [UseCase.CreateReception, hReception]
    by_cases h : e = .ErrReceptionConflict
    · subst h
      simp [Error.Is]
    · simp [Error.Is, h]
  · simp only [UseCase.AddProduct, hProduct]
    by_cases h : e = .ErrNoOpenReception
    · subst h
      simp [Error.Is]
    · simp [Error.Is, h]
  · simp only [UseCase.DeleteLastProduct, hDelete]
    by_cases h1 : e = .ErrNoOpenReception
    · subst h1
      simp [Error.Is]
    · by_cases h2 : e = .ErrNoProducts
      · subst h2
        simp [Error.Is]
      · simp [Error.Is, h1, h2]
  · simp only [UseCase.CloseLastReception, hClose]
    by_cases h : e = .ErrNoOpenReception
    · subst h
      simp [Error.Is]
    · simp [Error.Is, h]
  · intro d
    simp [UseCaseError.Is, Error.Is]

theorem UseCase_error_propagation_witness :
    (∀ p : PVZ, (fun _ => Except.error (Error.Wrapped "db" PgErr.UniqueViolation) :
        PVZ → Except Error Unit) p = .error (.Wrapped "db" .UniqueViolation)) ∧
      (UseCase.CreatePVZ (fun _ => .error (.Wrapped "db" .UniqueViolation)) ⟨7, 1⟩ none
          "Москва" none).err =
        some (.Wrapped "PVZ.CreatePVZ" (.Wrapped "db" .UniqueViolation)) ∧
      (UseCase.DeleteLastProduct (fun _ => .error (.Wrapped "db" .UniqueViolation)) 1).err =
        some (.Wrapped "PVZ.DeleteLastProduct" (.Wrapped "db" .UniqueViolation)) ∧
      (UseCase.DeleteLastProduct (fun _ => .error .ErrNoProducts) 1).err =
        some (.Repo .ErrNoProducts) :=
  ⟨fun _ => rfl,
    (UseCase_error_propagation (.Wrapped "db" .UniqueViolation) ⟨7, 1⟩ 1 "Москва" "обувь"
      none none (fun _ => .error (.Wrapped "db" .UniqueViolation))
      (fun _ _ => .error (.Wrapped "db" .UniqueViolation))
      (fun _ _ _ => .error (.Wrapped "db" .UniqueViolation))
      (fun _ => .error (.Wrapped "db" .UniqueViolation))
      (fun _ => .error (.Wrapped "db" .UniqueViolation))
      (fun _ => rfl) rfl rfl rfl rfl).1.2.2 (by decide),
    (UseCase_error_propagation (.Wrapped "db" .UniqueViolation) ⟨7, 1⟩ 1 "Москва" "обувь"
      none none (fun _ => .error (.Wrapped "db" .UniqueViolation))
      (fun _ _ => .error (.Wrapped "db" .UniqueViolation))
      (fun _ _ _ => .error (.Wrapped "db" .UniqueViolation))
      (fun _ => .error (.Wrapped "db" .UniqueViolation))
      (fun _ => .error (.Wrapped "db" .UniqueViolation))
      (fun _ => rfl) rfl rfl rfl rfl).2.2.2.1.2 (by decide) (by decide),
    (UseCase_error_propagation .ErrNoProducts ⟨7, 1⟩ 1 "Москва" "обувь"
      none none (fun _ => .error .ErrNoProducts)
      (fun _ _ => .error .ErrNoProducts)
      (fun _ _ _ => .error .ErrNoProducts)
      (fun _ => .error .ErrNoProducts)
      (fun _ => .error .ErrNoProducts)
      (fun _ => rfl) rfl rfl rfl rfl).2.2.2.1.1 (Or.inr rfl)⟩

/-! ## The use case `CreatePVZ` -/

/-- C23: the use case `CreatePVZ` calls the repository once, with the site it
builds.  When an id and a registration date are supplied, that site has exactly
that id, that date and the given city, and it is the site returned when the
repository succeeds.  When the id is absent the site has the id `uuid.New()`
returned, which is not `uuid.Nil`; when the date is absent it has the time
`time.Now()` returned, which is not the zero time. -/
theorem UseCase_CreatePVZ_site (repo : PVZ → Except Error Unit) (env : Env) (city : String)
    (hUUID : env.newUUID ≠ uuidNil) (hNow : env.now ≠ zeroTime) :
    (∀ (i : UUID) (d : Time),
      (UseCase.CreatePVZ repo env (some i) city (some d)).repoCalls = [⟨i, city, d⟩] ∧
      (repo ⟨i, city, d⟩ = .ok () →
        (UseCase.CreatePVZ repo env (some i) city (some d)).err = none ∧
        (UseCase.CreatePVZ repo env (some i) city (some d)).value = ⟨i, city, d⟩)) ∧
    (∀ (date : Option Time), ∃ p : PVZ,
      (UseCase.CreatePVZ repo env none city date).repoCalls = [p] ∧
      p.ID = env.newUUID ∧ p.ID ≠ uuidNil ∧ p.City = city ∧
      (repo p = .ok () →
        (UseCase.CreatePVZ repo env none city date).err = none ∧
        (UseCase.CreatePVZ repo env none city date).value = p)) ∧
    (∀ (id : Option UUID), ∃ p : PVZ,
      (UseCase.CreatePVZ repo env id city none).repoCalls = [p] ∧
      p.RegistrationDate = env.now ∧ p.RegistrationDate ≠ zeroTime ∧ p.City = city ∧
      (repo p = .ok () →
        (UseCase.CreatePVZ repo env id city none).err = none ∧
        (UseCase.CreatePVZ repo env id city none).value = p)) := by
  have key : ∀ (id : Option UUID) (date : Option Time),
      (UseCase.CreatePVZ repo env id city date).repoCalls =
        [⟨id.getD env.newUUID, city, date.getD env.now⟩] ∧
      (repo ⟨id.getD env.newUUID, city, date.getD env.now⟩ = .ok () →
        (UseCase.CreatePVZ repo env id city date).err = none ∧
        (UseCase.CreatePVZ repo env id city date).value =
          ⟨id.getD env.newUUID, city, date.getD env.now⟩) := by
    intro id date
    cases id <;> cases date <;>
    · simp only [UseCase.CreatePVZ, Option.getD]
      constructor
      · split
        · split <;> rfl
        · rfl
      · intro hok
        simp [hok]
  refine ⟨fun i d => key (some i) (some d), fun date => ?_, fun id => ?_⟩
  · exact ⟨_, (key none date).1, rfl, hUUID, rfl, (key none date).2⟩
  · exact ⟨_, (key id none).1, rfl, hNow, rfl, (key id none).2⟩

theorem UseCase_CreatePVZ_site_witness :
    (⟨7, 5⟩ : Env).newUUID ≠ uuidNil ∧ (⟨7, 5⟩ : Env).now ≠ zeroTime ∧
      (UseCase.CreatePVZ (fun p => (CreatePVZ storeOpen p).2) ⟨7, 5⟩ (some 2) "Казань"
          (some 3)).repoCalls = [⟨2, "Казань", 3⟩] ∧
      (UseCase.CreatePVZ (fun p => (CreatePVZ storeOpen p).2) ⟨7, 5⟩ (some 2) "Казань"
          (some 3)).value = ⟨2, "Казань", 3⟩ :=
  ⟨by decide, by decide,
    ((UseCase_CreatePVZ_site (fun p => (CreatePVZ storeOpen p).2) ⟨7, 5⟩ "Казань"
      (by decide) (by decide)).1 2 3).1,
    (((UseCase_CreatePVZ_site (fun p => (CreatePVZ storeOpen p).2) ⟨7, 5⟩ "Казань"
      (by decide) (by decide)).1 2 3).2 (by decide)).2⟩

/-! ## The role check of the handlers -/

/-- C26: for a request whose context holds a role: when the role is not
`moderator`, `PostPvz` answers 403 and calls no use case, whatever the body
(also one that cannot be bound); when the role is not `employee`,
`PostReceptions`, `PostProducts`, `PostPvzPvzIdDeleteLastProduct` and
`PostPvzPvzIdCloseLastReception` answer 403 and call no use case, whatever the
body; `GetPvz` answers 403 exactly when the role is neither `employee` nor
`moderator`, and then calls no use case. -/
theorem handlers_role_check (uc : UseCases) (role : String) :
    (role ≠ UserRoleModerator →
      ∀ body, PostPvz uc (some role) body = ⟨403, []⟩) ∧
    (role ≠ UserRoleEmployee →
      (∀ body, PostReceptions uc (some role) body = ⟨403, []⟩) ∧
      (∀ body, PostProducts uc (some role) body = ⟨403, []⟩) ∧
      (∀ uuid, PostPvzPvzIdDeleteLastProduct uc (some role) uuid = ⟨403, []⟩) ∧
      (∀ uuid, PostPvzPvzIdCloseLastReception uc (some role) uuid = ⟨403, []⟩)) ∧
    (∀ params,
      ((GetPvz uc (some role) params).status = 403 ↔
        role ≠ UserRoleEmployee ∧ role ≠ UserRoleModerator) ∧
      ((GetPvz uc (some role) params).status = 403 →
        (GetPvz uc (some role) params).useCaseCalls = [])) := by
  refine ⟨fun h body => ?_, fun h => ⟨fun body => ?_, fun body => ?_, fun u => ?_, fun u => ?_⟩,
    fun params => ?_⟩
  · simp [PostPvz, h]
  · simp [PostReceptions, h]
  · simp [PostProducts, h]
  · simp [PostPvzPvzIdDeleteLastProduct, h]
  · simp [PostPvzPvzIdCloseLastReception, h]
  · by_cases h : role ≠ UserRoleEmployee ∧ role ≠ UserRoleModerator
    · simp [GetPvz, h]
    · have hst : (GetPvz uc (some role) params).status ≠ 403 := by
        simp only [GetPvz, if_neg h]
        cases uc.GetPVZs params with
        | error err => by_cases he : err = .ErrInvalidDateRange <;> simp [he]
        | ok v => simp
      exact ⟨⟨fun h403 => absurd h403 hst, fun hr => absurd hr h⟩, fun h403 => absurd h403 hst⟩

theorem handlers_role_check_witness :
    UserRoleEmployee ≠ UserRoleModerator ∧
      PostPvz useCasesOk (some UserRoleEmployee) none = ⟨403, []⟩ ∧
      PostPvz useCasesOk (some UserRoleEmployee) (some ⟨"Казань", none, none⟩) = ⟨403, []⟩ ∧
      PostPvz useCasesOk (some UserRoleModerator) (some ⟨"Казань", none, none⟩) =
        ⟨201, [.CreatePVZ none "Казань" none]⟩ ∧
      UserRoleModerator ≠ UserRoleEmployee ∧
      PostReceptions useCasesOk (some UserRoleModerator) (some ⟨uuidNil⟩) = ⟨403, []⟩ ∧
      PostPvzPvzIdCloseLastReception useCasesOk (some UserRoleModerator) 1 = ⟨403, []⟩ :=
  ⟨by decide,
    (handlers_role_check useCasesOk UserRoleEmployee).1 (by decide) none,
    (handlers_role_check useCasesOk UserRoleEmployee).1 (by decide) (some ⟨"Казань", none, none⟩),
    by decide, by decide,
    ((handlers_role_check useCasesOk UserRoleModerator).2.1 (by decide)).1 (some ⟨uuidNil⟩),
    ((handlers_role_check useCasesOk UserRoleModerator).2.1 (by decide)).2.2.2 1⟩

/-! ## The entries of the loop of `GetPVZs` -/

theorem FoldState.each_result {E : PVZWithReceptions → Prop} {st : FoldState}
    (h : st.Each E) : ∀ e ∈ st.result, E e := by
  intro e he
  unfold FoldState.result at he
  rcases List.mem_append.1 he with he | he
  · exact h.1 e he
  · cases hc : st.currentPVZ with
    | none =>
      rw [hc] at he
      cases he
    | some cur =>
      rw [hc] at he
      simp only [Option.map_some', Option.toList_some, List.mem_singleton] at he
      rw [he]
      exact h.2 cur hc

theorem FoldState.init_each (E : PVZWithReceptions → Prop) : FoldState.init.Each E :=
  ⟨fun _ he => absurd he (List.not_mem_nil _), fun _ hc => by cases hc⟩

/-- After the first block of the loop body the entry in progress is of the site
of the row. -/
theorem stepPVZ_each {E : PVZWithReceptions → Prop} (st : FoldState) (row : Row)
    (hsite : E (newPVZ row)) (h : st.Each E) :
    (stepPVZ st row).Each E ∧
      ∃ cur, (stepPVZ st row).currentPVZ = some cur ∧ cur.PVZ.ID = row.pvzID := by
  unfold stepPVZ
  cases hc : st.currentPVZ with
  | none =>
    refine ⟨⟨h.1, ?_⟩, _, rfl, rfl⟩
    intro cur hcur
    simp only [Option.some.injEq] at hcur
    rw [← hcur]
    simpa [withCurrentReception, newPVZ] using hsite
  | some cur =>
    simp only
    by_cases hid : cur.PVZ.ID ≠ row.pvzID
    · rw [if_pos hid]
      refine ⟨⟨?_, ?_⟩, _, rfl, rfl⟩
      · intro e he
        rcases List.mem_append.1 he with he | he
        · exact h.1 e he
        · rw [List.mem_singleton] at he
          rw [he]
          exact h.2 cur hc
      · intro c hcur
        simp only [Option.some.injEq] at hcur
        rw [← hcur]
        simpa [withCurrentReception, newPVZ] using hsite
    · rw [if_neg hid]
      exact ⟨h, cur, hc, not_not.1 hid⟩

/-- One iteration of the loop keeps a property of the entries that holds of a
new entry, and that is kept when the row starts a reception in an entry of its
site and when it adds its product to the last reception of such an entry. -/
theorem foldRow_each {E : PVZWithReceptions → Prop} (st : FoldState) (row : Row)
    (hsite : E (newPVZ row))
    (hnew : ∀ pvz l rc, pvz.ID = row.pvzID → row.reception = some rc → E ⟨pvz, l⟩ →
      E ⟨pvz, l ++ [stepProduct (newReception row rc) rc row.product]⟩)
    (hsame : ∀ pvz l r rc, pvz.ID = row.pvzID → row.reception = some rc →
      r.Reception.ID = rc.ID → E ⟨pvz, l ++ [r]⟩ →
      E ⟨pvz, l ++ [stepProduct r rc row.product]⟩)
    (h : st.Each E) : (foldRow st row).Each E := by
  obtain ⟨h1, cur, hcur, hid⟩ := stepPVZ_each st row hsite h
  unfold foldRow
  simp only
  cases hr : row.reception with
  | none => exact h1
  | some rc =>
    rw [hcur]
    simp only
    have hE := h1.2 cur hcur
    refine ⟨h1.1, ?_⟩
    intro c hc
    simp only [Option.some.injEq] at hc
    rw [← hc]
    unfold stepReception
    cases hcr : (stepPVZ st row).currentReception with
    | none =>
      rw [hcr] at hE
      simp only [withCurrentReception, Option.toList_none, List.append_nil] at hE
      simp only [withCurrentReception, Option.toList_some]
      exact hnew _ _ rc hid hr hE
    | some r =>
      rw [hcr] at hE
      simp only [withCurrentReception, Option.toList_some] at hE
      simp only
      by_cases hne : r.Reception.ID ≠ rc.ID
      · rw [if_pos hne]
        simp only [withCurrentReception, Option.toList_some]
        exact hnew _ _ rc hid hr hE
      · rw [if_neg hne]
        simp only [withCurrentReception, Option.toList_some]
        exact hsame _ _ r rc hid hr (not_not.1 hne) hE

theorem foldl_foldRow_each {E : PVZWithReceptions → Prop} (rows : List Row)
    (hsite : ∀ row ∈ rows, E (newPVZ row))
    (hnew : ∀ row ∈ rows, ∀ pvz l rc, pvz.ID = row.pvzID → row.reception = some rc →
      E ⟨pvz, l⟩ → E ⟨pvz, l ++ [stepProduct (newReception row rc) rc row.product]⟩)
    (hsame : ∀ row ∈ rows, ∀ pvz l r rc, pvz.ID = row.pvzID → row.reception = some rc →
      r.Reception.ID = rc.ID → E ⟨pvz, l ++ [r]⟩ →
      E ⟨pvz, l ++ [stepProduct r rc row.product]⟩) :
    ∀ st : FoldState, st.Each E → (rows.foldl foldRow st).Each E := by
  induction rows with
  | nil => exact fun _ h => h
  | cons row rest ih =>
    intro st h
    rw [List.foldl_cons]
    apply ih (fun r hr => hsite r (List.mem_cons_of_mem _ hr))
      (fun r hr => hnew r (List.mem_cons_of_mem _ hr))
      (fun r hr => hsame r (List.mem_cons_of_mem _ hr))
    exact foldRow_each st row (hsite row (List.mem_cons_self _ _))
      (hnew row (List.mem_cons_self _ _)) (hsame row (List.mem_cons_self _ _)) h

theorem stepProduct_products_mem (r : ReceptionWithProducts) (rc : ReceptionColumns)
    (product : Option ProductColumns) (p : Product)
    (hp : p ∈ (stepProduct r rc product).Products) :
    p ∈ r.Products ∨ ∃ pc, product = some pc ∧ p = newProduct rc pc := by
  cases product with
  | none => exact Or.inl hp
  | some pc =>
    simp only [stepProduct, List.mem_append, List.mem_singleton] at hp
    rcases hp with hp | hp
    · exact Or.inl hp
    · exact Or.inr ⟨pc, rfl, hp⟩

/-- In every entry of the folded rows a reception belongs to the site of its
entry, and a product to the reception of its entry. -/
theorem foldRows_linked (rows : List Row) :
    ∀ e ∈ foldRows rows, ∀ rw ∈ e.Receptions,
      rw.Reception.PvzID = e.PVZ.ID ∧ ∀ p ∈ rw.Products, p.ReceptionID = rw.Reception.ID := by
  have h := @foldl_foldRow_each
    (fun e => ∀ rw ∈ e.Receptions,
      rw.Reception.PvzID = e.PVZ.ID ∧ ∀ p ∈ rw.Products, p.ReceptionID = rw.Reception.ID)
    rows ?_ ?_ ?_ FoldState.init (FoldState.init_each _)
  · exact FoldState.each_result h
  · intro row _ rw hrw
    simp [newPVZ] at hrw
  · intro row _ pvz l rc hid hr hl rw hrw
    rcases List.mem_append.1 hrw with hrw | hrw
    · exact hl rw hrw
    · rw [List.mem_singleton] at hrw
      rw [hrw, stepProduct_reception]
      refine ⟨by simp [newReception, hid], ?_⟩
      intro p hp
      rcases stepProduct_products_mem _ _ _ _ hp with hp | ⟨pc, _, hp⟩
      · simp [newReception] at hp
      · rw [hp]
        rfl
  · intro row _ pvz l r rc hid hr hrid hl rw hrw
    rcases List.mem_append.1 hrw with hrw | hrw
    · exact hl rw (List.mem_append_left _ hrw)
    · rw [List.mem_singleton] at hrw
      have hr0 := hl r (List.mem_append_right _ (List.mem_singleton_self _))
      rw [hrw, stepProduct_reception]
      refine ⟨hr0.1, ?_⟩
      intro p hp
      rcases stepProduct_products_mem _ _ _ _ hp with hp | ⟨pc, _, hp⟩
      · exact hr0.2 p hp
      · rw [hp, hrid]
        rfl

/-- C29: in every result of `GetPVZs`, and in the result of the loop on every
sequence of rows, the `PvzID` of each reception entry is the `ID` of the site
entry that holds it, and the `ReceptionID` of each product is the `ID` of the
reception entry that holds it. -/
theorem GetPVZs_entries_linked :
    (∀ (rows : List Row), ∀ e ∈ foldRows rows, ∀ rw ∈ e.Receptions,
      rw.Reception.PvzID = e.PVZ.ID ∧
        ∀ p ∈ rw.Products, p.ReceptionID = rw.Reception.ID) ∧
    (∀ (s : Store) (startDate endDate : Option Time) (limit offset : Nat),
      ∃ result, GetPVZs s startDate endDate limit offset = .ok result ∧
        ∀ e ∈ result, ∀ rw ∈ e.Receptions,
          rw.Reception.PvzID = e.PVZ.ID ∧
            ∀ p ∈ rw.Products, p.ReceptionID = rw.Reception.ID) := by
  refine ⟨foldRows_linked, ?_⟩
  intro s startDate endDate limit offset
  unfold GetPVZs
  simp only
  split
  · exact ⟨[], rfl, fun e he => absurd he (List.not_mem_nil _)⟩
  · exact ⟨_, rfl, foldRows_linked _⟩

/-! ## The loop of `GetPVZs`, row by row -/

theorem FoldState.init_after : FoldState.init.After [] :=
  ⟨rfl, fun _ => ⟨rfl, rfl⟩, fun _ _ hc => by cases hc⟩

theorem foldRow_after (pre : List Row) (st : FoldState) (row : Row) (h : st.After pre) :
    (foldRow st row).After (pre ++ [row]) := by
  obtain ⟨h1, h2, h3⟩ := h
  unfold FoldState.After
  rw [List.getLast?_concat]
  simp only [Option.map_some']
  unfold foldRow stepPVZ
  cases hc : st.currentPVZ with
  | none =>
    cases hr : row.reception with
    | none => simp [newPVZ]
    | some rc => simp [newPVZ, stepReception]
  | some cur =>
    by_cases hid : cur.PVZ.ID ≠ row.pvzID
    · cases hr : row.reception with
      | none => simp [newPVZ, hid]
      | some rc => simp [newPVZ, stepReception, hid]
    · have hid2 : cur.PVZ.ID = row.pvzID := not_not.1 hid
      cases hr : row.reception with
      | none =>
        simp only [hid, if_false, hc]
        refine ⟨by simp [hid2], by simp, ?_⟩
        intro hcr c hcc
        exact h3 hcr c (hc ▸ hcc)
      | some rc =>
        simp only [hid, if_false, hc]
        refine ⟨?_, by simp, by simp⟩
        unfold stepReception
        cases st.currentReception with
        | none => simp [hid2]
        | some r =>
          by_cases hne : r.Reception.ID ≠ rc.ID
          · simp [hne, withCurrentReception, hid2]
          · simp [hne, hid2]

theorem foldl_foldRow_after (rows : List Row) :
    ∀ (pre : List Row) (st : FoldState), st.After pre →
      (rows.foldl foldRow st).After (pre ++ rows) := by
  induction rows with
  | nil =>
    intro pre st h
    simpa using h
  | cons row rest ih =>
    intro pre st h
    rw [List.foldl_cons]
    have := ih (pre ++ [row]) (foldRow st row) (foldRow_after pre st row h)
    simpa [List.append_assoc] using this

theorem foldRows_append (pre : List Row) (row : Row) :
    foldRows (pre ++ [row]) = (foldRow (pre.foldl foldRow FoldState.init) row).result := by
  unfold foldRows
  rw [List.foldl_append]
  rfl

/-- A row adds its product, if it has one, after all products read so far. -/
theorem foldRow_allProducts (st : FoldState) (row : Row) :
    allProducts (foldRow st row).result = allProducts st.result ++ (rowProduct row).toList := by
  unfold foldRow stepPVZ
  cases hc : st.currentPVZ with
  | none =>
    cases hr : row.reception with
    | none => simp [allProducts, allReceptions, FoldState.result, rowProduct, hr, hc, newPVZ,
        withCurrentReception]
    | some rc =>
      cases hp : row.product <;>
        simp [allProducts, allReceptions, FoldState.result, rowProduct, hr, hc, hp, newPVZ,
          withCurrentReception, stepReception, stepProduct, newReception]
  | some cur =>
    by_cases hid : cur.PVZ.ID ≠ row.pvzID
    · cases hr : row.reception with
      | none => simp [allProducts, allReceptions, FoldState.result, rowProduct, hr, hc, newPVZ,
          withCurrentReception, hid]
      | some rc =>
        cases hp : row.product <;>
          simp [allProducts, allReceptions, FoldState.result, rowProduct, hr, hc, hp, newPVZ,
            withCurrentReception, stepReception, stepProduct, newReception, hid]
    · cases hr : row.reception with
      | none => simp [allProducts, allReceptions, FoldState.result, rowProduct, hr, hc, hid]
      | some rc =>
        cases hcr : st.currentReception with
        | none =>
          cases hp : row.product <;>
            simp [allProducts, allReceptions, FoldState.result, rowProduct, hr, hc, hp, hcr,
              withCurrentReception, stepReception, stepProduct, newReception, hid]
        | some r =>
          by_cases hne : r.Reception.ID ≠ rc.ID
          · cases hp : row.product <;>
              simp [allProducts, allReceptions, FoldState.result, rowProduct, hr, hc, hp, hcr,
                withCurrentReception, stepReception, stepProduct, newReception, hid, hne]
          · cases hp : row.product <;>
              simp [allProducts, allReceptions, FoldState.result, rowProduct, hr, hc, hp, hcr,
                withCurrentReception, stepReception, stepProduct, newReception, hid, hne]

/-- A row without reception leaves the reception entries as they are. -/
theorem foldRow_allReceptions_of_none (st : FoldState) (row : Row)
    (hr : row.reception = none) :
    allReceptions (foldRow st row).result = allReceptions st.result := by
  unfold foldRow stepPVZ
  cases hc : st.currentPVZ with
  | none => simp [allReceptions, FoldState.result, hr, hc, newPVZ, withCurrentReception]
  | some cur =>
    by_cases hid : cur.PVZ.ID ≠ row.pvzID
    · simp [allReceptions, FoldState.result, hr, hc, newPVZ, withCurrentReception, hid]
    · simp [allReceptions, FoldState.result, hr, hc, hid]

theorem foldl_foldRow_allProducts (rows : List Row) :
    ∀ st : FoldState, allProducts (rows.foldl foldRow st).result =
      allProducts st.result ++ rows.filterMap rowProduct := by
  induction rows with
  | nil => intro st; simp
  | cons row rest ih =>
    intro st
    rw [List.foldl_cons, ih, foldRow_allProducts]
    cases hrp : rowProduct row <;> simp [List.filterMap_cons, hrp]

/-- The products of the folded rows are the products of the rows, in the order
of the rows. -/
theorem foldRows_allProducts (rows : List Row) :
    allProducts (foldRows rows) = rows.filterMap rowProduct := by
  unfold foldRows
  rw [foldl_foldRow_allProducts]
  simp [allProducts, allReceptions, FoldState.result, FoldState.init]

theorem stepProduct_eq (r : ReceptionWithProducts) (row : Row) (rc : ReceptionColumns)
    (hr : row.reception = some rc) :
    stepProduct r rc row.product = ⟨r.Reception, r.Products ++ (rowProduct row).toList⟩ := by
  cases hp : row.product <;> simp [stepProduct, rowProduct, hr, hp]

/-- A row of another site than the row before it, and the first row, start a
site entry, with the reception of the row and its product if it has them. -/
theorem foldRow_result_of_new_site (pre : List Row) (st : FoldState) (row : Row)
    (h : st.After pre)
    (hsite : pre.getLast?.map (fun prev => prev.pvzID) ≠ some row.pvzID) :
    (foldRow st row).result = st.result ++
      [⟨⟨row.pvzID, row.pvzCity, row.pvzRegistration⟩,
        match row.reception with
        | none => []
        | some rc =>
          [⟨⟨rc.ID, rc.DateTime, row.pvzID, rc.Status⟩, (rowProduct row).toList⟩]⟩] := by
  obtain ⟨h1, h2, _⟩ := h
  rw [← h1] at hsite
  unfold foldRow stepPVZ
  cases hc : st.currentPVZ with
  | none =>
    obtain ⟨hd, hcr⟩ := h2 hc
    cases hr : row.reception with
    | none => simp [FoldState.result, hc, hd, newPVZ, withCurrentReception]
    | some rc =>
      simp [FoldState.result, hc, hd, newPVZ, withCurrentReception, stepReception,
        stepProduct_eq _ row rc hr, newReception]
  | some cur =>
    have hid : cur.PVZ.ID ≠ row.pvzID := by
      intro heq
      apply hsite
      rw [hc, Option.map_some', heq]
    cases hr : row.reception with
    | none => simp [FoldState.result, hc, hid, newPVZ, withCurrentReception]
    | some rc =>
      simp [FoldState.result, hc, hid, newPVZ, withCurrentReception, stepReception,
        stepProduct_eq _ row rc hr, newReception]

/-- A row of the site of the row before it goes into the last site entry: it
starts a reception entry there when the entry has none or its last one is of
another reception, and its product, if it has one, goes to the end of the last
reception entry. -/
theorem foldRow_result_of_same_site (pre : List Row) (st : FoldState) (row : Row)
    (h : st.After pre)
    (hsite : pre.getLast?.map (fun prev => prev.pvzID) = some row.pvzID) :
    ∃ init e, st.result = init ++ [e] ∧ e.PVZ.ID = row.pvzID ∧
      (row.reception = none → (foldRow st row).result = st.result) ∧
      ∀ rc, row.reception = some rc →
        (e.Receptions.getLast?.map (fun r => r.Reception.ID) ≠ some rc.ID →
          (foldRow st row).result = init ++
            [⟨e.PVZ, e.Receptions ++
              [⟨⟨rc.ID, rc.DateTime, row.pvzID, rc.Status⟩, (rowProduct row).toList⟩]⟩]) ∧
        (∀ rinit r, e.Receptions = rinit ++ [r] → r.Reception.ID = rc.ID →
          (foldRow st row).result = init ++
            [⟨e.PVZ, rinit ++ [⟨r.Reception, r.Products ++ (rowProduct row).toList⟩]⟩]) := by
  obtain ⟨h1, _, h3⟩ := h
  rw [← h1] at hsite
  cases hc : st.currentPVZ with
  | none =>
    rw [hc] at hsite
    cases hsite
  | some cur =>
    rw [hc, Option.map_some', Option.some.injEq] at hsite
    have hid : ¬ cur.PVZ.ID ≠ row.pvzID := not_not.2 hsite
    refine ⟨st.done, withCurrentReception cur st.currentReception, ?_, hsite, ?_, ?_⟩
    · simp [FoldState.result, hc]
    · intro hr
      simp [foldRow, stepPVZ, hc, hid, hr]
    · intro rc hr
      cases hcr : st.currentReception with
      | none =>
        have hnil := h3 hcr cur hc
        constructor
        · intro _
          simp [foldRow, stepPVZ, FoldState.result, hc, hid, hr, hcr, stepReception,
            withCurrentReception, stepProduct_eq _ row rc hr, newReception]
        · intro rinit r he
          simp [withCurrentReception, hnil] at he
      | some r0 =>
        constructor
        · intro hne
          have hne0 : r0.Reception.ID ≠ rc.ID := by
            simpa [withCurrentReception] using hne
          simp [foldRow, stepPVZ, FoldState.result, hc, hid, hr, hcr, stepReception,
            withCurrentReception, stepProduct_eq _ row rc hr, newReception, hne0]
        · intro rinit r he heq
          have he2 : cur.Receptions ++ [r0] = rinit ++ [r] := by
            simpa [withCurrentReception] using he
          obtain ⟨hl, hrr⟩ := List.append_inj' he2 rfl
          have hr0 : r0 = r := by simpa using hrr
          subst hr0
          have heq0 : ¬ r0.Reception.ID ≠ rc.ID := not_not.2 heq
          simp [foldRow, stepPVZ, FoldState.result, hc, hid, hr, hcr, stepReception,
            withCurrentReception, stepProduct_eq _ row rc hr, heq0, hl]

theorem foldl_init_after (pre : List Row) : (pre.foldl foldRow FoldState.init).After pre := by
  simpa using foldl_foldRow_after pre [] FoldState.init FoldState.init_after

theorem foldRows_of_new_site (pre : List Row) (row : Row)
    (hsite : pre.getLast?.map (fun prev => prev.pvzID) ≠ some row.pvzID) :
    foldRows (pre ++ [row]) = foldRows pre ++
      [⟨⟨row.pvzID, row.pvzCity, row.pvzRegistration⟩,
        match row.reception with
        | none => []
        | some rc =>
          [⟨⟨rc.ID, rc.DateTime, row.pvzID, rc.Status⟩, (rowProduct row).toList⟩]⟩] := by
  rw [foldRows_append]
  exact foldRow_result_of_new_site pre _ row (foldl_init_after pre) hsite

theorem foldRows_of_same_site (pre : List Row) (row : Row)
    (hsite : pre.getLast?.map (fun prev => prev.pvzID) = some row.pvzID) :
    ∃ init e, foldRows pre = init ++ [e] ∧ e.PVZ.ID = row.pvzID ∧
      (row.reception = none → foldRows (pre ++ [row]) = foldRows pre) ∧
      ∀ rc, row.reception = some rc →
        (e.Receptions.getLast?.map (fun r => r.Reception.ID) ≠ some rc.ID →
          foldRows (pre ++ [row]) = init ++
            [⟨e.PVZ, e.Receptions ++
              [⟨⟨rc.ID, rc.DateTime, row.pvzID, rc.Status⟩, (rowProduct row).toList⟩]⟩]) ∧
        (∀ rinit r, e.Receptions = rinit ++ [r] → r.Reception.ID = rc.ID →
          foldRows (pre ++ [row]) = init ++
            [⟨e.PVZ, rinit ++ [⟨r.Reception, r.Products ++ (rowProduct row).toList⟩]⟩]) := by
  rw [foldRows_append]
  exact foldRow_result_of_same_site pre _ row (foldl_init_after pre) hsite

theorem length_filterMap_rowProduct (rows : List Row) :
    (rows.filterMap rowProduct).length =
      rows.countP (fun r => r.reception.isSome && r.product.isSome) := by
  induction rows with
  | nil => rfl
  | cons row rest ih =>
    rw [List.countP_cons, ← ih]
    cases hr : row.reception <;> cases hp : row.product <;>
      simp [List.filterMap_cons, rowProduct, hr, hp]

/-- C28: the loop of `GetPVZs`, for every sequence of rows `pre` followed by a
row.  When the row is the first one or of another site than the row before it,
a site entry is added at the end of the result, holding the reception of the row
(if it has one) with the product of the row (if it has one); otherwise the
result keeps its length and the row goes into the last site entry: a row without
reception changes nothing, a row with a reception starts a reception entry at
the end of that site entry when the entry has no reception yet or its last
reception is another one, and otherwise stays in the last reception entry; in
both cases the product of the row, if it has one, is put at the end of that
reception entry.  So the products of the result are the products of the rows
with reception and product, in row order, and as many. -/
theorem foldRows_row_by_row (pre : List Row) (row : Row) :
    (pre.getLast?.map (fun prev => prev.pvzID) ≠ some row.pvzID →
      foldRows (pre ++ [row]) = foldRows pre ++
        [⟨⟨row.pvzID, row.pvzCity, row.pvzRegistration⟩,
          match row.reception with
          | none => []
          | some rc =>
            [⟨⟨rc.ID, rc.DateTime, row.pvzID, rc.Status⟩, (rowProduct row).toList⟩]⟩]) ∧
    (pre.getLast?.map (fun prev => prev.pvzID) = some row.pvzID →
      (foldRows (pre ++ [row])).length = (foldRows pre).length ∧
      ∃ init e, foldRows pre = init ++ [e] ∧ e.PVZ.ID = row.pvzID ∧
        (row.reception = none → foldRows (pre ++ [row]) = foldRows pre) ∧
        ∀ rc, row.reception = some rc →
          (e.Receptions.getLast?.map (fun r => r.Reception.ID) ≠ some rc.ID →
            foldRows (pre ++ [row]) = init ++
              [⟨e.PVZ, e.Receptions ++
                [⟨⟨rc.ID, rc.DateTime, row.pvzID, rc.Status⟩, (rowProduct row).toList⟩]⟩]) ∧
          (∀ rinit r, e.Receptions = rinit ++ [r] → r.Reception.ID = rc.ID →
            foldRows (pre ++ [row]) = init ++
              [⟨e.PVZ, rinit ++ [⟨r.Reception, r.Products ++ (rowProduct row).toList⟩]⟩])) ∧
    allProducts (foldRows (pre ++ [row])) =
      allProducts (foldRows pre) ++ (rowProduct row).toList ∧
    allProducts (foldRows pre) = pre.filterMap rowProduct ∧
    (allProducts (foldRows pre)).length =
      pre.countP (fun r => r.reception.isSome && r.product.isSome) := by
  refine ⟨foldRows_of_new_site pre row, fun hsite => ⟨?_, foldRows_of_same_site pre row hsite⟩,
    ?_, foldRows_allProducts pre, ?_⟩
  · obtain ⟨init, e, hres, _, hnone, hsome⟩ := foldRows_of_same_site pre row hsite
    cases hr : row.reception with
    | none => rw [hnone hr]
    | some rc =>
      by_cases hne : e.Receptions.getLast?.map (fun r => r.Reception.ID) ≠ some rc.ID
      · rw [(hsome rc hr).1 hne, hres]
        simp
      · have hl : ∃ r, e.Receptions.getLast? = some r ∧ r.Reception.ID = rc.ID := by
          cases hg : e.Receptions.getLast? with
          | none => simp [hg] at hne
          | some r => exact ⟨r, rfl, by simpa [hg] using hne⟩
        obtain ⟨r, hg, hid⟩ := hl
        have hsplit : e.Receptions = e.Receptions.dropLast ++ [r] := by
          have := List.dropLast_append_getLast? r hg
          exact this.symm
        rw [(hsome rc hr).2 _ r hsplit hid, hres]
        simp
  · rw [foldRows_allProducts, foldRows_allProducts, List.filterMap_append]
    cases hrp : rowProduct row <;> simp [hrp]
  · rw [foldRows_allProducts, length_filterMap_rowProduct]

theorem foldRows_row_by_row_witness :
    foldRows ([] ++ [⟨1, "Москва", 0, some ⟨10, 5, Close⟩, some ⟨100, "обувь", 6⟩⟩]) =
        [⟨⟨1, "Москва", 0⟩, [⟨⟨10, 5, 1, Close⟩, [⟨100, "обувь", 6, 10⟩]⟩]⟩] ∧
      (foldRows ([⟨1, "Москва", 0, some ⟨10, 5, Close⟩, some ⟨100, "обувь", 6⟩⟩] ++
          [⟨1, "Москва", 0, some ⟨10, 5, Close⟩, some ⟨101, "одежда", 7⟩⟩])).length =
        (foldRows [⟨1, "Москва", 0, some ⟨10, 5, Close⟩, some ⟨100, "обувь", 6⟩⟩]).length ∧
      allProducts (foldRows ([⟨1, "Москва", 0, some ⟨10, 5, Close⟩, some ⟨100, "обувь", 6⟩⟩] ++
          [⟨1, "Москва", 0, some ⟨10, 5, Close⟩, some ⟨101, "одежда", 7⟩⟩])) =
        allProducts (foldRows [⟨1, "Москва", 0, some ⟨10, 5, Close⟩, some ⟨100, "обувь", 6⟩⟩]) ++
          [⟨101, "одежда", 7, 10⟩] :=
  ⟨(foldRows_row_by_row [] ⟨1, "Москва", 0, some ⟨10, 5, Close⟩, some ⟨100, "обувь", 6⟩⟩).1
      (by decide),
    ((foldRows_row_by_row [⟨1, "Москва", 0, some ⟨10, 5, Close⟩, some ⟨100, "обувь", 6⟩⟩]
      ⟨1, "Москва", 0, some ⟨10, 5, Close⟩, some ⟨101, "одежда", 7⟩⟩).2.1 (by decide)).1,
    (foldRows_row_by_row [⟨1, "Москва", 0, some ⟨10, 5, Close⟩, some ⟨100, "обувь", 6⟩⟩]
      ⟨1, "Москва", 0, some ⟨10, 5, Close⟩, some ⟨101, "одежда", 7⟩⟩).2.2.1⟩

/-! ## Rows without reception or product -/

/-- Every reception of an entry comes from a row of the site of the entry, and
every product of a reception from a row of that site and that reception. -/
theorem foldRows_provenance (rows : List Row) :
    ∀ e ∈ foldRows rows, ∀ rw ∈ e.Receptions,
      (∃ row ∈ rows, row.pvzID = e.PVZ.ID ∧
        ∃ rc, row.reception = some rc ∧ rc.ID = rw.Reception.ID) ∧
      ∀ p ∈ rw.Products, ∃ row ∈ rows, row.pvzID = e.PVZ.ID ∧
        ∃ rc pc, row.reception = some rc ∧ rc.ID = rw.Reception.ID ∧ row.product = some pc := by
  have h := @foldl_foldRow_each
    (fun e => ∀ rw ∈ e.Receptions,
      (∃ row ∈ rows, row.pvzID = e.PVZ.ID ∧
        ∃ rc, row.reception = some rc ∧ rc.ID = rw.Reception.ID) ∧
      ∀ p ∈ rw.Products, ∃ row ∈ rows, row.pvzID = e.PVZ.ID ∧
        ∃ rc pc, row.reception = some rc ∧ rc.ID = rw.Reception.ID ∧ row.product = some pc)
    rows ?_ ?_ ?_ FoldState.init (FoldState.init_each _)
  · exact FoldState.each_result h
  · intro row _ rw hrw
    simp [newPVZ] at hrw
  · intro row hrow pvz l rc hid hr hl rw hrw
    rcases List.mem_append.1 hrw with hrw | hrw
    · exact hl rw hrw
    · rw [List.mem_singleton] at hrw
      rw [hrw, stepProduct_reception]
      refine ⟨⟨row, hrow, hid.symm, rc, hr, rfl⟩, ?_⟩
      intro p hp
      rcases stepProduct_products_mem _ _ _ _ hp with hp | ⟨pc, hpc, _⟩
      · simp [newReception] at hp
      · exact ⟨row, hrow, hid.symm, rc, pc, hr, rfl, hpc⟩
  · intro row hrow pvz l r rc hid hr hrid hl rw hrw
    rcases List.mem_append.1 hrw with hrw | hrw
    · exact hl rw (List.mem_append_left _ hrw)
    · rw [List.mem_singleton] at hrw
      have hr0 := hl r (List.mem_append_right _ (List.mem_singleton_self _))
      rw [hrw, stepProduct_reception]
      refine ⟨hr0.1, ?_⟩
      intro p hp
      rcases stepProduct_products_mem _ _ _ _ hp with hp | ⟨pc, hpc, _⟩
      · exact hr0.2 p hp
      · exact ⟨row, hrow, hid.symm, rc, pc, hr, hrid.symm, hpc⟩

/-- Every row has a site entry of its site in the result, and that entry has a
reception entry of the reception of the row, if the row has one. -/
theorem foldRows_covers (rows : List Row) :
    ∀ row ∈ rows, ∃ e ∈ foldRows rows, e.PVZ.ID = row.pvzID ∧
      ∀ rc, row.reception = some rc → ∃ rw ∈ e.Receptions, rw.Reception.ID = rc.ID := by
  induction rows using List.reverseRecOn with
  | nil => intro row hrow; cases hrow
  | append_singleton pre last ih =>
    -- the entries of `foldRows pre` are kept, with their receptions
    have hkeep : ∀ e ∈ foldRows pre, ∃ e2 ∈ foldRows (pre ++ [last]), e2.PVZ = e.PVZ ∧
        ∀ rw ∈ e.Receptions, ∃ rw2 ∈ e2.Receptions, rw2.Reception = rw.Reception := by
      intro e he
      by_cases hsite : pre.getLast?.map (fun prev => prev.pvzID) = some last.pvzID
      · obtain ⟨init, e0, hres, _, hnone, hsome⟩ := foldRows_of_same_site pre last hsite
        rw [hres] at he
        rcases List.mem_append.1 he with he | he
        · refine ⟨e, ?_, rfl, fun rw hrw => ⟨rw, hrw, rfl⟩⟩
          cases hr : last.reception with
          | none =>
            rw [hnone hr, hres]
            exact List.mem_append_left _ he
          | some rc =>
            by_cases hne : e0.Receptions.getLast?.map (fun r => r.Reception.ID) ≠ some rc.ID
            · rw [(hsome rc hr).1 hne]
              exact List.mem_append_left _ he
            · obtain ⟨r, hg, hid⟩ :
                  ∃ r, e0.Receptions.getLast? = some r ∧ r.Reception.ID = rc.ID := by
                cases hg : e0.Receptions.getLast? with
                | none => simp [hg] at hne
                | some r => exact ⟨r, rfl, by simpa [hg] using hne⟩
              rw [(hsome rc hr).2 _ r (List.dropLast_append_getLast? r hg).symm hid]
              exact List.mem_append_left _ he
        · rw [List.mem_singleton] at he
          subst he
          cases hr : last.reception with
          | none =>
            rw [hnone hr, hres]
            exact ⟨e, by simp, rfl, fun rw hrw => ⟨rw, hrw, rfl⟩⟩
          | some rc =>
            by_cases hne : e.Receptions.getLast?.map (fun r => r.Reception.ID) ≠ some rc.ID
            · rw [(hsome rc hr).1 hne]
              exact ⟨_, List.mem_append_right _ (List.mem_singleton_self _), rfl, fun rw hrw =>
                ⟨rw, List.mem_append_left _ hrw, rfl⟩⟩
            · obtain ⟨r, hg, hid⟩ :
                  ∃ r, e.Receptions.getLast? = some r ∧ r.Reception.ID = rc.ID := by
                cases hg : e.Receptions.getLast? with
                | none => simp [hg] at hne
                | some r => exact ⟨r, rfl, by simpa [hg] using hne⟩
              have hsplit := (List.dropLast_append_getLast? r hg).symm
              rw [(hsome rc hr).2 _ r hsplit hid]
              refine ⟨_, List.mem_append_right _ (List.mem_singleton_self _), rfl, ?_⟩
              intro rw hrw
              rw [hsplit] at hrw
              rcases List.mem_append.1 hrw with hrw | hrw
              · exact ⟨rw, List.mem_append_left _ hrw, rfl⟩
              · rw [List.mem_singleton] at hrw
                exact ⟨_, List.mem_append_right _ (List.mem_singleton_self _), by rw [hrw]⟩
      · rw [foldRows_of_new_site pre last hsite]
        exact ⟨e, List.mem_append_left _ he, rfl, fun rw hrw => ⟨rw, hrw, rfl⟩⟩
    -- the last row has its entry
    have hlast : ∃ e ∈ foldRows (pre ++ [last]), e.PVZ.ID = last.pvzID ∧
        ∀ rc, last.reception = some rc → ∃ rw ∈ e.Receptions, rw.Reception.ID = rc.ID := by
      by_cases hsite : pre.getLast?.map (fun prev => prev.pvzID) = some last.pvzID
      · obtain ⟨init, e, hres, heid, hnone, hsome⟩ := foldRows_of_same_site pre last hsite
        cases hr : last.reception with
        | none =>
          rw [hnone hr, hres]
          exact ⟨e, by simp, heid, fun rc hrc => by cases hrc⟩
        | some rc =>
          by_cases hne : e.Receptions.getLast?.map (fun r => r.Reception.ID) ≠ some rc.ID
          · rw [(hsome rc hr).1 hne]
            refine ⟨_, List.mem_append_right _ (List.mem_singleton_self _), heid, ?_⟩
            intro rc2 hrc2
            cases hrc2
            exact ⟨_, List.mem_append_right _ (List.mem_singleton_self _), rfl⟩
          · obtain ⟨r, hg, hid⟩ :
                ∃ r, e.Receptions.getLast? = some r ∧ r.Reception.ID = rc.ID := by
              cases hg : e.Receptions.getLast? with
              | none => simp [hg] at hne
              | some r => exact ⟨r, rfl, by simpa [hg] using hne⟩
            rw [(hsome rc hr).2 _ r (List.dropLast_append_getLast? r hg).symm hid]
            refine ⟨_, List.mem_append_right _ (List.mem_singleton_self _), heid, ?_⟩
            intro rc2 hrc2
            cases hrc2
            exact ⟨_, List.mem_append_right _ (List.mem_singleton_self _), hid⟩
      · rw [foldRows_of_new_site pre last hsite]
        refine ⟨_, List.mem_append_right _ (List.mem_singleton_self _), rfl, ?_⟩
        intro rc hrc
        simp only [hrc]
        exact ⟨_, List.mem_singleton_self _, rfl⟩
    intro row hrow
    rcases List.mem_append.1 hrow with hrow | hrow
    · obtain ⟨e, he, heid, hrec⟩ := ih row hrow
      obtain ⟨e2, he2, hpvz, hrecs⟩ := hkeep e he
      refine ⟨e2, he2, by rw [hpvz, heid], ?_⟩
      intro rc hrc
      obtain ⟨rw, hrw, hrwid⟩ := hrec rc hrc
      obtain ⟨rw2, hrw2, heq⟩ := hrecs rw hrw
      exact ⟨rw2, hrw2, by rw [heq, hrwid]⟩
    · rw [List.mem_singleton] at hrow
      rw [hrow]
      exact hlast

/-! ## The workflow: one site, one reception, its products -/

/-- Rows of one site and one reception fold into one site entry with one
reception entry, holding the products of the rows in row order. -/
theorem foldRows_of_uniform (pvz : PVZ) (rc : ReceptionColumns) (rows : List Row)
    (hne : rows ≠ [])
    (h : ∀ row ∈ rows, row.pvzID = pvz.ID ∧ row.pvzCity = pvz.City ∧
      row.pvzRegistration = pvz.RegistrationDate ∧ row.reception = some rc) :
    foldRows rows =
      [⟨pvz, [⟨⟨rc.ID, rc.DateTime, pvz.ID, rc.Status⟩, rows.filterMap rowProduct⟩]⟩] := by
  induction rows using List.reverseRecOn with
  | nil => exact absurd rfl hne
  | append_singleton pre last ih =>
    obtain ⟨hid, hcity, hreg, hrec⟩ := h last (List.mem_append_right _ (List.mem_singleton_self _))
    have hfm : (pre ++ [last]).filterMap rowProduct =
        pre.filterMap rowProduct ++ (rowProduct last).toList := by
      rw [List.filterMap_append]
      cases hrp : rowProduct last <;> simp [hrp]
    by_cases hpre : pre = []
    · subst hpre
      have := foldRows_of_new_site [] last (by simp)
      rw [this]
      cases hrp : rowProduct last <;>
        simp [foldRows, FoldState.result, FoldState.init, hrec, hid, hcity, hreg, hrp]
    · have ihp := ih hpre (fun row hrow => h row (List.mem_append_left _ hrow))
      have hsite : pre.getLast?.map (fun prev => prev.pvzID) = some last.pvzID := by
        obtain ⟨prev, hprev⟩ : ∃ prev, pre.getLast? = some prev := by
          cases hg : pre.getLast? with
          | none => exact absurd (List.getLast?_eq_none_iff.1 hg) hpre
          | some prev => exact ⟨prev, rfl⟩
        have hmem : prev ∈ pre := List.mem_of_getLast?_eq_some hprev
        rw [hprev, Option.map_some', (h prev (List.mem_append_left _ hmem)).1, hid]
      obtain ⟨init, e, hres, _, _, hsome⟩ := foldRows_of_same_site pre last hsite
      rw [ihp] at hres
      have hinit : init = [] ∧ e = ⟨pvz, [⟨⟨rc.ID, rc.DateTime, pvz.ID, rc.Status⟩,
          pre.filterMap rowProduct⟩]⟩ := by
        have hres2 : ([] : List PVZWithReceptions) ++
            [⟨pvz, [⟨⟨rc.ID, rc.DateTime, pvz.ID, rc.Status⟩, pre.filterMap rowProduct⟩]⟩] =
            init ++ [e] := hres
        have hx := List.append_inj' hres2 rfl
        exact ⟨hx.1.symm, (List.singleton_inj.1 hx.2).symm⟩
      obtain ⟨hinit, he⟩ := hinit
      have hstep := (hsome rc hrec).2 []
        ⟨⟨rc.ID, rc.DateTime, pvz.ID, rc.Status⟩, pre.filterMap rowProduct⟩
        (by rw [he]; rfl) rfl
      rw [hstep, hinit, he, hfm]
      rfl

theorem addProducts_eq (pvz : PVZ) (receptionID : UUID) (receptionTime : Time)
    (items : List (UUID × String × Time)) :
    ∀ ps : List Product, (∀ item ∈ items, ∀ p ∈ ps, p.ID ≠ item.1) →
      (items.map (fun item => item.1)).Nodup →
      addProducts ⟨[pvz], [⟨receptionID, receptionTime, pvz.ID, InProgress⟩], ps⟩ pvz.ID items =
        ⟨[pvz], [⟨receptionID, receptionTime, pvz.ID, InProgress⟩],
          ps ++ items.map (itemProduct receptionID)⟩ := by
  induction items with
  | nil => intro ps _ _; simp [addProducts]
  | cons item rest ih =>
    intro ps hfresh hnodup
    rw [List.map_cons, List.nodup_cons] at hnodup
    have hstep : (AddProduct ⟨[pvz], [⟨receptionID, receptionTime, pvz.ID, InProgress⟩], ps⟩
        item.2.2 item.1 pvz.ID item.2.1).1 =
        ⟨[pvz], [⟨receptionID, receptionTime, pvz.ID, InProgress⟩],
          ps ++ [itemProduct receptionID item]⟩ := by
      have hany : ps.any (fun p => decide (p.ID = item.1)) = false := by
        rw [List.any_eq_false]
        intro p hp
        simpa using hfresh item (List.mem_cons_self _ _) p hp
      simp [AddProduct, selectReceptionForUpdate, receptionMatches, insertProduct, hany,
        itemProduct]
    have hrest := ih (ps ++ [itemProduct receptionID item]) (by
      intro it hit p hp
      rcases List.mem_append.1 hp with hp | hp
      · exact hfresh it (List.mem_cons_of_mem _ hit) p hp
      · rw [List.mem_singleton] at hp
        rw [hp]
        intro heq
        apply hnodup.1
        rw [List.mem_map]
        exact ⟨it, hit, heq.symm⟩) hnodup.2
    unfold addProducts at hrest ⊢
    rw [List.foldl_cons, hstep, hrest]
    simp

/-- The store after the workflow holds the site, the closed reception and the
products in the order they were added. -/
theorem fullWorkflow_eq (pvz : PVZ) (receptionID : UUID) (receptionTime : Time)
    (items : List (UUID × String × Time)) (hnodup : (items.map (fun item => item.1)).Nodup) :
    fullWorkflow pvz receptionID receptionTime items =
      ⟨[pvz], [⟨receptionID, receptionTime, pvz.ID, Close⟩],
        items.map (itemProduct receptionID)⟩ := by
  have h1 : (CreatePVZ emptyStore pvz).1 = ⟨[pvz], [], []⟩ := by
    simp [CreatePVZ, insertPvzOnConflictDoNothing, emptyStore]
  have h2 : (CreateReception ⟨[pvz], [], []⟩ receptionTime receptionID pvz.ID).1 =
      ⟨[pvz], [⟨receptionID, receptionTime, pvz.ID, InProgress⟩], []⟩ := by
    simp [CreateReception, insertReceptionIfFree, pvzExists, receptionExists]
  have h3 := addProducts_eq pvz receptionID receptionTime items []
    (fun _ _ p hp => absurd hp (List.not_mem_nil _)) hnodup
  unfold fullWorkflow
  simp only [h1, h2, h3, List.nil_append]
  simp [CloseLastReception, selectReceptionForUpdate, receptionMatches, updateReceptionStatus]

theorem joinProducts_workflow (pvz : PVZ) (receptionID : UUID) (receptionTime : Time)
    (items : List (UUID × String × Time)) :
    joinProducts ⟨[pvz], [⟨receptionID, receptionTime, pvz.ID, Close⟩],
        items.map (itemProduct receptionID)⟩ =
      if items = [] then [(pvz, some ⟨receptionID, receptionTime, pvz.ID, Close⟩, none)]
      else (items.map (itemProduct receptionID)).map
        (fun pr => (pvz, some ⟨receptionID, receptionTime, pvz.ID, Close⟩, some pr)) := by
  have hfilter : (items.map (itemProduct receptionID)).filter
      (fun pr => decide (pr.ReceptionID = receptionID)) = items.map (itemProduct receptionID) := by
    rw [List.filter_eq_self]
    intro p hp
    rw [List.mem_map] at hp
    obtain ⟨item, _, hitem⟩ := hp
    rw [← hitem]
    simp [itemProduct]
  unfold joinProducts joinReceptions
  simp only [List.flatMap_cons, List.flatMap_nil, List.append_nil, decide_True, List.filter_cons,
    List.filter_nil, if_true, List.map_cons, List.map_nil, hfilter]
  cases items with
  | nil => rfl
  | cons item rest => rfl

/-- The rows of phase 2 after the workflow are of the one site and reception,
they are not empty, and their products are the products added, in that order. -/
theorem selectRows_workflow (pvz : PVZ) (receptionID : UUID) (receptionTime : Time)
    (items : List (UUID × String × Time)) (conditions : List DateCondition)
    (hdate : whereDate conditions (some receptionTime) = true) :
    selectRows ⟨[pvz], [⟨receptionID, receptionTime, pvz.ID, Close⟩],
        items.map (itemProduct receptionID)⟩ [pvz.ID] conditions ≠ [] ∧
    (∀ row ∈ selectRows ⟨[pvz], [⟨receptionID, receptionTime, pvz.ID, Close⟩],
        items.map (itemProduct receptionID)⟩ [pvz.ID] conditions,
      row.pvzID = pvz.ID ∧ row.pvzCity = pvz.City ∧
        row.pvzRegistration = pvz.RegistrationDate ∧
        row.reception = some ⟨receptionID, receptionTime, Close⟩) ∧
    (selectRows ⟨[pvz], [⟨receptionID, receptionTime, pvz.ID, Close⟩],
        items.map (itemProduct receptionID)⟩ [pvz.ID] conditions).filterMap rowProduct =
      items.map (itemProduct receptionID) := by
  -- the rows before `ORDER BY`
  have hkeep : ∀ L : List Product,
      ((L.map (fun pr => (pvz, some (⟨receptionID, receptionTime, pvz.ID, Close⟩ : Reception),
          some pr))).filter
        (fun j => decide (j.1.ID ∈ [pvz.ID]) &&
          whereDate conditions (j.2.1.map (fun r => r.DateTime)))).map toRow =
      L.map (fun pr => (⟨pvz.ID, pvz.City, pvz.RegistrationDate,
        some ⟨receptionID, receptionTime, Close⟩, some ⟨pr.ID, pr.Type_, pr.DateTime⟩⟩ : Row)) := by
    intro L
    induction L with
    | nil => rfl
    | cons p rest ih =>
      rw [List.map_cons, List.filter_cons_of_pos (by simp [hdate]), List.map_cons, ih]
      rfl
  have hrows : ∃ rows : List Row,
      ((joinProducts ⟨[pvz], [⟨receptionID, receptionTime, pvz.ID, Close⟩],
        items.map (itemProduct receptionID)⟩).filter
        (fun j => decide (j.1.ID ∈ [pvz.ID]) &&
          whereDate conditions (j.2.1.map (fun r => r.DateTime)))).map toRow = rows ∧
      rows ≠ [] ∧
      (∀ row ∈ rows, row.pvzID = pvz.ID ∧ row.pvzCity = pvz.City ∧
        row.pvzRegistration = pvz.RegistrationDate ∧
        row.reception = some ⟨receptionID, receptionTime, Close⟩) ∧
      rows.filterMap rowProduct = items.map (itemProduct receptionID) := by
    rw [joinProducts_workflow]
    cases items with
    | nil =>
      refine ⟨_, rfl, ?_, ?_, ?_⟩ <;> simp [hdate, toRow, rowProduct]
    | cons item rest =>
      rw [if_neg (List.cons_ne_nil _ _), hkeep]
      refine ⟨_, rfl, by simp, ?_, ?_⟩
      · intro row hrow
        rw [List.mem_map] at hrow
        obtain ⟨p, _, hp⟩ := hrow
        rw [← hp]
        exact ⟨rfl, rfl, rfl, rfl⟩
      · rw [List.filterMap_map]
        have hfun : (rowProduct ∘ fun pr : Product => (⟨pvz.ID, pvz.City, pvz.RegistrationDate,
            some ⟨receptionID, receptionTime, Close⟩,
            some ⟨pr.ID, pr.Type_, pr.DateTime⟩⟩ : Row)) =
            fun pr => some ⟨pr.ID, pr.Type_, pr.DateTime, receptionID⟩ := by
          funext pr
          rfl
        rw [hfun]
        generalize item :: rest = L
        induction L with
        | nil => rfl
        | cons a t ih =>
          rw [List.map_cons, List.filterMap_cons, ih]
          rfl
  obtain ⟨rows, heq, hne, huni, hprod⟩ := hrows
  have hsorted : rows.Sorted (fun a b => Row.before a b = true) := by
    unfold List.Sorted
    rw [List.pairwise_iff_forall_sublist]
    intro a b hab
    have ha := huni a (hab.subset (List.mem_cons_self _ _))
    have hb := huni b (hab.subset (List.mem_cons_of_mem _ (List.mem_singleton_self _)))
    simp [Row.before, Row.receptionDate, ha.2.2.2, hb.2.2.2]
  have hsel : selectRows ⟨[pvz], [⟨receptionID, receptionTime, pvz.ID, Close⟩],
      items.map (itemProduct receptionID)⟩ [pvz.ID] conditions = rows := by
    unfold selectRows
    rw [heq]
    exact hsorted.insertionSort_eq
  rw [hsel]
  exact ⟨hne, huni, hprod⟩

theorem selectPvzIDs_workflow (pvz : PVZ) (receptionID : UUID) (receptionTime : Time)
    (ps : List Product) (conditions : List DateCondition) (limit : Nat) (hlimit : 1 ≤ limit)
    (hdate : whereDate conditions (some receptionTime) = true) :
    selectPvzIDs ⟨[pvz], [⟨receptionID, receptionTime, pvz.ID, Close⟩], ps⟩ conditions limit 0 =
      [pvz.ID] := by
  obtain ⟨n, hn⟩ : ∃ n, limit = n + 1 := ⟨limit - 1, by omega⟩
  subst hn
  simp [selectPvzIDs, joinReceptions, hdate]

/-! ## The loop of `GetPVZs` with slices -/

theorem slices_withCurrentReception_toModel (cur : Slices.PVZWithReceptions)
    (cr : Option Slices.ReceptionWithProducts) :
    (Slices.withCurrentReception cur cr).toModel =
      withCurrentReception cur.toModel (cr.map Slices.ReceptionWithProducts.toModel) := by
  cases cr <;>
    simp [Slices.withCurrentReception, withCurrentReception, Slices.PVZWithReceptions.toModel,
      Slice.append, Slice.toList]

theorem slices_result_toModel (st : Slices.FoldState) :
    st.result.map Slices.PVZWithReceptions.toModel = st.toModel.result := by
  cases hc : st.currentPVZ <;>
    simp [Slices.FoldState.result, FoldState.result, Slices.FoldState.toModel, hc,
      slices_withCurrentReception_toModel]

theorem slices_stepPVZ_toModel (st : Slices.FoldState) (row : Row) :
    (Slices.stepPVZ st row).toModel = stepPVZ st.toModel row := by
  unfold Slices.stepPVZ stepPVZ
  cases hc : st.currentPVZ with
  | none =>
    simp [Slices.FoldState.toModel, hc, Slices.newPVZ, newPVZ, Slices.PVZWithReceptions.toModel,
      Slice.toList]
  | some cur =>
    by_cases hid : cur.PVZ.ID ≠ row.pvzID
    · have hnew : (Slices.newPVZ row).toModel = newPVZ row := rfl
      have hpvz : cur.toModel.PVZ = cur.PVZ := rfl
      simp [Slices.FoldState.toModel, hc, hid, slices_withCurrentReception_toModel, hnew, hpvz]
    · simp [Slices.FoldState.toModel, hc, hid, Slices.PVZWithReceptions.toModel]

theorem slices_stepProduct_toModel (r : Slices.ReceptionWithProducts) (rc : ReceptionColumns)
    (product : Option ProductColumns) :
    (Slices.stepProduct r rc product).toModel = stepProduct r.toModel rc product := by
  cases product <;>
    simp [Slices.stepProduct, stepProduct, Slices.ReceptionWithProducts.toModel, Slice.append,
      Slice.toList]

theorem slices_stepReception_toModel (cur : Slices.PVZWithReceptions)
    (cr : Option Slices.ReceptionWithProducts) (row : Row) (rc : ReceptionColumns) :
    ((Slices.stepReception cur cr row rc).1.toModel,
        (Slices.stepReception cur cr row rc).2.toModel) =
      stepReception cur.toModel (cr.map Slices.ReceptionWithProducts.toModel) row rc := by
  unfold Slices.stepReception stepReception
  cases cr with
  | none =>
    simp [Slices.newReception, newReception, Slices.ReceptionWithProducts.toModel, Slice.toList]
  | some r =>
    by_cases hid : r.Reception.ID ≠ rc.ID
    · simp [hid, slices_withCurrentReception_toModel, Slices.newReception, newReception,
        Slices.ReceptionWithProducts.toModel, Slice.toList]
    · simp [hid, Slices.ReceptionWithProducts.toModel]

/-- The loop with slices does, read as lists, what the loop with lists does. -/
theorem slices_foldRow_toModel (st : Slices.FoldState) (row : Row) :
    (Slices.foldRow st row).toModel = foldRow st.toModel row := by
  unfold Slices.foldRow foldRow
  simp only
  rw [← slices_stepPVZ_toModel]
  cases hr : row.reception with
  | none => rfl
  | some rc =>
    cases hc : (Slices.stepPVZ st row).currentPVZ with
    | none => simp [Slices.FoldState.toModel, hc]
    | some cur =>
      have h := slices_stepReception_toModel cur (Slices.stepPVZ st row).currentReception row rc
      simp only [Slices.FoldState.toModel, hc, Option.map_some', ← h,
        slices_stepProduct_toModel]

theorem slices_foldl_foldRow_toModel (rows : List Row) :
    ∀ st : Slices.FoldState,
      (rows.foldl Slices.foldRow st).toModel = rows.foldl foldRow st.toModel := by
  induction rows with
  | nil => intro st; rfl
  | cons row rest ih =>
    intro st
    rw [List.foldl_cons, List.foldl_cons, ih, slices_foldRow_toModel]

theorem slices_foldRows_toModel (rows : List Row) :
    (Slices.foldRows rows).map Slices.PVZWithReceptions.toModel = foldRows rows := by
  unfold Slices.foldRows foldRows
  rw [slices_result_toModel, slices_foldl_foldRow_toModel]
  rfl

theorem slices_withCurrentReception_noNil (cur : Slices.PVZWithReceptions)
    (cr : Option Slices.ReceptionWithProducts) (hcur : cur.NoNil)
    (hcr : ∀ r, cr = some r → r.Products.isNil = false) :
    (Slices.withCurrentReception cur cr).NoNil := by
  cases cr with
  | none => exact hcur
  | some r =>
    refine ⟨rfl, ?_⟩
    intro rw hrw
    simp only [Slices.withCurrentReception, Slice.append, Slice.toList, List.mem_append,
      List.mem_singleton] at hrw
    rcases hrw with hrw | hrw
    · exact hcur.2 rw hrw
    · rw [hrw]
      exact hcr r rfl

theorem slices_stepPVZ_noNil (st : Slices.FoldState) (row : Row) (h : st.NoNil) :
    (Slices.stepPVZ st row).NoNil := by
  obtain ⟨h1, h2, h3⟩ := h
  have hnew : (Slices.newPVZ row).NoNil :=
    ⟨rfl, fun rw hrw => by simp [Slices.newPVZ, Slice.toList] at hrw⟩
  unfold Slices.stepPVZ
  cases hc : st.currentPVZ with
  | none =>
    refine ⟨h1, ?_, fun r hr => by cases hr⟩
    intro cur hcur
    simp only [Option.some.injEq] at hcur
    rw [← hcur]
    exact hnew
  | some cur =>
    by_cases hid : cur.PVZ.ID ≠ row.pvzID
    · simp only [hid, ne_eq, not_false_eq_true, if_true]
      refine ⟨?_, ?_, fun r hr => by cases hr⟩
      · intro e he
        rcases List.mem_append.1 he with he | he
        · exact h1 e he
        · rw [List.mem_singleton] at he
          rw [he]
          exact slices_withCurrentReception_noNil cur _ (h2 cur hc) h3
      · intro c hcur
        simp only [Option.some.injEq] at hcur
        rw [← hcur]
        exact hnew
    · simp only [hid, if_false]
      exact ⟨h1, h2, h3⟩

theorem slices_stepProduct_noNil (r : Slices.ReceptionWithProducts) (rc : ReceptionColumns)
    (product : Option ProductColumns) (h : r.Products.isNil = false) :
    (Slices.stepProduct r rc product).Products.isNil = false := by
  cases product with
  | none => exact h
  | some pc => rfl

/-- One iteration of the loop leaves no slice `nil`. -/
theorem slices_foldRow_noNil (st : Slices.FoldState) (row : Row) (h : st.NoNil) :
    (Slices.foldRow st row).NoNil := by
  have h1 := slices_stepPVZ_noNil st row h
  unfold Slices.foldRow
  simp only
  cases hr : row.reception with
  | none => exact h1
  | some rc =>
    cases hc : (Slices.stepPVZ st row).currentPVZ with
    | none => exact h1
    | some cur =>
      simp only
      have hcur := h1.2.1 cur hc
      refine ⟨h1.1, ?_, ?_⟩
      · intro c hcc
        simp only [Option.some.injEq] at hcc
        rw [← hcc]
        unfold Slices.stepReception
        cases hcr : (Slices.stepPVZ st row).currentReception with
        | none => exact hcur
        | some r =>
          by_cases hid : r.Reception.ID ≠ rc.ID
          · simp only [hid, ne_eq, not_false_eq_true, if_true]
            exact slices_withCurrentReception_noNil cur _ hcur
              (fun r2 hr2 => h1.2.2 r2 (hcr ▸ hr2))
          · simp only [hid, if_false]
            exact hcur
      · intro r2 hr2
        simp only [Option.some.injEq] at hr2
        rw [← hr2]
        apply slices_stepProduct_noNil
        unfold Slices.stepReception
        cases hcr : (Slices.stepPVZ st row).currentReception with
        | none => rfl
        | some r =>
          by_cases hid : r.Reception.ID ≠ rc.ID
          · simp only [hid, ne_eq, not_false_eq_true, if_true]
            rfl
          · simp only [hid, if_false]
            exact h1.2.2 r hcr

theorem slices_foldl_foldRow_noNil (rows : List Row) :
    ∀ st : Slices.FoldState, st.NoNil → (rows.foldl Slices.foldRow st).NoNil := by
  induction rows with
  | nil => exact fun _ h => h
  | cons row rest ih =>
    intro st h
    rw [List.foldl_cons]
    exact ih _ (slices_foldRow_noNil st row h)

/-- In the result of the loop no `Receptions` and no `Products` is `nil`. -/
theorem slices_foldRows_noNil (rows : List Row) : ∀ e ∈ Slices.foldRows rows, e.NoNil := by
  have h := slices_foldl_foldRow_noNil rows Slices.FoldState.init
    ⟨fun _ he => absurd he (List.not_mem_nil _),
      ⟨fun _ hc => (by cases hc), fun _ hc => (by cases hc)⟩⟩
  intro e he
  unfold Slices.foldRows Slices.FoldState.result at he
  rcases List.mem_append.1 he with he | he
  · exact h.1 e he
  · cases hc : (rows.foldl Slices.foldRow Slices.FoldState.init).currentPVZ with
    | none =>
      rw [hc] at he
      cases he
    | some cur =>
      rw [hc] at he
      simp only [Option.map_some', Option.toList_some, List.mem_singleton] at he
      rw [he]
      exact slices_withCurrentReception_noNil cur _ (h.2.1 cur hc) h.2.2

/-! ## Rows without reception or product: the entries of the result -/

/-- C27: the loop of `GetPVZs`, for every sequence of rows.  A row without
reception leaves the reception entries of the result, and with them the
products, as they were; a row without product leaves the products as they were.
Every row has a site entry of its site in the result, and a reception entry of
its reception in it if it has one.  A site entry all of whose rows are without
reception has the empty list `Receptions`, and a reception entry all of whose
rows are without product has the empty list `Products`.  These lists are the
slices of the loop read as lists, and of these slices none is `nil`: not the
`Receptions` of a site entry and not the `Products` of a reception entry. -/
theorem foldRows_null_columns (pre : List Row) (row : Row) :
    (row.reception = none →
      allReceptions (foldRows (pre ++ [row])) = allReceptions (foldRows pre)) ∧
    (row.product = none →
      allProducts (foldRows (pre ++ [row])) = allProducts (foldRows pre)) ∧
    (∀ r ∈ pre, ∃ e ∈ foldRows pre, e.PVZ.ID = r.pvzID ∧
      ∀ rc, r.reception = some rc → ∃ rw ∈ e.Receptions, rw.Reception.ID = rc.ID) ∧
    (∀ e ∈ foldRows pre,
      (∀ r ∈ pre, r.pvzID = e.PVZ.ID → r.reception = none) → e.Receptions = []) ∧
    (∀ e ∈ foldRows pre, ∀ rw ∈ e.Receptions,
      (∀ r ∈ pre, r.pvzID = e.PVZ.ID → ∀ rc, r.reception = some rc →
        rc.ID = rw.Reception.ID → r.product = none) → rw.Products = []) ∧
    (Slices.foldRows pre).map Slices.PVZWithReceptions.toModel = foldRows pre ∧
    (∀ e ∈ Slices.foldRows pre, e.Receptions.isNil = false ∧
      ∀ rw ∈ e.Receptions.toList, rw.Products.isNil = false) := by
  refine ⟨?_, ?_, foldRows_covers pre, ?_, ?_, slices_foldRows_toModel pre,
    slices_foldRows_noNil pre⟩
  · intro hr
    rw [foldRows_append]
    exact foldRow_allReceptions_of_none _ row hr
  · intro hp
    rw [foldRows_allProducts, foldRows_allProducts, List.filterMap_append]
    have : rowProduct row = none := by
      cases hr : row.reception <;> simp [rowProduct, hr, hp]
    simp [this]
  · intro e he hall
    rw [List.eq_nil_iff_forall_not_mem]
    intro rw hrw
    obtain ⟨⟨r, hr, hid, rc, hrc, _⟩, _⟩ := foldRows_provenance pre e he rw hrw
    rw [hall r hr hid] at hrc
    cases hrc
  · intro e he rw hrw hall
    rw [List.eq_nil_iff_forall_not_mem]
    intro p hp
    obtain ⟨r, hr, hid, rc, pc, hrc, hrcid, hpc⟩ :=
      (foldRows_provenance pre e he rw hrw).2 p hp
    rw [hall r hr hid rc hrc hrcid] at hpc
    cases hpc

theorem foldRows_null_columns_witness :
    foldRows [⟨1, "Москва", 0, none, none⟩, ⟨2, "Казань", 0, some ⟨10, 5, Close⟩, none⟩] =
        [⟨⟨1, "Москва", 0⟩, []⟩, ⟨⟨2, "Казань", 0⟩, [⟨⟨10, 5, 2, Close⟩, []⟩]⟩] ∧
      allReceptions (foldRows ([⟨2, "Казань", 0, some ⟨10, 5, Close⟩, none⟩] ++
          [⟨1, "Москва", 0, none, none⟩])) =
        allReceptions (foldRows [⟨2, "Казань", 0, some ⟨10, 5, Close⟩, none⟩]) ∧
      allProducts (foldRows ([⟨1, "Москва", 0, none, none⟩] ++
          [⟨2, "Казань", 0, some ⟨10, 5, Close⟩, none⟩])) =
        allProducts (foldRows [⟨1, "Москва", 0, none, none⟩]) ∧
      (⟨⟨1, "Москва", 0⟩, []⟩ : PVZWithReceptions).Receptions = [] ∧
      Slices.foldRows [⟨1, "Москва", 0, none, none⟩, ⟨2, "Казань", 0, some ⟨10, 5, Close⟩, none⟩] =
        [⟨⟨1, "Москва", 0⟩, .lit []⟩, ⟨⟨2, "Казань", 0⟩, .lit [⟨⟨10, 5, 2, Close⟩, .lit []⟩]⟩] :=
  ⟨by decide,
    (foldRows_null_columns [⟨2, "Казань", 0, some ⟨10, 5, Close⟩, none⟩]
      ⟨1, "Москва", 0, none, none⟩).1 rfl,
    (foldRows_null_columns [⟨1, "Москва", 0, none, none⟩]
      ⟨2, "Казань", 0, some ⟨10, 5, Close⟩, none⟩).2.1 rfl,
    (foldRows_null_columns
      [⟨1, "Москва", 0, none, none⟩, ⟨2, "Казань", 0, some ⟨10, 5, Close⟩, none⟩]
      ⟨1, "Москва", 0, none, none⟩).2.2.2.1 ⟨⟨1, "Москва", 0⟩, []⟩ (by decide) (by decide),
    by decide⟩

/-! ## The workflow read back by `GetPVZs` -/

theorem pairwise_before_of_uniform (rc : ReceptionColumns) (rows : List Row)
    (h : ∀ row ∈ rows, row.reception = some rc) :
    rows.Pairwise (fun a b => Row.before a b = true) := by
  rw [List.pairwise_iff_forall_sublist]
  intro a b hab
  have ha := h a (hab.subset (List.mem_cons_self _ _))
  have hb := h b (hab.subset (List.mem_cons_of_mem _ (List.mem_singleton_self _)))
  simp [Row.before, Row.receptionDate, ha, hb]

/-- The order in which `selectRows` lists its rows is one the query allows. -/
theorem selectRows_answer (s : Store) (pvzIDs : List UUID) (conditions : List DateCondition) :
    selectRowsAnswer s pvzIDs conditions (selectRows s pvzIDs conditions) :=
  ⟨List.Perm.refl _, selectRows_sorted s pvzIDs conditions⟩

/-- C21, as stated, fails for an order of the rows that the query allows: after
the workflow with fifty products the rows of phase 2 all have the `date_time` of
the one reception, so the database may return them in the reverse order; the
loop then returns the fifty products in the reverse of the order in which they
were added, with decreasing `DateTime`. -/
theorem fullWorkflow_products_reversed :
    selectPvzIDs (fullWorkflow ⟨1, "Москва", 5⟩ 10 15 fiftyItems) (dateConditions none none)
        10 0 = [1] ∧
      selectRowsAnswer (fullWorkflow ⟨1, "Москва", 5⟩ 10 15 fiftyItems) [1]
        (dateConditions none none)
        (selectRows (fullWorkflow ⟨1, "Москва", 5⟩ 10 15 fiftyItems) [1]
          (dateConditions none none)).reverse ∧
      foldRows (selectRows (fullWorkflow ⟨1, "Москва", 5⟩ 10 15 fiftyItems) [1]
          (dateConditions none none)).reverse =
        [⟨⟨1, "Москва", 5⟩, [⟨⟨10, 15, 1, Close⟩,
          (fiftyItems.map (itemProduct 10)).reverse⟩]⟩] ∧
      (fiftyItems.map (itemProduct 10)).reverse ≠ fiftyItems.map (itemProduct 10) ∧
      ¬ (((fiftyItems.map (itemProduct 10)).reverse.map (fun p => p.DateTime)).Pairwise
        (fun a b => a ≤ b)) := by
  have hstore := fullWorkflow_eq ⟨1, "Москва", 5⟩ 10 15 fiftyItems (by decide)
  obtain ⟨hne, huni, hprod⟩ := selectRows_workflow ⟨1, "Москва", 5⟩ 10 15 fiftyItems
    (dateConditions none none) (by decide)
  rw [hstore]
  refine ⟨selectPvzIDs_workflow ⟨1, "Москва", 5⟩ 10 15 _ _ 10 (by decide) (by decide),
    ⟨List.reverse_perm _, ?_⟩, ?_, by decide, by decide⟩
  · exact pairwise_before_of_uniform ⟨10, 15, Close⟩ _
      (fun row hrow => (huni row (List.mem_reverse.1 hrow)).2.2.2)
  · rw [foldRows_of_uniform ⟨1, "Москва", 5⟩ ⟨10, 15, Close⟩ _
      (fun hnil => hne (List.reverse_eq_nil_iff.1 hnil))
      (fun row hrow => huni row (List.mem_reverse.1 hrow)),
      List.filterMap_reverse, hprod]

/-- C21, amended: on the empty store a site is created, a reception is opened
at it, products are added to it one after another (with ids that differ) and
the reception is closed.  Then `GetPVZs` with a limit of at least one, no offset
and date bounds that hold of the reception selects the site, and in whatever
order the database returns the rows of phase 2 the loop gives exactly one site
entry, that of the site, with exactly one reception entry, that of the reception
with status `close`, whose `Products` are the products added, each once.  When
the database returns the rows in the order of the products table, as `selectRows`
lists them, the products are in the order in which they were added, and their
`DateTime` does not decrease when the times of the calls do not. -/
theorem GetPVZs_fullWorkflow (pvz : PVZ) (receptionID : UUID) (receptionTime : Time)
    (items : List (UUID × String × Time)) (startDate endDate : Option Time) (limit : Nat)
    (hnodup : (items.map (fun item => item.1)).Nodup) (hlimit : 1 ≤ limit)
    (hdate : whereDate (dateConditions startDate endDate) (some receptionTime) = true) :
    fullWorkflow pvz receptionID receptionTime items =
      ⟨[pvz], [⟨receptionID, receptionTime, pvz.ID, Close⟩],
        items.map (itemProduct receptionID)⟩ ∧
    selectPvzIDs (fullWorkflow pvz receptionID receptionTime items)
      (dateConditions startDate endDate) limit 0 = [pvz.ID] ∧
    (∀ rows : List Row,
      selectRowsAnswer (fullWorkflow pvz receptionID receptionTime items) [pvz.ID]
        (dateConditions startDate endDate) rows →
      ∃ ps : List Product, ps.Perm (items.map (itemProduct receptionID)) ∧
        ps.length = items.length ∧
        foldRows rows = [⟨pvz, [⟨⟨receptionID, receptionTime, pvz.ID, Close⟩, ps⟩]⟩]) ∧
    GetPVZs (fullWorkflow pvz receptionID receptionTime items) startDate endDate limit 0 =
      .ok [⟨pvz, [⟨⟨receptionID, receptionTime, pvz.ID, Close⟩,
        items.map (itemProduct receptionID)⟩]⟩] ∧
    ((items.map (fun item => item.2.2)).Pairwise (fun a b => a ≤ b) →
      ((items.map (itemProduct receptionID)).map (fun p => p.DateTime)).Pairwise
        (fun a b => a ≤ b)) := by
  have hstore := fullWorkflow_eq pvz receptionID receptionTime items hnodup
  obtain ⟨hne, huni, hprod⟩ := selectRows_workflow pvz receptionID receptionTime items
    (dateConditions startDate endDate) hdate
  have hids := selectPvzIDs_workflow pvz receptionID receptionTime
    (items.map (itemProduct receptionID)) (dateConditions startDate endDate) limit hlimit hdate
  refine ⟨hstore, ?_, ?_, ?_, ?_⟩
  · rw [hstore]
    exact hids
  · intro rows hanswer
    have hperm := hanswer.1
    rw [hstore] at hperm
    have hne2 : rows ≠ [] := by
      intro hnil
      rw [hnil] at hperm
      exact hne hperm.symm.eq_nil
    have huni2 : ∀ row ∈ rows, row.pvzID = pvz.ID ∧ row.pvzCity = pvz.City ∧
        row.pvzRegistration = pvz.RegistrationDate ∧
        row.reception = some ⟨receptionID, receptionTime, Close⟩ :=
      fun row hrow => huni row (hperm.mem_iff.1 hrow)
    have hps : (rows.filterMap rowProduct).Perm (items.map (itemProduct receptionID)) := by
      rw [← hprod]
      exact hperm.filterMap rowProduct
    refine ⟨rows.filterMap rowProduct, hps, ?_,
      foldRows_of_uniform pvz ⟨receptionID, receptionTime, Close⟩ rows hne2 huni2⟩
    rw [hps.length_eq, List.length_map]
  · rw [hstore]
    unfold GetPVZs
    simp only [hids]
    rw [if_neg (by simp)]
    rw [foldRows_of_uniform pvz ⟨receptionID, receptionTime, Close⟩ _ hne huni, hprod]
  · intro h
    have hmap : (items.map (itemProduct receptionID)).map (fun p => p.DateTime) =
        items.map (fun item => item.2.2) := by
      rw [List.map_map]
      rfl
    rw [hmap]
    exact h

theorem GetPVZs_fullWorkflow_witness :
    (fiftyItems.map (fun item => item.1)).Nodup ∧
      (∃ ps : List Product, ps.Perm (fiftyItems.map (itemProduct 10)) ∧
        ps.length = fiftyItems.length ∧
        foldRows (selectRows (fullWorkflow ⟨1, "Москва", 5⟩ 10 15 fiftyItems) [1]
            (dateConditions none none)) =
          [⟨⟨1, "Москва", 5⟩, [⟨⟨10, 15, 1, Close⟩, ps⟩]⟩]) ∧
      GetPVZs (fullWorkflow ⟨1, "Москва", 5⟩ 10 15 fiftyItems) none none 10 0 =
        .ok [⟨⟨1, "Москва", 5⟩, [⟨⟨10, 15, 1, Close⟩, fiftyItems.map (itemProduct 10)⟩]⟩] ∧
      ((fiftyItems.map (itemProduct 10)).map (fun p => p.DateTime)).Pairwise
        (fun a b => a ≤ b) :=
  ⟨by decide,
    (GetPVZs_fullWorkflow ⟨1, "Москва", 5⟩ 10 15 fiftyItems none none 10
      (by decide) (by decide) (by decide)).2.2.1 _ (selectRows_answer _ _ _),
    (GetPVZs_fullWorkflow ⟨1, "Москва", 5⟩ 10 15 fiftyItems none none 10
      (by decide) (by decide) (by decide)).2.2.2.1,
    (GetPVZs_fullWorkflow ⟨1, "Москва", 5⟩ 10 15 fiftyItems none none 10
      (by decide) (by decide) (by decide)).2.2.2.2 (by decide)⟩

/-! ## The date bounds of `GetPVZs` -/

/-- A reception of a stored site is in the first join. -/
theorem mem_joinReceptions (s : Store) (p : PVZ) (r : Reception) (hp : p ∈ s.pvzs)
    (hr : r ∈ s.receptions) (hrp : r.PvzID = p.ID) : (p, some r) ∈ joinReceptions s := by
  unfold joinReceptions
  rw [List.mem_flatMap]
  refine ⟨p, hp, ?_⟩
  have hmem : r ∈ s.receptions.filter (fun r => decide (r.PvzID = p.ID)) := by
    rw [List.mem_filter]
    exact ⟨hr, by simpa using hrp⟩
  cases hf : s.receptions.filter (fun r => decide (r.PvzID = p.ID)) with
  | nil =>
    rw [hf] at hmem
    cases hmem
  | cons r0 rest =>
    rw [hf] at hmem
    simp only [List.mem_map]
    exact ⟨r, hmem, rfl⟩

/-- A reception of a stored site is in the second join, with a product of it or
without product. -/
theorem mem_joinProducts (s : Store) (p : PVZ) (r : Reception) (hp : p ∈ s.pvzs)
    (hr : r ∈ s.receptions) (hrp : r.PvzID = p.ID) :
    ∃ x, (p, some r, x) ∈ joinProducts s := by
  have hj := mem_joinReceptions s p r hp hr hrp
  unfold joinProducts
  cases hf : s.products.filter (fun pr => decide (pr.ReceptionID = r.ID)) with
  | nil =>
    refine ⟨none, ?_⟩
    rw [List.mem_flatMap]
    refine ⟨(p, some r), hj, ?_⟩
    simp [hf]
  | cons pr rest =>
    refine ⟨some pr, ?_⟩
    rw [List.mem_flatMap]
    refine ⟨(p, some r), hj, ?_⟩
    simp [hf]

/-- A joined row of a selected site whose reception satisfies the conditions is
a row of phase 2. -/
theorem toRow_mem_selectRows (s : Store) (pvzIDs : List UUID) (conditions : List DateCondition)
    (p : PVZ) (r : Reception) (x : Option Product) (hj : (p, some r, x) ∈ joinProducts s)
    (hid : p.ID ∈ pvzIDs) (hdate : whereDate conditions (some r.DateTime) = true) :
    toRow (p, some r, x) ∈ selectRows s pvzIDs conditions := by
  unfold selectRows
  rw [(List.perm_insertionSort _ _).mem_iff, List.mem_map]
  refine ⟨(p, some r, x), ?_, rfl⟩
  rw [List.mem_filter]
  refine ⟨hj, ?_⟩
  simp [hid, hdate]

/-- Every entry folded from the rows of phase 2 is of a selected site, and every
reception of it satisfies the conditions. -/
theorem foldRows_selectRows_filtered (s : Store) (pvzIDs : List UUID)
    (conditions : List DateCondition) :
    ∀ e ∈ foldRows (selectRows s pvzIDs conditions),
      e.PVZ.ID ∈ pvzIDs ∧
        ∀ rw ∈ e.Receptions, whereDate conditions (some rw.Reception.DateTime) = true := by
  have hall := @foldl_foldRow_all (fun p => p.ID ∈ pvzIDs)
    (fun l => ∀ rw ∈ l, whereDate conditions (some rw.Reception.DateTime) = true)
    (selectRows s pvzIDs conditions)
    (fun _ h => absurd h (List.not_mem_nil _))
    (fun row hrow => (mem_selectRows s _ _ row hrow).1)
    (by
      intro row hrow l rc hr hl rw hrw
      rcases List.mem_append.1 hrw with hrw | hrw
      · exact hl rw hrw
      · rw [List.mem_singleton] at hrw
        have hw := (mem_selectRows s _ _ row hrow).2
        rw [hrw, stepProduct_reception]
        simpa [Row.receptionDate, hr, newReception] using hw)
    (by
      intro row _ l r rc _ _ hl rw hrw
      rcases List.mem_append.1 hrw with hrw | hrw
      · exact hl rw (List.mem_append_left _ hrw)
      · rw [List.mem_singleton] at hrw
        rw [hrw, stepProduct_reception]
        exact hl r (List.mem_append_right _ (List.mem_singleton_self _)))
    FoldState.init (FoldState.init_all _ _)
  exact fun e he => hall.result e he

/-- With no offset and a limit of at least the number of sites, phase 1 selects
every site that has a reception satisfying the conditions. -/
theorem mem_selectPvzIDs_of_fits (s : Store) (conditions : List DateCondition) (limit : Nat)
    (p : PVZ) (r : Reception) (hp : p ∈ s.pvzs) (hr : r ∈ s.receptions)
    (hrp : r.PvzID = p.ID) (hdate : whereDate conditions (some r.DateTime) = true)
    (hlimit : s.pvzs.length ≤ limit) :
    p.ID ∈ selectPvzIDs s conditions limit 0 := by
  unfold selectPvzIDs
  have hsub : ((((joinReceptions s).filter
      (fun row => whereDate conditions (row.2.map (fun r => r.DateTime)))).map
      (fun row => row.1.ID)).dedup) ⊆ s.pvzs.map (fun q => q.ID) := by
    intro i hi
    rw [List.mem_dedup, List.mem_map] at hi
    obtain ⟨row, hrow, hrid⟩ := hi
    rw [List.mem_filter] at hrow
    have hrow1 := hrow.1
    unfold joinReceptions at hrow1
    rw [List.mem_flatMap] at hrow1
    obtain ⟨q, hq, hrowq⟩ := hrow1
    have h1 : row.1 = q := by
      cases hf : s.receptions.filter (fun r => decide (r.PvzID = q.ID)) with
      | nil =>
        rw [hf] at hrowq
        simp only [List.mem_singleton] at hrowq
        rw [hrowq]
      | cons r0 rest =>
        rw [hf] at hrowq
        simp only [List.mem_map] at hrowq
        obtain ⟨_, _, hx⟩ := hrowq
        rw [← hx]
    rw [List.mem_map]
    exact ⟨q, hq, by rw [← hrid, h1]⟩
  have hlen : ((((joinReceptions s).filter
      (fun row => whereDate conditions (row.2.map (fun r => r.DateTime)))).map
      (fun row => row.1.ID)).dedup).length ≤ limit := by
    have := (List.subperm_of_subset (List.nodup_dedup _) hsub).length_le
    rw [List.length_map] at this
    exact le_trans this hlimit
  rw [List.drop_zero, List.take_of_length_le hlen, List.mem_dedup, List.mem_map]
  refine ⟨(p, some r), ?_, rfl⟩
  rw [List.mem_filter]
  exact ⟨mem_joinReceptions s p r hp hr hrp, by simpa using hdate⟩

/-- C16: the date bounds of `GetPVZs` are inclusive.  A start date generates the
condition `r.date_time >= start`, an end date `r.date_time <= end`, both
generate both, none generates no condition; a reception satisfies the
conditions exactly when its `date_time` is at least the start (if given) and at
most the end (if given).  `GetPVZs` returns every reception of a site selected
in phase 1 whose `date_time` lies within the bounds, a `date_time` equal to a
bound included, and every reception it returns lies within the bounds; with no
offset and a limit of at least the number of sites, phase 1 selects the site of
every such reception. -/
theorem GetPVZs_date_bounds_inclusive (s : Store) (startDate endDate : Option Time)
    (limit offset : Nat) :
    dateConditions startDate endDate =
      (startDate.map DateCondition.GtOrEq).toList ++ (endDate.map DateCondition.LtOrEq).toList ∧
    (∀ d : Time, whereDate (dateConditions startDate endDate) (some d) = true ↔
      (∀ x, startDate = some x → x ≤ d) ∧ (∀ y, endDate = some y → d ≤ y)) ∧
    (∃ entries, GetPVZs s startDate endDate limit offset = .ok entries ∧
      (∀ p ∈ s.pvzs, ∀ r ∈ s.receptions, r.PvzID = p.ID →
        p.ID ∈ selectPvzIDs s (dateConditions startDate endDate) limit offset →
        (∀ x, startDate = some x → x ≤ r.DateTime) →
        (∀ y, endDate = some y → r.DateTime ≤ y) →
        ∃ e ∈ entries, e.PVZ.ID = p.ID ∧ ∃ rw ∈ e.Receptions, rw.Reception.ID = r.ID) ∧
      (∀ p ∈ s.pvzs, ∀ r ∈ s.receptions, r.PvzID = p.ID →
        p.ID ∈ selectPvzIDs s (dateConditions startDate endDate) limit offset →
        (startDate = none ∨ startDate = some r.DateTime) →
        (endDate = none ∨ endDate = some r.DateTime) →
        ∃ e ∈ entries, e.PVZ.ID = p.ID ∧ ∃ rw ∈ e.Receptions, rw.Reception.ID = r.ID) ∧
      (∀ e ∈ entries, ∀ rw ∈ e.Receptions,
        (∀ x, startDate = some x → x ≤ rw.Reception.DateTime) ∧
        (∀ y, endDate = some y → rw.Reception.DateTime ≤ y))) ∧
    (∀ p ∈ s.pvzs, ∀ r ∈ s.receptions, r.PvzID = p.ID →
      (∀ x, startDate = some x → x ≤ r.DateTime) →
      (∀ y, endDate = some y → r.DateTime ≤ y) →
      offset = 0 → s.pvzs.length ≤ limit →
      p.ID ∈ selectPvzIDs s (dateConditions startDate endDate) limit offset) := by
  have hreturned : ∀ p ∈ s.pvzs, ∀ r ∈ s.receptions, r.PvzID = p.ID →
      p.ID ∈ selectPvzIDs s (dateConditions startDate endDate) limit offset →
      (∀ x, startDate = some x → x ≤ r.DateTime) →
      (∀ y, endDate = some y → r.DateTime ≤ y) →
      ∃ e ∈ foldRows (selectRows s
          (selectPvzIDs s (dateConditions startDate endDate) limit offset)
          (dateConditions startDate endDate)),
        e.PVZ.ID = p.ID ∧ ∃ rw ∈ e.Receptions, rw.Reception.ID = r.ID := by
    intro p hp r hr hrp hpage hstart hend
    have hdate := (whereDate_dateConditions_iff startDate endDate r.DateTime).2 ⟨hstart, hend⟩
    obtain ⟨x, hj⟩ := mem_joinProducts s p r hp hr hrp
    have hrow := toRow_mem_selectRows s _ _ p r x hj hpage hdate
    obtain ⟨e, he, heid, hrec⟩ := foldRows_covers _ _ hrow
    obtain ⟨rw, hrw, hrwid⟩ := hrec ⟨r.ID, r.DateTime, r.Status⟩ rfl
    exact ⟨e, he, heid, rw, hrw, hrwid⟩
  refine ⟨?_, whereDate_dateConditions_iff startDate endDate, ?_, ?_⟩
  · cases startDate <;> cases endDate <;> rfl
  · unfold GetPVZs
    simp only
    split
    · rename_i hempty
      refine ⟨[], rfl, ?_, ?_, fun e he => absurd he (List.not_mem_nil _)⟩
      · intro p _ r _ _ hpage
        rw [List.length_eq_zero] at hempty
        rw [hempty] at hpage
        cases hpage
      · intro p _ r _ _ hpage
        rw [List.length_eq_zero] at hempty
        rw [hempty] at hpage
        cases hpage
    · refine ⟨_, rfl, hreturned, ?_, ?_⟩
      · intro p hp r hr hrp hpage hstart hend
        refine hreturned p hp r hr hrp hpage ?_ ?_
        · intro x hx
          rcases hstart with h | h
          · rw [h] at hx
            cases hx
          · rw [h] at hx
            cases hx
            exact le_refl _
        · intro y hy
          rcases hend with h | h
          · rw [h] at hy
            cases hy
          · rw [h] at hy
            cases hy
            exact le_refl _
      · intro e he rw hrw
        exact (whereDate_dateConditions_iff _ _ _).1
          ((foldRows_selectRows_filtered s _ _ e he).2 rw hrw)
  · intro p hp r hr hrp hstart hend hoff hlimit
    rw [hoff]
    exact mem_selectPvzIDs_of_fits s _ limit p r hp hr hrp
      ((whereDate_dateConditions_iff startDate endDate r.DateTime).2 ⟨hstart, hend⟩) hlimit

theorem GetPVZs_date_bounds_inclusive_witness :
    GetPVZs storeInterleaved (some 7) (some 7) 2 0 =
        .ok [⟨⟨2, "Казань", 0⟩, [⟨⟨11, 7, 2, InProgress⟩, []⟩]⟩] ∧
      (2 : UUID) ∈ selectPvzIDs storeInterleaved (dateConditions (some 7) (some 7)) 2 0 ∧
      ∃ entries, GetPVZs storeInterleaved (some 7) (some 7) 2 0 = .ok entries ∧
        ∃ e ∈ entries, e.PVZ.ID = 2 ∧ ∃ rw ∈ e.Receptions, rw.Reception.ID = 11 :=
  ⟨by decide,
    (GetPVZs_date_bounds_inclusive storeInterleaved (some 7) (some 7) 2 0).2.2.2
      ⟨2, "Казань", 0⟩ (by decide) ⟨11, 7, 2, InProgress⟩ (by decide) rfl
      (by intro x hx; cases hx; exact le_refl _) (by intro y hy; cases hy; exact le_refl _)
      rfl (by decide),
    by
      obtain ⟨entries, hres, _, hequal, _⟩ :=
        (GetPVZs_date_bounds_inclusive storeInterleaved (some 7) (some 7) 2 0).2.2.1
      exact ⟨entries, hres, hequal ⟨2, "Казань", 0⟩ (by decide) ⟨11, 7, 2, InProgress⟩
        (by decide) rfl (by decide) (Or.inr rfl) (Or.inr rfl)⟩⟩

end PvzService
